import Mathlib

/-!
Verification development for the worker task scheduler of the
Universal-electron-application repository.

The scheduler lives in src/main/worker-pool-manager.ts
(class WorkerPoolManager).  The base worker message loop lives in the
base worker script (unnamed part of the repository).  The shallow
embedding below models the pool as an explicit state record; JavaScript
Map objects become insertion-ordered association lists, worker objects
become numeric identifiers, promise callbacks become numeric callback
identifiers, and timers become an explicit list of armed timers.  Two
ghost logs record the observable effects: `settled` records every
invocation of a pending submission resolve or reject callback, and
`sent` records every postMessage to a worker.  The field `subIds`
is a ghost list of all task ids ever submitted, used to express the
distinct-ids discipline.
-/

/-- Association list lookup, mirroring JavaScript Map.get: the first
entry with the key wins. -/
def mapGet {α β : Type} [DecidableEq α] (k : α) : List (α × β) → Option β
  | [] => none
  | (k₀, v₀) :: rest => if k₀ = k then some v₀ else mapGet k rest

/-- Association list update, mirroring JavaScript Map.set: replace in
place when the key is present, append otherwise. -/
def mapSet {α β : Type} [DecidableEq α] (k : α) (v : β) : List (α × β) → List (α × β)
  | [] => [(k, v)]
  | (k₀, v₀) :: rest => if k₀ = k then (k, v) :: rest else (k₀, v₀) :: mapSet k v rest

/-- Association list deletion, mirroring JavaScript Map.delete: remove
the first entry with the key. -/
def mapDel {α β : Type} [DecidableEq α] (k : α) : List (α × β) → List (α × β)
  | [] => []
  | (k₀, v₀) :: rest => if k₀ = k then rest else (k₀, v₀) :: mapDel k rest

/-- WorkerTask from src/shared (logger.ts): id, type, data, optional
priority, optional timeout.  The field `type` is spelled `ty` because
`type` is reserved in Lean.  The payload is opaque to the scheduler and
is modelled as a natural number. -/
structure WorkerTask where
  id : String
  ty : String
  data : Nat
  priority : Option Int
  timeout : Option Nat
  deriving DecidableEq, Repr

/-- WorkerTaskResult from src/shared: taskId, success, optional result,
optional error message. -/
structure WorkerTaskResult where
  taskId : String
  success : Bool
  result : Option Nat
  error : Option String
  deriving DecidableEq, Repr

/-- An entry of this.taskQueue: the task plus the identity of the
pending submission (its resolve and reject callbacks). -/
structure QEntry where
  task : WorkerTask
  cb : Nat
  deriving DecidableEq, Repr

/-- The value stored in this.activeTasks: the worker assigned to the
task and the armed timeout handle, if any. -/
structure ActiveInfo where
  worker : Nat
  timeout : Option Nat
  deriving DecidableEq, Repr

/-- A settlement of a pending submission: resolve carries the worker
result, reject carries the error message. -/
inductive Outcome where
  | resolved : Option Nat → Outcome
  | rejected : String → Outcome
  deriving DecidableEq, Repr

/-- A message posted to a worker: either a dispatched task or the
advisory cancellation notice sent by cancelTask. -/
inductive SentMsg where
  | taskMsg : Nat → WorkerTask → SentMsg
  | cancelMsg : Nat → String → SentMsg
  deriving DecidableEq, Repr

/-- The state of the WorkerPoolManager.  Fields `settled`, `sent` and
`subIds` are ghost observation logs; the rest mirror the private fields
of the class (worker objects are numbered by creation order via
`nextWorker`, the per-worker __taskCallbacks objects are flattened into
one association list keyed by worker and task id, and armed timers are
kept as (timer id, captured task, captured callback) triples). -/
structure PoolState where
  workers : List Nat
  taskQueue : List QEntry
  activeTasks : List (String × ActiveInfo)
  callbacks : List ((Nat × String) × Nat)
  timers : List (Nat × WorkerTask × Nat)
  settled : List (Nat × Outcome)
  sent : List SentMsg
  nextCb : Nat
  nextTimer : Nat
  nextWorker : Nat
  maxWorkers : Nat
  subIds : List String
  deriving DecidableEq, Repr

/-- Append one settlement to the ghost log (one invocation of a pending
submission resolve or reject callback). -/
def settle (cb : Nat) (o : Outcome) (s : PoolState) : PoolState :=
  { s with settled := s.settled ++ [(cb, o)] }

/-- clearTimeout on an optional timer handle: disarm the timer with
that id, if any. -/
def clearTimeoutOpt (t : Option Nat) (s : PoolState) : PoolState :=
  match t with
  | none => s
  | some tid => { s with timers := s.timers.filter (fun x => x.1 != tid) }

/-- Effective priority of a queue entry: task.priority || 0. -/
def qPri (e : QEntry) : Int := e.task.priority.getD 0

/-- Stable insertion into a descending-priority list: the new entry
goes before the first strictly lower priority entry, hence after every
entry of greater or equal priority that was already sorted, and before
equal-priority entries inserted later (the entry inserted last by the
fold below is the earliest submission). -/
def sortInsert (e : QEntry) : List QEntry → List QEntry
  | [] => [e]
  | y :: ys => if qPri e < qPri y then y :: sortInsert e ys else e :: y :: ys

/-- The stable descending-priority sort performed by
this.taskQueue.sort((a, b) => (b.task.priority || 0) - (a.task.priority || 0)).
JavaScript Array.prototype.sort is stable, and a stable sort by a total
preorder has a unique result, so insertion sort is an exact model. -/
def sortQueue : List QEntry → List QEntry
  | [] => []
  | x :: xs => sortInsert x (sortQueue xs)

/-- Whether some in-flight task is assigned to this worker:
Array.from(this.activeTasks.values()).some((t) => t.worker === worker). -/
def isBusy (s : PoolState) (w : Nat) : Bool :=
  s.activeTasks.any (fun p => p.2.worker = w)

/-- The idle workers found by processQueue:
this.workers.filter((worker) => not busy). -/
def availableWorkers (s : PoolState) : List Nat :=
  s.workers.filter (fun w => ! isBusy s w)

/-- One iteration body of the while loop of processQueue, applied to a
state whose queue has already been popped: arm the timeout if the task
has one (setTimeout is armed here, at dispatch), record the assignment
in activeTasks, stash the callbacks on the worker, and post the task to
the worker. -/
def dispatchOne (w : Nat) (e : QEntry) (s : PoolState) : PoolState :=
  let p : Option Nat × PoolState :=
    if e.task.timeout.getD 0 ≠ 0 then
      (some s.nextTimer,
        { s with
          timers := s.timers ++ [(s.nextTimer, e.task, e.cb)],
          nextTimer := s.nextTimer + 1 })
    else (none, s)
  { p.2 with
    activeTasks := mapSet e.task.id ⟨w, p.1⟩ p.2.activeTasks,
    callbacks := mapSet (w, e.task.id) e.cb p.2.callbacks,
    sent := p.2.sent ++ [SentMsg.taskMsg w e.task] }

/-- The while loop of processQueue: while there is an available worker
and a queued task, pop both and dispatch. -/
def assignLoop : List Nat → PoolState → PoolState
  | [], s => s
  | w :: ws, s =>
    match s.taskQueue with
    | [] => s
    | e :: rest => assignLoop ws (dispatchOne w e { s with taskQueue := rest })

/-- processQueue: return early on an empty queue, otherwise sort the
queue by descending priority, compute the available workers once, and
run the assignment loop. -/
def processQueue (s : PoolState) : PoolState :=
  if s.taskQueue.isEmpty then s
  else assignLoop (availableWorkers s) { s with taskQueue := sortQueue s.taskQueue }

/-- submitTask: push the task with a fresh pending submission onto the
queue and call processQueue.  The promise executor runs synchronously,
so the new callback identity is this.nextCb.  The ghost subIds log
records the submitted id. -/
def submitTask (t : WorkerTask) (s : PoolState) : PoolState :=
  processQueue
    { s with
      taskQueue := s.taskQueue ++ [⟨t, s.nextCb⟩],
      nextCb := s.nextCb + 1,
      subIds := s.subIds ++ [t.id] }

/-- The outcome delivered by handleWorkerMessage: resolve(result.result)
on success, reject(new Error(result.error || Task failed)) otherwise. -/
def settleOutcome (r : WorkerTaskResult) : Outcome :=
  if r.success then Outcome.resolved r.result
  else Outcome.rejected (r.error.getD "Task failed")

/-- handleWorkerMessage: look the task up in activeTasks by
result.taskId and discard unknown results; otherwise clear the timeout,
remove the task from activeTasks, settle the callbacks stashed on the
sending worker if present, and run processQueue. -/
def handleWorkerMessage (w : Nat) (r : WorkerTaskResult) (s : PoolState) : PoolState :=
  match mapGet r.taskId s.activeTasks with
  | none => s
  | some info =>
    let s₁ := clearTimeoutOpt info.timeout s
    let s₂ : PoolState := { s₁ with activeTasks := mapDel r.taskId s₁.activeTasks }
    let s₃ : PoolState :=
      match mapGet (w, r.taskId) s₂.callbacks with
      | none => s₂
      | some cb =>
        let s₂a := settle cb (settleOutcome r) s₂
        { s₂a with callbacks := mapDel (w, r.taskId) s₂a.callbacks }
    processQueue s₃

/-- The iteration of handleWorkerError over the activeTasks entries:
for every task assigned to the failed worker, reject its stashed
callbacks with the error, clear its timer and delete it from
activeTasks.  The list argument is the snapshot being iterated. -/
def errLoop (w : Nat) (err : String) : List (String × ActiveInfo) → PoolState → PoolState
  | [], s => s
  | (tid, info) :: rest, s =>
    if info.worker = w then
      let s₁ : PoolState :=
        match mapGet (w, tid) s.callbacks with
        | none => s
        | some cb =>
          let sa := settle cb (Outcome.rejected err) s
          { sa with callbacks := mapDel (w, tid) sa.callbacks }
      let s₂ := clearTimeoutOpt info.timeout s₁
      let s₃ : PoolState := { s₂ with activeTasks := mapDel tid s₂.activeTasks }
      errLoop w err rest s₃
    else errLoop w err rest s

/-- handleWorkerError: reject every task assigned to the worker.  The
worker itself stays in this.workers; no dispatch is triggered. -/
def handleWorkerError (w : Nat) (err : String) (s : PoolState) : PoolState :=
  errLoop w err s.activeTasks s

/-- cancelTask: unknown ids (anything not in activeTasks, including
queued-but-undispatched tasks) return false and change nothing; for an
in-flight task, clear the timer, delete the activeTasks entry, post the
advisory cancellation notice to the worker, and return true.  The
pending submission is not settled and the queue is not touched. -/
def cancelTask (taskId : String) (s : PoolState) : Bool × PoolState :=
  match mapGet taskId s.activeTasks with
  | none => (false, s)
  | some info =>
    let s₁ := clearTimeoutOpt info.timeout s
    let s₂ : PoolState := { s₁ with activeTasks := mapDel taskId s₁.activeTasks }
    (true, { s₂ with sent := s₂.sent ++ [SentMsg.cancelMsg info.worker taskId] })

/-- A timeout firing: the timer is disarmed by firing, then the armed
closure runs this.cancelTask(task.id) and rejects the pending
submission with the timeout error. -/
def timerFire (tid : Nat) (s : PoolState) : PoolState :=
  match s.timers.find? (fun x => x.1 == tid) with
  | none => s
  | some (_, t, cb) =>
    let s₀ : PoolState := { s with timers := s.timers.filter (fun x => x.1 != tid) }
    let s₁ := (cancelTask t.id s₀).2
    settle cb
      (Outcome.rejected
        ("Task " ++ t.id ++ " timed out after " ++ toString (t.timeout.getD 0) ++ "ms"))
      s₁

/-- removeWorker, run by the worker exit listener: splice the worker
out of this.workers.  Nothing else happens on exit. -/
def removeWorker (w : Nat) (s : PoolState) : PoolState :=
  { s with workers := s.workers.erase w }

/-- shutdown: reject every queued pending submission with the shutdown
error, clear the queue, terminate the workers and clear activeTasks.
Timers of in-flight tasks are not cleared and in-flight pending
submissions are not settled. -/
def shutdown (s : PoolState) : PoolState :=
  let s₁ := s.taskQueue.foldl
    (fun acc e => settle e.cb (Outcome.rejected "Worker pool is shutting down") acc) s
  { s₁ with taskQueue := [], workers := [], activeTasks := [] }

/-- One worker created by initialize: a fresh worker object is pushed
onto this.workers.  initialize does not trigger dispatch. -/
def addWorker (s : PoolState) : PoolState :=
  { s with workers := s.workers ++ [s.nextWorker], nextWorker := s.nextWorker + 1 }

/-- The record returned by getStats. -/
structure PoolStats where
  totalWorkers : Nat
  activeWorkers : Nat
  queuedTasks : Nat
  maxWorkers : Nat
  deriving DecidableEq, Repr

/-- getStats: a pure read of the current counts. -/
def getStats (s : PoolState) : PoolStats :=
  ⟨s.workers.length, s.activeTasks.length, s.taskQueue.length, s.maxWorkers⟩

/-- The freshly constructed pool (constructor plus empty bookkeeping),
with the configured maxWorkers. -/
def initState (m : Nat) : PoolState :=
  { workers := [], taskQueue := [], activeTasks := [], callbacks := [], timers := [],
    settled := [], sent := [], nextCb := 0, nextTimer := 0, nextWorker := 0,
    maxWorkers := m, subIds := [] }

/-- The external events the pool reacts to. -/
inductive Event where
  | submit : WorkerTask → Event
  | message : Nat → WorkerTaskResult → Event
  | workerError : Nat → String → Event
  | exited : Nat → Event
  | cancel : String → Event
  | fire : Nat → Event
  | addW : Event
  | shutdownEvent : Event
  deriving DecidableEq, Repr

/-- The handler the pool runs for each event. -/
def applyEvent : Event → PoolState → PoolState
  | Event.submit t, s => submitTask t s
  | Event.message w r, s => handleWorkerMessage w r s
  | Event.workerError w e, s => handleWorkerError w e s
  | Event.exited w, s => removeWorker w s
  | Event.cancel tid, s => (cancelTask tid s).2
  | Event.fire tid, s => timerFire tid s
  | Event.addW, s => addWorker s
  | Event.shutdownEvent, s => shutdown s

/-- Run a list of events from a state. -/
def runEvents (es : List Event) (s : PoolState) : PoolState :=
  es.foldl (fun st e => applyEvent e st) s

/-- The task ids submitted along a list of events. -/
def submittedIds (es : List Event) : List String :=
  es.filterMap (fun e => match e with | Event.submit t => some t.id | _ => none)

/-! ### Base worker model (worker message loop) -/

/-- A registered task handler: payload to result, or a thrown error
message. -/
def Handler : Type := Nat → Except String Nat

/-- registerTaskHandler: last registration for a type wins. -/
def registerTaskHandler (ty : String) (h : Handler)
    (handlers : List (String × Handler)) : List (String × Handler) :=
  mapSet ty h handlers

/-- The parentPort message listener of the base worker: a message whose
type field is cancel is treated as the advisory cancellation notice and
produces no reply; any other message is treated as a task, answered
with success and the handler result, or with a structured failure when
the handler is missing or throws.  The worker never crashes on a
handler exception: the reply is always produced. -/
def baseWorkerOnMessage (handlers : List (String × Handler)) (task : WorkerTask) :
    Option WorkerTaskResult :=
  if task.ty = "cancel" then none
  else some
    (match mapGet task.ty handlers with
     | none =>
       { taskId := task.id, success := false, result := none,
         error := some ("No handler registered for task type: " ++ task.ty) }
     | some h =>
       match h task.data with
       | Except.ok v =>
         { taskId := task.id, success := true, result := some v, error := none }
       | Except.error e =>
         { taskId := task.id, success := false, result := none, error := some e })

/-! ### getInstance model -/

/-- The constructor: this.maxWorkers = maxWorkers || Math.max(cpus - 1, 1).
A missing or zero argument falls back to the default. -/
def constructorMaxWorkers (cpuCount : Nat) (maxWorkers : Option Nat) : Nat :=
  if maxWorkers.getD 0 = 0 then max (cpuCount - 1) 1 else maxWorkers.getD 0

/-- getInstance over the static instance slot: construct on the first
call, return the cached instance afterwards.  The instance is
identified with its configured maxWorkers. -/
def getInstance (cpuCount : Nat) (inst : Option Nat) (arg : Option Nat) :
    Nat × Option Nat :=
  match inst with
  | some i => (i, some i)
  | none =>
    let i := constructorMaxWorkers cpuCount arg
    (i, some i)

/-! ### State projections and invariants -/

/-- The callback identities of the queued pending submissions. -/
def queueCbs (s : PoolState) : List Nat := s.taskQueue.map QEntry.cb

/-- The task ids currently queued. -/
def queueIds (s : PoolState) : List String := s.taskQueue.map (fun e => e.task.id)

/-- The task ids currently in activeTasks. -/
def gateKeys (s : PoolState) : List String := s.activeTasks.map Prod.fst

/-- The workers currently recorded as holding an in-flight task. -/
def gateWorkers (s : PoolState) : List Nat := s.activeTasks.map (fun p => p.2.worker)

/-- The (worker, task id) keys of the stashed callback entries. -/
def cbKeys (s : PoolState) : List (Nat × String) := s.callbacks.map Prod.fst

/-- The callback identities stashed on workers. -/
def cbVals (s : PoolState) : List Nat := s.callbacks.map Prod.snd

/-- The callback identities captured by armed timers. -/
def timerCbs (s : PoolState) : List Nat := s.timers.map (fun x => x.2.2)

/-- The callback identities of all recorded settlements. -/
def settledCbs (s : PoolState) : List Nat := s.settled.map Prod.fst

/-- How many times a given pending submission has been settled. -/
def settledCount (s : PoolState) (cb : Nat) : Nat := (settledCbs s).count cb

/-- Lifecycle stage of one pending submission: still queued.  It has
been settled zero times and no worker stash or timer refers to it. -/
def CbQueued (s : PoolState) (cb : Nat) : Prop :=
  settledCount s cb = 0 ∧ cb ∈ queueCbs s ∧ cb ∉ cbVals s ∧ cb ∉ timerCbs s

/-- Lifecycle stage: dispatched and in flight.  Exactly one worker
stash entry refers to it, the matching activeTasks entry is present,
and any timer captured for it is the one recorded in that entry. -/
def CbActive (s : PoolState) (cb : Nat) : Prop :=
  settledCount s cb = 0 ∧ cb ∉ queueCbs s ∧
  ∃ w tid topt,
    mapGet (w, tid) s.callbacks = some cb ∧
    (∀ w2 tid2, mapGet (w2, tid2) s.callbacks = some cb → w2 = w ∧ tid2 = tid) ∧
    mapGet tid s.activeTasks = some ⟨w, topt⟩ ∧
    tid ∉ queueIds s ∧
    (∀ x ∈ s.timers, x.2.2 = cb → topt = some x.1 ∧ x.2.1.id = tid) ∧
    (∀ x ∈ s.timers, ∀ y ∈ s.timers, x.2.2 = cb → y.2.2 = cb → x = y)

/-- Lifecycle stage: the activeTasks entry is gone (shutdown cleared
it) but the timer armed at dispatch is still pending; any stale stash
entries are unusable because their task id is tracked nowhere. -/
def CbTimerOnly (s : PoolState) (cb : Nat) : Prop :=
  settledCount s cb = 0 ∧ cb ∉ queueCbs s ∧
  (∃ x ∈ s.timers, x.2.2 = cb) ∧
  (∀ x ∈ s.timers, ∀ y ∈ s.timers, x.2.2 = cb → y.2.2 = cb → x = y) ∧
  (∀ w tid, mapGet (w, tid) s.callbacks = some cb → tid ∉ gateKeys s ∧ tid ∉ queueIds s)

/-- Lifecycle stage: finished (settled at most once) or orphaned.  No
queue entry or timer refers to it and any stale stash entries are
unusable because their task id is tracked nowhere. -/
def CbDead (s : PoolState) (cb : Nat) : Prop :=
  settledCount s cb ≤ 1 ∧ cb ∉ queueCbs s ∧ cb ∉ timerCbs s ∧
  (∀ w tid, mapGet (w, tid) s.callbacks = some cb → tid ∉ gateKeys s ∧ tid ∉ queueIds s)

/-- Every pending submission is in one of the four lifecycle stages. -/
def CbState (s : PoolState) (cb : Nat) : Prop :=
  CbQueued s cb ∨ CbActive s cb ∨ CbTimerOnly s cb ∨ CbDead s cb

/-- The global invariant maintained by the pool under the
distinct-task-ids discipline: inclusion of every tracked task id in the
ghost submission log, uniqueness of queue ids, queue callback ids, gate
keys and stash keys, disjointness of queued and in-flight ids,
freshness of the callback counter, and the per-submission lifecycle. -/
structure GInv (s : PoolState) : Prop where
  subQ : ∀ tid ∈ queueIds s, tid ∈ s.subIds
  subG : ∀ tid ∈ gateKeys s, tid ∈ s.subIds
  subC : ∀ k ∈ cbKeys s, k.2 ∈ s.subIds
  qidN : (queueIds s).Nodup
  qidG : ∀ tid ∈ queueIds s, tid ∉ gateKeys s
  qcbN : (queueCbs s).Nodup
  gkN : (gateKeys s).Nodup
  ckN : (cbKeys s).Nodup
  cbB : ∀ cb, cb ∈ queueCbs s ∨ cb ∈ cbVals s ∨ cb ∈ timerCbs s ∨ cb ∈ settledCbs s →
    cb < s.nextCb
  states : ∀ cb, CbState s cb

/-- The worker bookkeeping invariant, maintained unconditionally: the
worker list has no duplicates, worker identities are below the creation
counter, and no worker appears twice among the in-flight assignments. -/
def WInv (s : PoolState) : Prop :=
  s.workers.Nodup ∧ (∀ w ∈ s.workers, w < s.nextWorker) ∧
  (gateWorkers s).Nodup ∧ (∀ w ∈ gateWorkers s, w < s.nextWorker)

/-- The distinct-ids discipline: a submit event must use a task id
never submitted before; every other event is unrestricted. -/
def StepOK : Event → PoolState → Prop
  | Event.submit t, s => t.id ∉ s.subIds
  | _, _ => True

/-! ## Association list lemmas -/

theorem mapGet_mapSet_self {α β : Type} [DecidableEq α] (k : α) (v : β) (m : List (α × β)) :
    mapGet k (mapSet k v m) = some v := by
  induction m with
  | nil => simp [mapSet, mapGet]
  | cons p t ih =>
    obtain ⟨k₀, v₀⟩ := p
    by_cases hk : k₀ = k <;> simp [mapSet, mapGet, hk, ih]

theorem mapGet_mapSet_ne {α β : Type} [DecidableEq α] {k k' : α} (v : β) (m : List (α × β))
    (h : k' ≠ k) : mapGet k' (mapSet k v m) = mapGet k' m := by
  induction m with
  | nil => simp [mapSet, mapGet, Ne.symm h]
  | cons p t ih =>
    obtain ⟨k₀, v₀⟩ := p
    by_cases hk : k₀ = k
    · subst hk
      simp [mapSet, mapGet, Ne.symm h, h]
    · simp [mapSet, mapGet, hk, ih]

theorem mapGet_mapDel_ne {α β : Type} [DecidableEq α] {k k' : α} (m : List (α × β))
    (h : k' ≠ k) : mapGet k' (mapDel k m) = mapGet k' m := by
  induction m with
  | nil => simp [mapDel]
  | cons p t ih =>
    obtain ⟨k₀, v₀⟩ := p
    by_cases hk : k₀ = k
    · subst hk
      simp [mapDel, mapGet, Ne.symm h, h]
    · simp [mapDel, mapGet, hk, ih]

theorem mapDel_sublist {α β : Type} [DecidableEq α] (k : α) (m : List (α × β)) :
    (mapDel k m).Sublist m := by
  induction m with
  | nil => simp [mapDel]
  | cons p t ih =>
    obtain ⟨k₀, v₀⟩ := p
    by_cases hk : k₀ = k
    · simp only [mapDel, if_pos hk]
      exact List.sublist_cons_self _ _
    · simp only [mapDel, if_neg hk]
      exact ih.cons₂ _

theorem mapGet_eq_none_iff {α β : Type} [DecidableEq α] (k : α) (m : List (α × β)) :
    mapGet k m = none ↔ k ∉ m.map Prod.fst := by
  induction m with
  | nil => simp [mapGet]
  | cons p t ih =>
    obtain ⟨k₀, v₀⟩ := p
    by_cases hk : k₀ = k
    · subst hk
      simp [mapGet]
    · simp [mapGet, hk, ih, Ne.symm hk]

theorem mapGet_mem {α β : Type} [DecidableEq α] {k : α} {v : β} {m : List (α × β)}
    (h : mapGet k m = some v) : (k, v) ∈ m := by
  induction m with
  | nil => simp [mapGet] at h
  | cons p t ih =>
    obtain ⟨k₀, v₀⟩ := p
    by_cases hk : k₀ = k
    · subst hk
      simp [mapGet] at h
      simp [h]
    · simp [mapGet, hk] at h
      exact List.mem_cons_of_mem _ (ih h)

theorem mem_keys_of_mapGet_some {α β : Type} [DecidableEq α] {k : α} {v : β}
    {m : List (α × β)} (h : mapGet k m = some v) : k ∈ m.map Prod.fst := by
  have := mapGet_mem h
  exact List.mem_map.mpr ⟨(k, v), this, rfl⟩

theorem mem_vals_of_mapGet_some {α β : Type} [DecidableEq α] {k : α} {v : β}
    {m : List (α × β)} (h : mapGet k m = some v) : v ∈ m.map Prod.snd := by
  have := mapGet_mem h
  exact List.mem_map.mpr ⟨(k, v), this, rfl⟩

theorem mapGet_of_mem_nodup {α β : Type} [DecidableEq α] {k : α} {v : β} {m : List (α × β)}
    (hn : (m.map Prod.fst).Nodup) (h : (k, v) ∈ m) : mapGet k m = some v := by
  induction m with
  | nil => simp at h
  | cons p t ih =>
    obtain ⟨k₀, v₀⟩ := p
    simp at hn
    rcases List.mem_cons.mp h with h₁ | h₂
    · have hk : k = k₀ ∧ v = v₀ := by simpa using h₁
      obtain ⟨hk1, hk2⟩ := hk
      subst hk1
      subst hk2
      simp [mapGet]
    · have hk : k₀ ≠ k := by
        intro hkk
        subst hkk
        exact hn.1 v h₂
      simp [mapGet, hk]
      exact ih hn.2 h₂

theorem mapSet_of_mapGet_none {α β : Type} [DecidableEq α] {k : α} (v : β)
    {m : List (α × β)} (h : mapGet k m = none) : mapSet k v m = m ++ [(k, v)] := by
  induction m with
  | nil => simp [mapSet]
  | cons p t ih =>
    obtain ⟨k₀, v₀⟩ := p
    by_cases hk : k₀ = k
    · simp [mapGet, hk] at h
    · simp [mapGet, hk] at h
      simp [mapSet, hk, ih h]

theorem mapDel_of_mapGet_none {α β : Type} [DecidableEq α] {k : α}
    {m : List (α × β)} (h : mapGet k m = none) : mapDel k m = m := by
  induction m with
  | nil => simp [mapDel]
  | cons p t ih =>
    obtain ⟨k₀, v₀⟩ := p
    by_cases hk : k₀ = k
    · simp [mapGet, hk] at h
    · simp [mapGet, hk] at h
      simp [mapDel, hk, ih h]

theorem mapGet_mapDel_self {α β : Type} [DecidableEq α] (k : α) {m : List (α × β)}
    (hn : (m.map Prod.fst).Nodup) : mapGet k (mapDel k m) = none := by
  induction m with
  | nil => simp [mapDel, mapGet]
  | cons p t ih =>
    obtain ⟨k₀, v₀⟩ := p
    simp at hn
    by_cases hk : k₀ = k
    · subst hk
      simp only [mapDel, if_pos rfl]
      rw [mapGet_eq_none_iff]
      intro hmem
      obtain ⟨q, hq, hqk⟩ := List.mem_map.mp hmem
      obtain ⟨a, b⟩ := q
      simp at hqk
      subst hqk
      exact hn.1 b hq
    · simp [mapDel, hk, mapGet, hk]
      exact ih hn.2

theorem mapDel_spec {α β : Type} [DecidableEq α] (k : α) (m : List (α × β)) :
    (mapGet k m = none ∧ mapDel k m = m) ∨
    (∃ m₁ v₀ m₂, m = m₁ ++ (k, v₀) :: m₂ ∧ (∀ p ∈ m₁, p.1 ≠ k) ∧
      mapGet k m = some v₀ ∧ mapDel k m = m₁ ++ m₂) := by
  induction m with
  | nil => left; exact ⟨rfl, rfl⟩
  | cons p t ih =>
    obtain ⟨k₀, v₀⟩ := p
    by_cases hk : k₀ = k
    · subst hk
      right
      exact ⟨[], v₀, t, rfl, by simp, by simp [mapGet], by simp [mapDel]⟩
    · rcases ih with ⟨h₁, h₂⟩ | ⟨m₁, w₀, m₂, hm, hne, hg, hd⟩
      · left
        exact ⟨by simp [mapGet, hk, h₁], by simp [mapDel, hk, h₂]⟩
      · right
        exact ⟨(k₀, v₀) :: m₁, w₀, m₂, by simp [hm], by
          intro q hq
          rcases List.mem_cons.mp hq with h | h
          · simp [h, hk]
          · exact hne q h, by simp [mapGet, hk, hg], by simp [mapDel, hk, hd]⟩

theorem mapSet_spec {α β : Type} [DecidableEq α] (k : α) (v : β) (m : List (α × β)) :
    (mapGet k m = none ∧ mapSet k v m = m ++ [(k, v)]) ∨
    (∃ m₁ v₀ m₂, m = m₁ ++ (k, v₀) :: m₂ ∧ (∀ p ∈ m₁, p.1 ≠ k) ∧
      mapGet k m = some v₀ ∧ mapSet k v m = m₁ ++ (k, v) :: m₂) := by
  induction m with
  | nil => left; exact ⟨rfl, rfl⟩
  | cons p t ih =>
    obtain ⟨k₀, v₀⟩ := p
    by_cases hk : k₀ = k
    · subst hk
      right
      exact ⟨[], v₀, t, rfl, by simp, by simp [mapGet], by simp [mapSet]⟩
    · rcases ih with ⟨h₁, h₂⟩ | ⟨m₁, w₀, m₂, hm, hne, hg, hd⟩
      · left
        exact ⟨by simp [mapGet, hk, h₁], by simp [mapSet, hk, h₂]⟩
      · right
        exact ⟨(k₀, v₀) :: m₁, w₀, m₂, by simp [hm], by
          intro q hq
          rcases List.mem_cons.mp hq with h | h
          · simp [h, hk]
          · exact hne q h, by simp [mapGet, hk, hg], by simp [mapSet, hk, hd]⟩

/-! ## Field projection lemmas for the pool operations -/

theorem clearTimeoutOpt_workers (t : Option Nat) (s : PoolState) :
    (clearTimeoutOpt t s).workers = s.workers := by cases t <;> rfl

theorem clearTimeoutOpt_taskQueue (t : Option Nat) (s : PoolState) :
    (clearTimeoutOpt t s).taskQueue = s.taskQueue := by cases t <;> rfl

theorem clearTimeoutOpt_activeTasks (t : Option Nat) (s : PoolState) :
    (clearTimeoutOpt t s).activeTasks = s.activeTasks := by cases t <;> rfl

theorem clearTimeoutOpt_callbacks (t : Option Nat) (s : PoolState) :
    (clearTimeoutOpt t s).callbacks = s.callbacks := by cases t <;> rfl

theorem clearTimeoutOpt_settled (t : Option Nat) (s : PoolState) :
    (clearTimeoutOpt t s).settled = s.settled := by cases t <;> rfl

theorem clearTimeoutOpt_nextCb (t : Option Nat) (s : PoolState) :
    (clearTimeoutOpt t s).nextCb = s.nextCb := by cases t <;> rfl

theorem clearTimeoutOpt_nextWorker (t : Option Nat) (s : PoolState) :
    (clearTimeoutOpt t s).nextWorker = s.nextWorker := by cases t <;> rfl

theorem clearTimeoutOpt_subIds (t : Option Nat) (s : PoolState) :
    (clearTimeoutOpt t s).subIds = s.subIds := by cases t <;> rfl

theorem clearTimeoutOpt_timers_sublist (t : Option Nat) (s : PoolState) :
    (clearTimeoutOpt t s).timers.Sublist s.timers := by
  cases t with
  | none => exact List.Sublist.refl _
  | some tid => exact List.filter_sublist _

theorem dispatchOne_workers (w : Nat) (e : QEntry) (s : PoolState) :
    (dispatchOne w e s).workers = s.workers := by
  by_cases h : e.task.timeout.getD 0 ≠ 0 <;> simp [dispatchOne, h]

theorem dispatchOne_taskQueue (w : Nat) (e : QEntry) (s : PoolState) :
    (dispatchOne w e s).taskQueue = s.taskQueue := by
  by_cases h : e.task.timeout.getD 0 ≠ 0 <;> simp [dispatchOne, h]

theorem dispatchOne_settled (w : Nat) (e : QEntry) (s : PoolState) :
    (dispatchOne w e s).settled = s.settled := by
  by_cases h : e.task.timeout.getD 0 ≠ 0 <;> simp [dispatchOne, h]

theorem dispatchOne_nextCb (w : Nat) (e : QEntry) (s : PoolState) :
    (dispatchOne w e s).nextCb = s.nextCb := by
  by_cases h : e.task.timeout.getD 0 ≠ 0 <;> simp [dispatchOne, h]

theorem dispatchOne_nextWorker (w : Nat) (e : QEntry) (s : PoolState) :
    (dispatchOne w e s).nextWorker = s.nextWorker := by
  by_cases h : e.task.timeout.getD 0 ≠ 0 <;> simp [dispatchOne, h]

theorem dispatchOne_maxWorkers (w : Nat) (e : QEntry) (s : PoolState) :
    (dispatchOne w e s).maxWorkers = s.maxWorkers := by
  by_cases h : e.task.timeout.getD 0 ≠ 0 <;> simp [dispatchOne, h]

theorem dispatchOne_subIds (w : Nat) (e : QEntry) (s : PoolState) :
    (dispatchOne w e s).subIds = s.subIds := by
  by_cases h : e.task.timeout.getD 0 ≠ 0 <;> simp [dispatchOne, h]

theorem dispatchOne_activeTasks (w : Nat) (e : QEntry) (s : PoolState) :
    (dispatchOne w e s).activeTasks =
      mapSet e.task.id
        ⟨w, if e.task.timeout.getD 0 ≠ 0 then some s.nextTimer else none⟩
        s.activeTasks := by
  by_cases h : e.task.timeout.getD 0 ≠ 0 <;> simp [dispatchOne, h]

theorem dispatchOne_callbacks (w : Nat) (e : QEntry) (s : PoolState) :
    (dispatchOne w e s).callbacks = mapSet (w, e.task.id) e.cb s.callbacks := by
  by_cases h : e.task.timeout.getD 0 ≠ 0 <;> simp [dispatchOne, h]

theorem dispatchOne_timers (w : Nat) (e : QEntry) (s : PoolState) :
    (dispatchOne w e s).timers =
      if e.task.timeout.getD 0 ≠ 0 then s.timers ++ [(s.nextTimer, e.task, e.cb)]
      else s.timers := by
  by_cases h : e.task.timeout.getD 0 ≠ 0 <;> simp [dispatchOne, h]

theorem dispatchOne_sent (w : Nat) (e : QEntry) (s : PoolState) :
    (dispatchOne w e s).sent = s.sent ++ [SentMsg.taskMsg w e.task] := by
  by_cases h : e.task.timeout.getD 0 ≠ 0 <;> simp [dispatchOne, h]

theorem assignLoop_workers (ws : List Nat) (s : PoolState) :
    (assignLoop ws s).workers = s.workers := by
  induction ws generalizing s with
  | nil => rfl
  | cons w ws ih =>
    cases hq : s.taskQueue with
    | nil => simp [assignLoop, hq]
    | cons e rest =>
      simp only [assignLoop, hq]
      rw [ih, dispatchOne_workers]

theorem assignLoop_settled (ws : List Nat) (s : PoolState) :
    (assignLoop ws s).settled = s.settled := by
  induction ws generalizing s with
  | nil => rfl
  | cons w ws ih =>
    cases hq : s.taskQueue with
    | nil => simp [assignLoop, hq]
    | cons e rest =>
      simp only [assignLoop, hq]
      rw [ih, dispatchOne_settled]

theorem assignLoop_nextCb (ws : List Nat) (s : PoolState) :
    (assignLoop ws s).nextCb = s.nextCb := by
  induction ws generalizing s with
  | nil => rfl
  | cons w ws ih =>
    cases hq : s.taskQueue with
    | nil => simp [assignLoop, hq]
    | cons e rest =>
      simp only [assignLoop, hq]
      rw [ih, dispatchOne_nextCb]

theorem assignLoop_nextWorker (ws : List Nat) (s : PoolState) :
    (assignLoop ws s).nextWorker = s.nextWorker := by
  induction ws generalizing s with
  | nil => rfl
  | cons w ws ih =>
    cases hq : s.taskQueue with
    | nil => simp [assignLoop, hq]
    | cons e rest =>
      simp only [assignLoop, hq]
      rw [ih, dispatchOne_nextWorker]

theorem assignLoop_maxWorkers (ws : List Nat) (s : PoolState) :
    (assignLoop ws s).maxWorkers = s.maxWorkers := by
  induction ws generalizing s with
  | nil => rfl
  | cons w ws ih =>
    cases hq : s.taskQueue with
    | nil => simp [assignLoop, hq]
    | cons e rest =>
      simp only [assignLoop, hq]
      rw [ih, dispatchOne_maxWorkers]

theorem assignLoop_subIds (ws : List Nat) (s : PoolState) :
    (assignLoop ws s).subIds = s.subIds := by
  induction ws generalizing s with
  | nil => rfl
  | cons w ws ih =>
    cases hq : s.taskQueue with
    | nil => simp [assignLoop, hq]
    | cons e rest =>
      simp only [assignLoop, hq]
      rw [ih, dispatchOne_subIds]

theorem processQueue_workers (s : PoolState) : (processQueue s).workers = s.workers := by
  cases hq : s.taskQueue with
  | nil => simp [processQueue, hq]
  | cons e rest => simp [processQueue, hq, assignLoop_workers]

theorem processQueue_settled (s : PoolState) : (processQueue s).settled = s.settled := by
  cases hq : s.taskQueue with
  | nil => simp [processQueue, hq]
  | cons e rest => simp [processQueue, hq, assignLoop_settled]

theorem processQueue_nextCb (s : PoolState) : (processQueue s).nextCb = s.nextCb := by
  cases hq : s.taskQueue with
  | nil => simp [processQueue, hq]
  | cons e rest => simp [processQueue, hq, assignLoop_nextCb]

theorem processQueue_nextWorker (s : PoolState) : (processQueue s).nextWorker = s.nextWorker := by
  cases hq : s.taskQueue with
  | nil => simp [processQueue, hq]
  | cons e rest => simp [processQueue, hq, assignLoop_nextWorker]

theorem processQueue_maxWorkers (s : PoolState) : (processQueue s).maxWorkers = s.maxWorkers := by
  cases hq : s.taskQueue with
  | nil => simp [processQueue, hq]
  | cons e rest => simp [processQueue, hq, assignLoop_maxWorkers]

theorem processQueue_subIds (s : PoolState) : (processQueue s).subIds = s.subIds := by
  cases hq : s.taskQueue with
  | nil => simp [processQueue, hq]
  | cons e rest => simp [processQueue, hq, assignLoop_subIds]

theorem submitTask_workers (t : WorkerTask) (s : PoolState) :
    (submitTask t s).workers = s.workers := by
  simp [submitTask, processQueue_workers]

theorem submitTask_settled (t : WorkerTask) (s : PoolState) :
    (submitTask t s).settled = s.settled := by
  simp [submitTask, processQueue_settled]

theorem submitTask_nextCb (t : WorkerTask) (s : PoolState) :
    (submitTask t s).nextCb = s.nextCb + 1 := by
  simp [submitTask, processQueue_nextCb]

theorem submitTask_nextWorker (t : WorkerTask) (s : PoolState) :
    (submitTask t s).nextWorker = s.nextWorker := by
  simp [submitTask, processQueue_nextWorker]

theorem submitTask_subIds (t : WorkerTask) (s : PoolState) :
    (submitTask t s).subIds = s.subIds ++ [t.id] := by
  simp [submitTask, processQueue_subIds]

theorem errLoop_workers (w : Nat) (err : String) (L : List (String × ActiveInfo))
    (s : PoolState) : (errLoop w err L s).workers = s.workers := by
  induction L generalizing s with
  | nil => rfl
  | cons p rest ih =>
    obtain ⟨tid, info⟩ := p
    by_cases hw : info.worker = w
    · simp only [errLoop, if_pos hw]
      rw [ih]
      cases hc : mapGet (w, tid) s.callbacks <;>
        simp [hc, clearTimeoutOpt_workers, settle]
    · simp only [errLoop, if_neg hw]
      exact ih s

theorem errLoop_taskQueue (w : Nat) (err : String) (L : List (String × ActiveInfo))
    (s : PoolState) : (errLoop w err L s).taskQueue = s.taskQueue := by
  induction L generalizing s with
  | nil => rfl
  | cons p rest ih =>
    obtain ⟨tid, info⟩ := p
    by_cases hw : info.worker = w
    · simp only [errLoop, if_pos hw]
      rw [ih]
      cases hc : mapGet (w, tid) s.callbacks <;>
        simp [hc, clearTimeoutOpt_taskQueue, settle]
    · simp only [errLoop, if_neg hw]
      exact ih s

theorem errLoop_nextCb (w : Nat) (err : String) (L : List (String × ActiveInfo))
    (s : PoolState) : (errLoop w err L s).nextCb = s.nextCb := by
  induction L generalizing s with
  | nil => rfl
  | cons p rest ih =>
    obtain ⟨tid, info⟩ := p
    by_cases hw : info.worker = w
    · simp only [errLoop, if_pos hw]
      rw [ih]
      cases hc : mapGet (w, tid) s.callbacks <;>
        simp [hc, clearTimeoutOpt_nextCb, settle]
    · simp only [errLoop, if_neg hw]
      exact ih s

theorem errLoop_nextWorker (w : Nat) (err : String) (L : List (String × ActiveInfo))
    (s : PoolState) : (errLoop w err L s).nextWorker = s.nextWorker := by
  induction L generalizing s with
  | nil => rfl
  | cons p rest ih =>
    obtain ⟨tid, info⟩ := p
    by_cases hw : info.worker = w
    · simp only [errLoop, if_pos hw]
      rw [ih]
      cases hc : mapGet (w, tid) s.callbacks <;>
        simp [hc, clearTimeoutOpt_nextWorker, settle]
    · simp only [errLoop, if_neg hw]
      exact ih s

theorem errLoop_subIds (w : Nat) (err : String) (L : List (String × ActiveInfo))
    (s : PoolState) : (errLoop w err L s).subIds = s.subIds := by
  induction L generalizing s with
  | nil => rfl
  | cons p rest ih =>
    obtain ⟨tid, info⟩ := p
    by_cases hw : info.worker = w
    · simp only [errLoop, if_pos hw]
      rw [ih]
      cases hc : mapGet (w, tid) s.callbacks <;>
        simp [hc, clearTimeoutOpt_subIds, settle]
    · simp only [errLoop, if_neg hw]
      exact ih s

theorem handleWorkerMessage_workers (w : Nat) (r : WorkerTaskResult) (s : PoolState) :
    (handleWorkerMessage w r s).workers = s.workers := by
  cases hg : mapGet r.taskId s.activeTasks with
  | none => simp [handleWorkerMessage, hg]
  | some info =>
    simp only [handleWorkerMessage, hg]
    cases hc : mapGet (w, r.taskId) (clearTimeoutOpt info.timeout s).callbacks <;>
      simp [hc, processQueue_workers, clearTimeoutOpt_workers, settle]

theorem handleWorkerMessage_nextCb (w : Nat) (r : WorkerTaskResult) (s : PoolState) :
    (handleWorkerMessage w r s).nextCb = s.nextCb := by
  cases hg : mapGet r.taskId s.activeTasks with
  | none => simp [handleWorkerMessage, hg]
  | some info =>
    simp only [handleWorkerMessage, hg]
    cases hc : mapGet (w, r.taskId) (clearTimeoutOpt info.timeout s).callbacks <;>
      simp [hc, processQueue_nextCb, clearTimeoutOpt_nextCb, settle]

theorem handleWorkerMessage_nextWorker (w : Nat) (r : WorkerTaskResult) (s : PoolState) :
    (handleWorkerMessage w r s).nextWorker = s.nextWorker := by
  cases hg : mapGet r.taskId s.activeTasks with
  | none => simp [handleWorkerMessage, hg]
  | some info =>
    simp only [handleWorkerMessage, hg]
    cases hc : mapGet (w, r.taskId) (clearTimeoutOpt info.timeout s).callbacks <;>
      simp [hc, processQueue_nextWorker, clearTimeoutOpt_nextWorker, settle]

theorem handleWorkerMessage_subIds (w : Nat) (r : WorkerTaskResult) (s : PoolState) :
    (handleWorkerMessage w r s).subIds = s.subIds := by
  cases hg : mapGet r.taskId s.activeTasks with
  | none => simp [handleWorkerMessage, hg]
  | some info =>
    simp only [handleWorkerMessage, hg]
    cases hc : mapGet (w, r.taskId) (clearTimeoutOpt info.timeout s).callbacks <;>
      simp [hc, processQueue_subIds, clearTimeoutOpt_subIds, settle]

theorem cancelTask_workers (tid : String) (s : PoolState) :
    (cancelTask tid s).2.workers = s.workers := by
  cases hg : mapGet tid s.activeTasks <;>
    simp [cancelTask, hg, clearTimeoutOpt_workers]

theorem cancelTask_taskQueue (tid : String) (s : PoolState) :
    (cancelTask tid s).2.taskQueue = s.taskQueue := by
  cases hg : mapGet tid s.activeTasks <;>
    simp [cancelTask, hg, clearTimeoutOpt_taskQueue]

theorem cancelTask_settled (tid : String) (s : PoolState) :
    (cancelTask tid s).2.settled = s.settled := by
  cases hg : mapGet tid s.activeTasks <;>
    simp [cancelTask, hg, clearTimeoutOpt_settled]

theorem cancelTask_callbacks (tid : String) (s : PoolState) :
    (cancelTask tid s).2.callbacks = s.callbacks := by
  cases hg : mapGet tid s.activeTasks <;>
    simp [cancelTask, hg, clearTimeoutOpt_callbacks]

theorem cancelTask_nextCb (tid : String) (s : PoolState) :
    (cancelTask tid s).2.nextCb = s.nextCb := by
  cases hg : mapGet tid s.activeTasks <;>
    simp [cancelTask, hg, clearTimeoutOpt_nextCb]

theorem cancelTask_nextWorker (tid : String) (s : PoolState) :
    (cancelTask tid s).2.nextWorker = s.nextWorker := by
  cases hg : mapGet tid s.activeTasks <;>
    simp [cancelTask, hg, clearTimeoutOpt_nextWorker]

theorem cancelTask_subIds (tid : String) (s : PoolState) :
    (cancelTask tid s).2.subIds = s.subIds := by
  cases hg : mapGet tid s.activeTasks <;>
    simp [cancelTask, hg, clearTimeoutOpt_subIds]

theorem timerFire_workers (tid : Nat) (s : PoolState) :
    (timerFire tid s).workers = s.workers := by
  cases hf : s.timers.find? (fun x => x.1 == tid) with
  | none => simp [timerFire, hf]
  | some x =>
    obtain ⟨t₀, t, cb⟩ := x
    simp only [timerFire, hf, settle]
    rw [cancelTask_workers]

theorem timerFire_taskQueue (tid : Nat) (s : PoolState) :
    (timerFire tid s).taskQueue = s.taskQueue := by
  cases hf : s.timers.find? (fun x => x.1 == tid) with
  | none => simp [timerFire, hf]
  | some x =>
    obtain ⟨t₀, t, cb⟩ := x
    simp only [timerFire, hf, settle]
    rw [cancelTask_taskQueue]

theorem timerFire_callbacks (tid : Nat) (s : PoolState) :
    (timerFire tid s).callbacks = s.callbacks := by
  cases hf : s.timers.find? (fun x => x.1 == tid) with
  | none => simp [timerFire, hf]
  | some x =>
    obtain ⟨t₀, t, cb⟩ := x
    simp only [timerFire, hf, settle]
    rw [cancelTask_callbacks]

theorem timerFire_nextCb (tid : Nat) (s : PoolState) :
    (timerFire tid s).nextCb = s.nextCb := by
  cases hf : s.timers.find? (fun x => x.1 == tid) with
  | none => simp [timerFire, hf]
  | some x =>
    obtain ⟨t₀, t, cb⟩ := x
    simp only [timerFire, hf, settle]
    rw [cancelTask_nextCb]

theorem timerFire_nextWorker (tid : Nat) (s : PoolState) :
    (timerFire tid s).nextWorker = s.nextWorker := by
  cases hf : s.timers.find? (fun x => x.1 == tid) with
  | none => simp [timerFire, hf]
  | some x =>
    obtain ⟨t₀, t, cb⟩ := x
    simp only [timerFire, hf, settle]
    rw [cancelTask_nextWorker]

theorem timerFire_subIds (tid : Nat) (s : PoolState) :
    (timerFire tid s).subIds = s.subIds := by
  cases hf : s.timers.find? (fun x => x.1 == tid) with
  | none => simp [timerFire, hf]
  | some x =>
    obtain ⟨t₀, t, cb⟩ := x
    simp only [timerFire, hf, settle]
    rw [cancelTask_subIds]

theorem foldl_settle_eq (l : List QEntry) (o : Outcome) (s : PoolState) :
    l.foldl (fun acc e => settle e.cb o acc) s =
      { s with settled := s.settled ++ l.map (fun e => (e.cb, o)) } := by
  induction l generalizing s with
  | nil =>
    rw [List.map_nil, List.append_nil]
    exact rfl
  | cons e rest ih =>
    rw [List.foldl_cons, ih]
    simp [settle, List.append_assoc]

theorem shutdown_eq (s : PoolState) :
    shutdown s =
      { s with
        taskQueue := [], workers := [], activeTasks := [],
        settled := s.settled ++
          s.taskQueue.map (fun e => (e.cb, Outcome.rejected "Worker pool is shutting down")) } := by
  simp only [shutdown, foldl_settle_eq]

/-! ## Sorting lemmas: permutation and stability -/

theorem sortInsert_perm (e : QEntry) (l : List QEntry) :
    (sortInsert e l).Perm (e :: l) := by
  induction l with
  | nil => exact List.Perm.refl _
  | cons y ys ih =>
    by_cases hlt : qPri e < qPri y
    · simp only [sortInsert, if_pos hlt]
      exact (ih.cons y).trans (List.Perm.swap e y ys)
    · simp only [sortInsert, if_neg hlt]
      exact List.Perm.refl _

theorem sortQueue_perm (l : List QEntry) : (sortQueue l).Perm l := by
  induction l with
  | nil => exact List.Perm.refl _
  | cons x xs ih =>
    exact (sortInsert_perm x (sortQueue xs)).trans (ih.cons x)

theorem sortInsert_filter (e : QEntry) (l : List QEntry) (p : Int) :
    (sortInsert e l).filter (fun x => qPri x == p) =
      if qPri e == p then e :: l.filter (fun x => qPri x == p)
      else l.filter (fun x => qPri x == p) := by
  induction l with
  | nil =>
    by_cases hp : qPri e == p <;> simp [sortInsert, List.filter, hp]
  | cons y ys ih =>
    by_cases hlt : qPri e < qPri y
    · simp only [sortInsert, if_pos hlt]
      by_cases hp : qPri e == p
      · have hyp : (qPri y == p) = false := by
          apply beq_eq_false_iff_ne.mpr
          intro hy
          have hep : qPri e = p := eq_of_beq hp
          rw [hy, ← hep] at hlt
          exact lt_irrefl _ hlt
        simp [List.filter_cons, hyp, ih, hp]
      · simp only [List.filter_cons]
        rw [ih]
        simp [hp]
    · simp only [sortInsert, if_neg hlt]
      by_cases hp : qPri e == p <;> simp [List.filter_cons, hp]

theorem sortQueue_filter (l : List QEntry) (p : Int) :
    (sortQueue l).filter (fun x => qPri x == p) = l.filter (fun x => qPri x == p) := by
  induction l with
  | nil => rfl
  | cons x xs ih =>
    simp only [sortQueue]
    rw [sortInsert_filter, ih]
    by_cases hp : qPri x == p <;> simp [List.filter_cons, hp]

/-! ## Available worker characterization -/

theorem mem_availableWorkers (s : PoolState) (w : Nat) :
    w ∈ availableWorkers s ↔ w ∈ s.workers ∧ isBusy s w = false := by
  simp [availableWorkers, List.mem_filter]

theorem isBusy_eq_false_iff (s : PoolState) (w : Nat) :
    isBusy s w = false ↔ w ∉ gateWorkers s := by
  constructor
  · intro h hmem
    obtain ⟨p, hp, hpw⟩ := List.mem_map.mp hmem
    have : s.activeTasks.any (fun q => q.2.worker = w) = true :=
      List.any_eq_true.mpr ⟨p, hp, by simp [hpw]⟩
    rw [isBusy] at h
    rw [h] at this
    exact Bool.false_ne_true this
  · intro h
    by_contra hb
    have hb' : isBusy s w = true := by
      cases hbb : isBusy s w
      · exact absurd hbb hb
      · rfl
    obtain ⟨p, hp, hpw⟩ := List.any_eq_true.mp hb'
    exact h (List.mem_map.mpr ⟨p, hp, by simpa using hpw⟩)

theorem availableWorkers_nodup (s : PoolState) (h : s.workers.Nodup) :
    (availableWorkers s).Nodup := h.filter _

theorem processQueue_no_avail (s : PoolState) (h : availableWorkers s = []) :
    processQueue s = { s with taskQueue := sortQueue s.taskQueue } := by
  by_cases hq : s.taskQueue.isEmpty
  · have hq' : s.taskQueue = [] := List.isEmpty_iff.mp hq
    simp only [processQueue, hq, if_pos]
    rw [show sortQueue s.taskQueue = s.taskQueue by rw [hq']; rfl]
  · simp only [processQueue, hq, if_neg, Bool.false_eq_true, not_false_iff]
    rw [h]
    rfl

theorem clearTimeoutOpt_sent (t : Option Nat) (s : PoolState) :
    (clearTimeoutOpt t s).sent = s.sent := by cases t <;> rfl

theorem assignLoop_empty_queue (ws : List Nat) (s : PoolState) (h : s.taskQueue = []) :
    assignLoop ws s = s := by
  cases ws with
  | nil => rfl
  | cons w ws => simp only [assignLoop, h]

theorem availableWorkers_eq_nil_of_all_busy (s : PoolState)
    (h : ∀ w ∈ s.workers, isBusy s w = true) : availableWorkers s = [] := by
  rw [availableWorkers]
  rw [List.filter_eq_nil_iff]
  intro w hw
  simp [h w hw]

theorem cancelTask_timers_sublist (tid : String) (s : PoolState) :
    (cancelTask tid s).2.timers.Sublist s.timers := by
  cases hg : mapGet tid s.activeTasks with
  | none => simp [cancelTask, hg]
  | some info =>
    simp only [cancelTask, hg]
    exact clearTimeoutOpt_timers_sublist info.timeout s

theorem timerFire_settles (tid : Nat) (t : WorkerTask) (cb : Nat) (s : PoolState)
    (hf : s.timers.find? (fun x => x.1 == tid) = some (tid, t, cb)) :
    (timerFire tid s).settled = s.settled ++
      [(cb, Outcome.rejected
        ("Task " ++ t.id ++ " timed out after " ++ toString (t.timeout.getD 0) ++ "ms"))] := by
  simp only [timerFire, hf, settle]
  rw [cancelTask_settled]

theorem handleWorkerMessage_settles (w : Nat) (r : WorkerTaskResult) (s : PoolState)
    (info : ActiveInfo) (cb : Nat)
    (hg : mapGet r.taskId s.activeTasks = some info)
    (hc : mapGet (w, r.taskId) s.callbacks = some cb) :
    (handleWorkerMessage w r s).settled = s.settled ++ [(cb, settleOutcome r)] := by
  simp only [handleWorkerMessage, hg]
  have hc₂ : mapGet (w, r.taskId) (clearTimeoutOpt info.timeout s).callbacks = some cb := by
    rw [clearTimeoutOpt_callbacks]
    exact hc
  simp only [hc₂]
  rw [processQueue_settled]
  simp [settle, clearTimeoutOpt_settled]

theorem errLoop_skip (w : Nat) (err : String) (L₁ L₂ : List (String × ActiveInfo))
    (s : PoolState) (h : ∀ p ∈ L₁, p.2.worker ≠ w) :
    errLoop w err (L₁ ++ L₂) s = errLoop w err L₂ s := by
  induction L₁ generalizing s with
  | nil => rfl
  | cons p rest ih =>
    obtain ⟨tid, info⟩ := p
    have hne : info.worker ≠ w := h (tid, info) (List.mem_cons_self _ _)
    simp only [List.cons_append, errLoop, if_neg hne]
    exact ih s (fun q hq => h q (List.mem_cons_of_mem _ hq))

theorem errLoop_settled_of_skip (w : Nat) (err : String) (L : List (String × ActiveInfo))
    (s : PoolState) (h : ∀ p ∈ L, p.2.worker ≠ w) :
    errLoop w err L s = s := by
  have := errLoop_skip w err L [] s h
  rw [List.append_nil] at this
  rw [this]
  rfl

theorem filter_eq_singleton_split {α : Type} (l : List α) (p : α → Bool) (x : α)
    (h : l.filter p = [x]) :
    ∃ l₁ l₂, l = l₁ ++ x :: l₂ ∧ (∀ a ∈ l₁, p a = false) ∧ (∀ a ∈ l₂, p a = false) ∧
      p x = true := by
  induction l with
  | nil => simp at h
  | cons y ys ih =>
    by_cases hy : p y = true
    · rw [List.filter_cons, if_pos hy] at h
      have hxy : y = x ∧ ys.filter p = [] := by
        constructor
        · exact (List.cons_eq_cons.mp h).1
        · exact (List.cons_eq_cons.mp h).2
      obtain ⟨hxy1, hxy2⟩ := hxy
      subst hxy1
      refine ⟨[], ys, rfl, by simp, ?_, hy⟩
      intro a ha
      have := List.filter_eq_nil_iff.mp hxy2 a ha
      cases hpa : p a
      · rfl
      · exact absurd hpa this
    · have hy' : p y = false := by
        cases hpy : p y
        · rfl
        · exact absurd hpy hy
      rw [List.filter_cons, hy'] at h
      simp only [Bool.false_eq_true, if_false] at h
      obtain ⟨l₁, l₂, hl, h₁, h₂, hx⟩ := ih h
      exact ⟨y :: l₁, l₂, by rw [hl]; rfl, by
        intro a ha
        rcases List.mem_cons.mp ha with rfl | ha
        · exact hy'
        · exact h₁ a ha, h₂, hx⟩

theorem handleWorkerError_settles (w : Nat) (err : String) (s : PoolState)
    (tid : String) (info : ActiveInfo) (cb : Nat)
    (hf : s.activeTasks.filter (fun p => p.2.worker == w) = [(tid, info)])
    (hc : mapGet (w, tid) s.callbacks = some cb) :
    (handleWorkerError w err s).settled = s.settled ++ [(cb, Outcome.rejected err)] := by
  obtain ⟨L₁, L₂, hl, h₁, h₂, hx⟩ :=
    filter_eq_singleton_split s.activeTasks (fun p => p.2.worker == w) (tid, info) hf
  have h₁' : ∀ p ∈ L₁, p.2.worker ≠ w := by
    intro p hp hne
    have := h₁ p hp
    rw [show (p.2.worker == w) = true from beq_iff_eq.mpr hne] at this
    exact Bool.true_eq_false.mp this
  have h₂' : ∀ p ∈ L₂, p.2.worker ≠ w := by
    intro p hp hne
    have := h₂ p hp
    rw [show (p.2.worker == w) = true from beq_iff_eq.mpr hne] at this
    exact Bool.true_eq_false.mp this
  have hw : info.worker = w := beq_iff_eq.mp hx
  rw [handleWorkerError, hl, errLoop_skip w err L₁ _ s h₁']
  simp only [errLoop, if_pos hw, hc]
  rw [errLoop_settled_of_skip w err L₂ _ h₂']
  cases info.timeout <;> simp [clearTimeoutOpt, settle]

/-! ## Claim C10 -/

/-- C10: WorkerPoolManager.getInstance is idempotent: a call with a
cached instance returns that instance and ignores its maxWorkers
argument; every call after the first returns the same instance; the
first call with a missing or zero maxWorkers yields the default
max(cpuCount - 1, 1); and the configured worker count is at least 1 for
every non-negative argument. -/
theorem c10_getInstance :
    (∀ cpuCount i arg, getInstance cpuCount (some i) arg = (i, some i)) ∧
    (∀ cpuCount arg arg₂,
      getInstance cpuCount (getInstance cpuCount none arg).2 arg₂ =
        ((getInstance cpuCount none arg).1, (getInstance cpuCount none arg).2)) ∧
    (∀ cpuCount, getInstance cpuCount none none = getInstance cpuCount none (some 0)) ∧
    (∀ cpuCount, (getInstance cpuCount none none).1 = max (cpuCount - 1) 1) ∧
    (∀ cpuCount arg, 1 ≤ (getInstance cpuCount none arg).1) := by
  refine ⟨fun _ _ _ => rfl, fun _ _ _ => rfl, fun _ => rfl, fun _ => rfl, ?_⟩
  intro cpuCount arg
  cases arg with
  | none =>
    simp [getInstance, constructorMaxWorkers]
  | some m =>
    by_cases hm : m = 0
    · subst hm
      simp [getInstance, constructorMaxWorkers]
    · simp [getInstance, constructorMaxWorkers, hm]
      exact Nat.one_le_iff_ne_zero.mpr hm

/-! ## Claim C8 -/

/-- C8 counterexample: a task message whose type field is the string
cancel is swallowed by the cancellation branch of the worker message
listener: even though no handler is registered for that type, the
worker produces no reply at all, while the claim requires a structured
failure reply for every task message without a handler. -/
theorem c8_counterexample :
    mapGet "cancel" ([] : List (String × Handler)) = none ∧
    baseWorkerOnMessage [] ⟨"t1", "cancel", 0, none, none⟩ = none :=
  ⟨rfl, rfl⟩

/-- C8 (amended): for every task message whose type is not the reserved
cancellation tag, the base worker always produces exactly one reply
carrying the task id: success with the handler result when a handler is
registered and returns a value; a structured failure naming the missing
handler when none is registered; and a structured failure carrying the
thrown message when the handler throws.  The worker never fails to
reply on these paths. -/
theorem c8_amended (handlers : List (String × Handler)) (task : WorkerTask)
    (hty : task.ty ≠ "cancel") :
    ∃ r, baseWorkerOnMessage handlers task = some r ∧ r.taskId = task.id ∧
      (mapGet task.ty handlers = none →
        r.success = false ∧
        r.error = some ("No handler registered for task type: " ++ task.ty)) ∧
      (∀ h v, mapGet task.ty handlers = some h → h task.data = Except.ok v →
        r.success = true ∧ r.result = some v) ∧
      (∀ h e, mapGet task.ty handlers = some h → h task.data = Except.error e →
        r.success = false ∧ r.error = some e) := by
  simp only [baseWorkerOnMessage, if_neg hty]
  cases hh : mapGet task.ty handlers with
  | none =>
    refine ⟨{ taskId := task.id, success := false, result := none,
              error := some ("No handler registered for task type: " ++ task.ty) },
            rfl, rfl, fun _ => ⟨rfl, rfl⟩, ?_, ?_⟩
    · intro h v hsome _
      exact Option.noConfusion hsome
    · intro h e hsome _
      exact Option.noConfusion hsome
  | some h =>
    cases hv : h task.data with
    | ok v =>
      refine ⟨{ taskId := task.id, success := true, result := some v, error := none },
              by simp [hv], rfl, ?_, ?_, ?_⟩
      · intro hnone
        exact Option.noConfusion hnone
      · intro h₂ v₂ hsome hv₂
        have hhh : h = h₂ := Option.some.inj hsome
        subst hhh
        rw [hv] at hv₂
        have hvv : v = v₂ := Except.ok.inj hv₂
        rw [← hvv]
        exact ⟨rfl, rfl⟩
      · intro h₂ e hsome hv₂
        have hhh : h = h₂ := Option.some.inj hsome
        subst hhh
        rw [hv] at hv₂
        exact Except.noConfusion hv₂
    | error e =>
      refine ⟨{ taskId := task.id, success := false, result := none, error := some e },
              by simp [hv], rfl, ?_, ?_, ?_⟩
      · intro hnone
        exact Option.noConfusion hnone
      · intro h₂ v₂ hsome hv₂
        have hhh : h = h₂ := Option.some.inj hsome
        subst hhh
        rw [hv] at hv₂
        exact Except.noConfusion hv₂
      · intro h₂ e₂ hsome hv₂
        have hhh : h = h₂ := Option.some.inj hsome
        subst hhh
        rw [hv] at hv₂
        have hee : e = e₂ := Except.error.inj hv₂
        rw [← hee]
        exact ⟨rfl, rfl⟩

/-- C8 witness: the amended theorem applied to a concrete handler table
with a registered compute handler and a concrete task. -/
theorem c8_amended_witness :
    ∃ r, baseWorkerOnMessage [("compute", fun n => Except.ok (n + 1))]
        ⟨"t1", "compute", 5, none, none⟩ = some r ∧
      r.taskId = WorkerTask.id ⟨"t1", "compute", 5, none, none⟩ ∧
      (mapGet "compute" ([("compute", fun n => Except.ok (n + 1))] : List (String × Handler)) = none →
        r.success = false ∧
        r.error = some ("No handler registered for task type: " ++ "compute")) ∧
      (∀ h v, mapGet "compute" ([("compute", fun n => Except.ok (n + 1))] : List (String × Handler)) = some h →
        h 5 = Except.ok v → r.success = true ∧ r.result = some v) ∧
      (∀ h e, mapGet "compute" ([("compute", fun n => Except.ok (n + 1))] : List (String × Handler)) = some h →
        h 5 = Except.error e → r.success = false ∧ r.error = some e) :=
  c8_amended [("compute", fun n => Except.ok (n + 1))] ⟨"t1", "compute", 5, none, none⟩
    (by decide)

/-! ## More helpers: settle projections and single-entry dispatch -/

theorem settle_activeTasks (cb : Nat) (o : Outcome) (s : PoolState) :
    (settle cb o s).activeTasks = s.activeTasks := rfl

theorem settle_timers (cb : Nat) (o : Outcome) (s : PoolState) :
    (settle cb o s).timers = s.timers := rfl

theorem settle_callbacks (cb : Nat) (o : Outcome) (s : PoolState) :
    (settle cb o s).callbacks = s.callbacks := rfl

theorem settle_taskQueue (cb : Nat) (o : Outcome) (s : PoolState) :
    (settle cb o s).taskQueue = s.taskQueue := rfl

theorem settle_workers (cb : Nat) (o : Outcome) (s : PoolState) :
    (settle cb o s).workers = s.workers := rfl

theorem processQueue_single (s : PoolState) (e : QEntry) (w : Nat) (rest : List Nat)
    (hq : s.taskQueue = [e]) (hav : availableWorkers s = w :: rest) :
    processQueue s = dispatchOne w e { s with taskQueue := [] } := by
  rw [processQueue, hq, hav]
  have hsort : sortQueue [e] = [e] := rfl
  rw [hsort]
  simp only [List.isEmpty_cons, Bool.false_eq_true, if_false]
  simp only [assignLoop]
  rw [assignLoop_empty_queue rest _ (by rw [dispatchOne_taskQueue])]

theorem submitTask_empty_dispatch (s : PoolState) (t : WorkerTask) (w : Nat)
    (rest : List Nat) (hq : s.taskQueue = []) (hav : availableWorkers s = w :: rest) :
    submitTask t s = dispatchOne w ⟨t, s.nextCb⟩
      { s with taskQueue := [], nextCb := s.nextCb + 1, subIds := s.subIds ++ [t.id] } := by
  rw [submitTask]
  refine Eq.trans (processQueue_single _ ⟨t, s.nextCb⟩ w rest ?_ ?_) ?_
  · show s.taskQueue ++ [(⟨t, s.nextCb⟩ : QEntry)] = [⟨t, s.nextCb⟩]
    rw [hq, List.nil_append]
  · exact hav
  · rfl

theorem cancelTask_activeTasks_none (tid : String) (s : PoolState)
    (hnd : (s.activeTasks.map Prod.fst).Nodup) :
    mapGet tid (cancelTask tid s).2.activeTasks = none := by
  cases hg : mapGet tid s.activeTasks with
  | none =>
    simp only [cancelTask, hg]
  | some info =>
    simp only [cancelTask, hg]
    rw [clearTimeoutOpt_activeTasks]
    exact mapGet_mapDel_self tid hnd

/-! ## Claim C3 -/

/-- C3 counterexample: a task with timeout 100 submitted to a pool with
no workers stays queued, and the pool has no armed timer at all, so no
timeout can fire while the task waits in the queue.  The claim says the
timer is armed at submission time so that queue waiting counts against
the deadline; the code arms the timer only at dispatch. -/
theorem c3_counterexample :
    queueIds (runEvents [Event.submit ⟨"x", "work", 0, none, some 100⟩] (initState 4)) =
      ["x"] ∧
    (runEvents [Event.submit ⟨"x", "work", 0, none, some 100⟩] (initState 4)).timers = [] :=
  ⟨rfl, rfl⟩

/-- C3 (amended): the timeout timer is armed at dispatch time, not at
submission time, so it covers execution only: submitting to a pool
whose workers are all busy queues the task and arms no timer; when the
task is dispatched to an idle worker its timer is armed; and when an
armed timer fires before a result arrives, the pending submission is
rejected with the timeout error, the task is removed from in-flight
tracking and the timer is disarmed. -/
theorem c3_amended :
    (∀ s t, (∀ w ∈ s.workers, isBusy s w = true) →
      (submitTask t s).timers = s.timers ∧
      (∃ e ∈ (submitTask t s).taskQueue, e.task = t ∧ e.cb = s.nextCb)) ∧
    (∀ s t w rest, s.taskQueue = [] → availableWorkers s = w :: rest →
      t.timeout.getD 0 ≠ 0 →
      (submitTask t s).timers = s.timers ++ [(s.nextTimer, t, s.nextCb)] ∧
      mapGet t.id (submitTask t s).activeTasks = some ⟨w, some s.nextTimer⟩) ∧
    (∀ s tid t cb, s.timers.find? (fun x => x.1 == tid) = some (tid, t, cb) →
      (gateKeys s).Nodup →
      (timerFire tid s).settled = s.settled ++
        [(cb, Outcome.rejected
          ("Task " ++ t.id ++ " timed out after " ++ toString (t.timeout.getD 0) ++ "ms"))] ∧
      mapGet t.id (timerFire tid s).activeTasks = none ∧
      ∀ x ∈ (timerFire tid s).timers, x.1 ≠ tid) := by
  refine ⟨?_, ?_, ?_⟩
  · intro s t hbusy
    have hav : availableWorkers
        { s with taskQueue := s.taskQueue ++ [⟨t, s.nextCb⟩],
                 nextCb := s.nextCb + 1, subIds := s.subIds ++ [t.id] } = [] :=
      availableWorkers_eq_nil_of_all_busy _ hbusy
    rw [submitTask, processQueue_no_avail _ hav]
    constructor
    · rfl
    · have hperm := sortQueue_perm (s.taskQueue ++ [⟨t, s.nextCb⟩])
      have hmem : (⟨t, s.nextCb⟩ : QEntry) ∈ s.taskQueue ++ [⟨t, s.nextCb⟩] := by
        simp
      exact ⟨⟨t, s.nextCb⟩, hperm.mem_iff.mpr hmem, rfl, rfl⟩
  · intro s t w rest hq hav htmo
    rw [submitTask_empty_dispatch s t w rest hq hav]
    constructor
    · rw [dispatchOne_timers]
      simp [htmo]
    · rw [dispatchOne_activeTasks]
      simp only []
      rw [show ((⟨t, s.nextCb⟩ : QEntry)).task.id = t.id from rfl]
      rw [if_pos htmo]
      exact mapGet_mapSet_self _ _ _
  · intro s tid t cb hf hnd
    refine ⟨timerFire_settles tid t cb s hf, ?_, ?_⟩
    · simp only [timerFire, hf]
      rw [settle_activeTasks]
      apply cancelTask_activeTasks_none
      exact hnd
    · intro x hx
      have hsub : (timerFire tid s).timers.Sublist
          (s.timers.filter (fun y => y.1 != tid)) := by
        simp only [timerFire, hf]
        rw [settle_timers]
        exact cancelTask_timers_sublist _ _
      have hxf : x ∈ s.timers.filter (fun y => y.1 != tid) := hsub.mem hx
      have := List.of_mem_filter hxf
      simpa using this

/-- C3 witness: the amended theorem applied at concrete states: a
saturated one-worker pool, an idle one-worker pool, and a state with a
concrete armed timer. -/
theorem c3_amended_witness :
    ((submitTask ⟨"q", "work", 0, none, some 100⟩
        (runEvents [Event.addW, Event.submit ⟨"a", "work", 0, none, none⟩]
          (initState 4))).timers =
      (runEvents [Event.addW, Event.submit ⟨"a", "work", 0, none, none⟩]
          (initState 4)).timers) ∧
    ((submitTask ⟨"b", "work", 0, none, some 100⟩
        (runEvents [Event.addW] (initState 4))).timers =
      (runEvents [Event.addW] (initState 4)).timers ++
        [((runEvents [Event.addW] (initState 4)).nextTimer,
          ⟨"b", "work", 0, none, some 100⟩,
          (runEvents [Event.addW] (initState 4)).nextCb)]) ∧
    ((timerFire 0
        (runEvents [Event.addW, Event.submit ⟨"b", "work", 0, none, some 100⟩]
          (initState 4))).settled =
      (runEvents [Event.addW, Event.submit ⟨"b", "work", 0, none, some 100⟩]
          (initState 4)).settled ++
        [(0, Outcome.rejected ("Task " ++ "b" ++ " timed out after " ++
           toString ((⟨"b", "work", 0, none, some 100⟩ : WorkerTask).timeout.getD 0) ++ "ms"))]) := by
  refine ⟨?_, ?_, ?_⟩
  · exact (c3_amended.1
      (runEvents [Event.addW, Event.submit ⟨"a", "work", 0, none, none⟩] (initState 4))
      ⟨"q", "work", 0, none, some 100⟩ (by decide)).1
  · exact (c3_amended.2.1
      (runEvents [Event.addW] (initState 4))
      ⟨"b", "work", 0, none, some 100⟩ 0 [] (by decide) (by decide) (by decide)).1
  · exact (c3_amended.2.2
      (runEvents [Event.addW, Event.submit ⟨"b", "work", 0, none, some 100⟩] (initState 4))
      0 ⟨"b", "work", 0, none, some 100⟩ 0 (by decide) (by decide)).1

/-! ## Claim C4 -/

/-- C4 counterexample: for a task that is only queued (not yet
dispatched, because the pool has no workers), cancelTask returns false
and changes nothing: the task stays in the queue and the pending
submission is not rejected.  The claim requires removal from the queue,
rejection with a cancellation error, and a true return. -/
theorem c4_counterexample :
    (cancelTask "x" (runEvents [Event.submit ⟨"x", "work", 0, none, none⟩]
      (initState 4))).1 = false ∧
    (cancelTask "x" (runEvents [Event.submit ⟨"x", "work", 0, none, none⟩]
      (initState 4))).2 =
      runEvents [Event.submit ⟨"x", "work", 0, none, none⟩] (initState 4) ∧
    queueIds (runEvents [Event.submit ⟨"x", "work", 0, none, none⟩] (initState 4)) =
      ["x"] :=
  ⟨rfl, rfl, rfl⟩

/-- C4 (amended): cancelTask consults only the in-flight table: for any
task id not in activeTasks (unknown ids and queued-but-undispatched
tasks alike) it returns false and changes nothing; for an in-flight
task it returns true, removes the entry from activeTasks, clears the
recorded timer, and posts the advisory cancellation notice to the
assigned worker, but it does not reject the pending submission and does
not touch the queue. -/
theorem c4_amended :
    (∀ s tid, mapGet tid s.activeTasks = none → cancelTask tid s = (false, s)) ∧
    (∀ s tid info, mapGet tid s.activeTasks = some info →
      (cancelTask tid s).1 = true ∧
      (cancelTask tid s).2.activeTasks = mapDel tid s.activeTasks ∧
      (cancelTask tid s).2.timers = (clearTimeoutOpt info.timeout s).timers ∧
      (cancelTask tid s).2.sent = s.sent ++ [SentMsg.cancelMsg info.worker tid] ∧
      (cancelTask tid s).2.settled = s.settled ∧
      (cancelTask tid s).2.taskQueue = s.taskQueue ∧
      (cancelTask tid s).2.callbacks = s.callbacks) := by
  constructor
  · intro s tid h
    simp [cancelTask, h]
  · intro s tid info h
    refine ⟨by simp [cancelTask, h], ?_, ?_, ?_, ?_, ?_, ?_⟩
    · simp only [cancelTask, h]
      rw [clearTimeoutOpt_activeTasks]
    · simp only [cancelTask, h]
    · simp only [cancelTask, h, clearTimeoutOpt_sent]
    · simp only [cancelTask, h, clearTimeoutOpt_settled]
    · simp only [cancelTask, h, clearTimeoutOpt_taskQueue]
    · simp only [cancelTask, h, clearTimeoutOpt_callbacks]

/-- C4 witness: the amended theorem applied to an unknown id on the
fresh pool and to a concrete in-flight task. -/
theorem c4_amended_witness :
    cancelTask "y" (initState 4) = (false, initState 4) ∧
    (cancelTask "x" (runEvents [Event.addW, Event.submit ⟨"x", "work", 0, none, none⟩]
      (initState 4))).1 = true ∧
    (cancelTask "x" (runEvents [Event.addW, Event.submit ⟨"x", "work", 0, none, none⟩]
      (initState 4))).2.sent =
      (runEvents [Event.addW, Event.submit ⟨"x", "work", 0, none, none⟩]
        (initState 4)).sent ++ [SentMsg.cancelMsg (0 : Nat) "x"] := by
  refine ⟨c4_amended.1 (initState 4) "y" (by decide), ?_, ?_⟩
  · exact (c4_amended.2
      (runEvents [Event.addW, Event.submit ⟨"x", "work", 0, none, none⟩] (initState 4))
      "x" ⟨0, none⟩ (by decide)).1
  · exact (c4_amended.2
      (runEvents [Event.addW, Event.submit ⟨"x", "work", 0, none, none⟩] (initState 4))
      "x" ⟨0, none⟩ (by decide)).2.2.2.1

/-! ## Claim C1 -/

/-- C1 counterexample: cancelling an in-flight accepted submission
settles nothing: cancelTask returns true but the settlement log stays
empty and the stashed resolve/reject pair is left behind, so the
promise returned by submitTask is never settled by the cancellation,
while the claim requires every accepted submission to settle exactly
once under cancellation. -/
theorem c1_counterexample :
    (cancelTask "x" (runEvents [Event.addW, Event.submit ⟨"x", "work", 0, none, none⟩]
      (initState 4))).1 = true ∧
    (cancelTask "x" (runEvents [Event.addW, Event.submit ⟨"x", "work", 0, none, none⟩]
      (initState 4))).2.settled = [] ∧
    mapGet ((0 : Nat), "x") (cancelTask "x"
      (runEvents [Event.addW, Event.submit ⟨"x", "work", 0, none, none⟩]
        (initState 4))).2.callbacks = some 0 :=
  ⟨rfl, rfl, rfl⟩

/-- C1 (amended): each settling path settles the affected submission
exactly once at that event, but cancellation settles nothing and
shutdown settles only the queued submissions: a worker result for an
in-flight task with a stashed callback appends exactly one settlement;
a firing timeout appends exactly one rejection; worker-error handling
for a worker holding exactly one task with a stashed callback appends
exactly one rejection; cancelTask never settles; shutdown appends
exactly one rejection per queued entry and none for in-flight ones. -/
theorem c1_amended :
    (∀ s w r info cb, mapGet r.taskId s.activeTasks = some info →
      mapGet (w, r.taskId) s.callbacks = some cb →
      (handleWorkerMessage w r s).settled = s.settled ++ [(cb, settleOutcome r)]) ∧
    (∀ s tid t cb, s.timers.find? (fun x => x.1 == tid) = some (tid, t, cb) →
      (timerFire tid s).settled = s.settled ++
        [(cb, Outcome.rejected
          ("Task " ++ t.id ++ " timed out after " ++ toString (t.timeout.getD 0) ++ "ms"))]) ∧
    (∀ s w err tid info cb,
      s.activeTasks.filter (fun p => p.2.worker == w) = [(tid, info)] →
      mapGet (w, tid) s.callbacks = some cb →
      (handleWorkerError w err s).settled = s.settled ++ [(cb, Outcome.rejected err)]) ∧
    (∀ s tid, (cancelTask tid s).2.settled = s.settled) ∧
    (∀ s, (shutdown s).settled = s.settled ++
      s.taskQueue.map (fun e => (e.cb, Outcome.rejected "Worker pool is shutting down"))) := by
  refine ⟨?_, ?_, ?_, ?_, ?_⟩
  · intro s w r info cb hg hc
    exact handleWorkerMessage_settles w r s info cb hg hc
  · intro s tid t cb hf
    exact timerFire_settles tid t cb s hf
  · intro s w err tid info cb hf hc
    exact handleWorkerError_settles w err s tid info cb hf hc
  · intro s tid
    exact cancelTask_settled tid s
  · intro s
    rw [shutdown_eq]

/-- C1 witness: the amended theorem applied at a concrete state with
two busy workers (one task with an armed timer) and one queued task. -/
theorem c1_amended_witness :
    ((handleWorkerMessage 0 ⟨"a", true, some 7, none⟩
        (runEvents [Event.addW, Event.addW,
          Event.submit ⟨"a", "work", 0, none, some 50⟩,
          Event.submit ⟨"b", "work", 0, none, none⟩,
          Event.submit ⟨"c", "work", 0, none, none⟩] (initState 4))).settled =
      (runEvents [Event.addW, Event.addW,
          Event.submit ⟨"a", "work", 0, none, some 50⟩,
          Event.submit ⟨"b", "work", 0, none, none⟩,
          Event.submit ⟨"c", "work", 0, none, none⟩] (initState 4)).settled ++
        [(0, settleOutcome ⟨"a", true, some 7, none⟩)]) ∧
    ((timerFire 0
        (runEvents [Event.addW, Event.addW,
          Event.submit ⟨"a", "work", 0, none, some 50⟩,
          Event.submit ⟨"b", "work", 0, none, none⟩,
          Event.submit ⟨"c", "work", 0, none, none⟩] (initState 4))).settled =
      (runEvents [Event.addW, Event.addW,
          Event.submit ⟨"a", "work", 0, none, some 50⟩,
          Event.submit ⟨"b", "work", 0, none, none⟩,
          Event.submit ⟨"c", "work", 0, none, none⟩] (initState 4)).settled ++
        [(0, Outcome.rejected ("Task " ++ "a" ++ " timed out after " ++
          toString ((⟨"a", "work", 0, none, some 50⟩ : WorkerTask).timeout.getD 0) ++ "ms"))]) ∧
    ((handleWorkerError 0 "boom"
        (runEvents [Event.addW, Event.addW,
          Event.submit ⟨"a", "work", 0, none, some 50⟩,
          Event.submit ⟨"b", "work", 0, none, none⟩,
          Event.submit ⟨"c", "work", 0, none, none⟩] (initState 4))).settled =
      (runEvents [Event.addW, Event.addW,
          Event.submit ⟨"a", "work", 0, none, some 50⟩,
          Event.submit ⟨"b", "work", 0, none, none⟩,
          Event.submit ⟨"c", "work", 0, none, none⟩] (initState 4)).settled ++
        [(0, Outcome.rejected "boom")]) ∧
    ((shutdown
        (runEvents [Event.addW, Event.addW,
          Event.submit ⟨"a", "work", 0, none, some 50⟩,
          Event.submit ⟨"b", "work", 0, none, none⟩,
          Event.submit ⟨"c", "work", 0, none, none⟩] (initState 4))).settled =
      (runEvents [Event.addW, Event.addW,
          Event.submit ⟨"a", "work", 0, none, some 50⟩,
          Event.submit ⟨"b", "work", 0, none, none⟩,
          Event.submit ⟨"c", "work", 0, none, none⟩] (initState 4)).settled ++
        (runEvents [Event.addW, Event.addW,
          Event.submit ⟨"a", "work", 0, none, some 50⟩,
          Event.submit ⟨"b", "work", 0, none, none⟩,
          Event.submit ⟨"c", "work", 0, none, none⟩] (initState 4)).taskQueue.map
          (fun e => (e.cb, Outcome.rejected "Worker pool is shutting down"))) := by
  refine ⟨?_, ?_, ?_, ?_⟩
  · exact c1_amended.1
      (runEvents [Event.addW, Event.addW,
        Event.submit ⟨"a", "work", 0, none, some 50⟩,
        Event.submit ⟨"b", "work", 0, none, none⟩,
        Event.submit ⟨"c", "work", 0, none, none⟩] (initState 4))
      0 ⟨"a", true, some 7, none⟩ ⟨0, some 0⟩ 0 (by decide) (by decide)
  · exact c1_amended.2.1
      (runEvents [Event.addW, Event.addW,
        Event.submit ⟨"a", "work", 0, none, some 50⟩,
        Event.submit ⟨"b", "work", 0, none, none⟩,
        Event.submit ⟨"c", "work", 0, none, none⟩] (initState 4))
      0 ⟨"a", "work", 0, none, some 50⟩ 0 (by decide)
  · exact c1_amended.2.2.1
      (runEvents [Event.addW, Event.addW,
        Event.submit ⟨"a", "work", 0, none, some 50⟩,
        Event.submit ⟨"b", "work", 0, none, none⟩,
        Event.submit ⟨"c", "work", 0, none, none⟩] (initState 4))
      0 "boom" "a" ⟨0, some 0⟩ 0 (by decide) (by decide)
  · exact c1_amended.2.2.2.2
      (runEvents [Event.addW, Event.addW,
        Event.submit ⟨"a", "work", 0, none, some 50⟩,
        Event.submit ⟨"b", "work", 0, none, none⟩,
        Event.submit ⟨"c", "work", 0, none, none⟩] (initState 4))

/-! ## Claim C6 -/

/-- C6 counterexample: with one task in flight, shutdown settles
nothing (the in-flight pending submission is not rejected with the
shutdown error), and a subsequent submitTask does not fail fast: it is
accepted into the queue of the shut-down pool without any settlement,
where it can never be dispatched. -/
theorem c6_counterexample :
    mapGet "x" (runEvents [Event.addW, Event.submit ⟨"x", "work", 0, none, none⟩]
      (initState 4)).activeTasks = some ⟨0, none⟩ ∧
    (shutdown (runEvents [Event.addW, Event.submit ⟨"x", "work", 0, none, none⟩]
      (initState 4))).settled = [] ∧
    (submitTask ⟨"y", "work", 0, none, none⟩
      (shutdown (runEvents [Event.addW, Event.submit ⟨"x", "work", 0, none, none⟩]
        (initState 4)))).taskQueue ≠ [] ∧
    (submitTask ⟨"y", "work", 0, none, none⟩
      (shutdown (runEvents [Event.addW, Event.submit ⟨"x", "work", 0, none, none⟩]
        (initState 4)))).settled = [] := by
  refine ⟨rfl, rfl, ?_, rfl⟩
  decide

/-- C6 (amended): shutdown rejects every queued pending submission with
the shutdown error, empties the queue, removes every worker and clears
the in-flight table, and getStats afterwards reports zero workers; but
in-flight pending submissions are not settled (their callbacks receive
nothing and their timers stay armed), and the pool still accepts later
submissions: they are queued without settlement and, since no workers
remain, can never be dispatched, instead of failing fast. -/
theorem c6_amended (s : PoolState) :
    (shutdown s).settled = s.settled ++
      s.taskQueue.map (fun e => (e.cb, Outcome.rejected "Worker pool is shutting down")) ∧
    (shutdown s).workers = [] ∧
    (shutdown s).activeTasks = [] ∧
    (shutdown s).taskQueue = [] ∧
    (shutdown s).timers = s.timers ∧
    (shutdown s).callbacks = s.callbacks ∧
    (getStats (shutdown s)).totalWorkers = 0 ∧
    (getStats (shutdown s)).activeWorkers = 0 ∧
    (∀ t, (submitTask t (shutdown s)).taskQueue = [⟨t, (shutdown s).nextCb⟩] ∧
      (submitTask t (shutdown s)).settled = (shutdown s).settled ∧
      (submitTask t (shutdown s)).activeTasks = []) := by
  rw [shutdown_eq]
  refine ⟨rfl, rfl, rfl, rfl, rfl, rfl, rfl, rfl, ?_⟩
  intro t
  set sd : PoolState :=
    { s with
      taskQueue := [], workers := [], activeTasks := [],
      settled := s.settled ++
        s.taskQueue.map (fun e => (e.cb, Outcome.rejected "Worker pool is shutting down")) }
  have hav : availableWorkers
      { sd with taskQueue := sd.taskQueue ++ [⟨t, sd.nextCb⟩],
                nextCb := sd.nextCb + 1, subIds := sd.subIds ++ [t.id] } = [] := by
    rfl
  rw [submitTask, processQueue_no_avail _ hav]
  exact ⟨rfl, rfl, rfl⟩

/-! ## Worker invariant machinery -/

theorem gateWorkers_def (s : PoolState) :
    gateWorkers s = s.activeTasks.map (fun p => p.2.worker) := rfl

theorem settle_nextWorker (cb : Nat) (o : Outcome) (s : PoolState) :
    (settle cb o s).nextWorker = s.nextWorker := rfl

theorem map_mapSet_subset {α β γ : Type} [DecidableEq α] (k : α) (v : β)
    (m : List (α × β)) (f : α × β → γ) :
    ∀ u ∈ (mapSet k v m).map f, u = f (k, v) ∨ u ∈ m.map f := by
  intro u hu
  rcases mapSet_spec k v m with ⟨_, heq⟩ | ⟨m₁, v₀, m₂, hm, _, _, heq⟩
  · rw [heq, List.map_append] at hu
    rcases List.mem_append.mp hu with h | h
    · right
      exact h
    · left
      simpa using h
  · rw [heq, List.map_append, List.map_cons] at hu
    rcases List.mem_append.mp hu with h | h
    · right
      rw [hm, List.map_append]
      exact List.mem_append.mpr (Or.inl h)
    · rcases List.mem_cons.mp h with h | h
      · left
        exact h
      · right
        rw [hm, List.map_append, List.map_cons]
        exact List.mem_append.mpr (Or.inr (List.mem_cons_of_mem _ h))

theorem mapSet_mem_self {α β : Type} [DecidableEq α] (k : α) (v : β) (m : List (α × β)) :
    (k, v) ∈ mapSet k v m := by
  rcases mapSet_spec k v m with ⟨_, heq⟩ | ⟨m₁, v₀, m₂, _, _, _, heq⟩
  · rw [heq]
    simp
  · rw [heq]
    simp

theorem nodup_map_mapSet {α β γ : Type} [DecidableEq α] (k : α) (v : β)
    (m : List (α × β)) (f : α × β → γ)
    (hn : (m.map f).Nodup) (hv : f (k, v) ∉ m.map f) : ((mapSet k v m).map f).Nodup := by
  rcases mapSet_spec k v m with ⟨_, heq⟩ | ⟨m₁, v₀, m₂, hm, _, _, heq⟩
  · rw [heq, List.map_append]
    simp only [List.map_cons, List.map_nil]
    rw [List.nodup_append]
    refine ⟨hn, List.nodup_singleton _, ?_⟩
    intro u hu hu'
    simp at hu'
    rw [hu'] at hu
    exact hv hu
  · subst hm
    rw [heq]
    rw [List.map_append, List.map_cons] at hn hv ⊢
    rw [List.nodup_middle] at hn ⊢
    rw [List.nodup_cons] at hn ⊢
    refine ⟨?_, hn.2⟩
    intro hmem
    apply hv
    rcases List.mem_append.mp hmem with h | h
    · exact List.mem_append.mpr (Or.inl h)
    · exact List.mem_append.mpr (Or.inr (List.mem_cons_of_mem _ h))

theorem winv_transfer (s s' : PoolState) (h : WInv s)
    (hw : s'.workers = s.workers) (hnw : s'.nextWorker = s.nextWorker)
    (hsub : (gateWorkers s').Sublist (gateWorkers s)) : WInv s' := by
  obtain ⟨h1, h2, h3, h4⟩ := h
  refine ⟨by rw [hw]; exact h1, ?_, hsub.nodup h3, ?_⟩
  · intro v hv
    rw [hw] at hv
    rw [hnw]
    exact h2 v hv
  · intro v hv
    rw [hnw]
    exact h4 v (hsub.subset hv)

theorem winv_dispatchOne (w : Nat) (e : QEntry) (s : PoolState) (h : WInv s)
    (hw : w ∈ s.workers) (hidle : w ∉ gateWorkers s) : WInv (dispatchOne w e s) := by
  obtain ⟨h1, h2, h3, h4⟩ := h
  have hats : gateWorkers (dispatchOne w e s) =
      (mapSet e.task.id ⟨w, if e.task.timeout.getD 0 ≠ 0 then some s.nextTimer else none⟩
        s.activeTasks).map (fun p => p.2.worker) := by
    rw [gateWorkers_def, dispatchOne_activeTasks]
  refine ⟨by rw [dispatchOne_workers]; exact h1, ?_, ?_, ?_⟩
  · intro v hv
    rw [dispatchOne_workers] at hv
    rw [dispatchOne_nextWorker]
    exact h2 v hv
  · rw [hats]
    exact nodup_map_mapSet _ _ _ _ h3 hidle
  · intro v hv
    rw [dispatchOne_nextWorker]
    rw [hats] at hv
    rcases map_mapSet_subset _ _ _ _ v hv with hv' | hv'
    · rw [hv']
      exact h2 w hw
    · exact h4 v hv'

theorem winv_assignLoop (ws : List Nat) (s : PoolState) (h : WInv s)
    (hnd : ws.Nodup)
    (hws : ∀ v ∈ ws, v ∈ s.workers ∧ v ∉ gateWorkers s) : WInv (assignLoop ws s) := by
  induction ws generalizing s with
  | nil => exact h
  | cons w ws ih =>
    cases hq : s.taskQueue with
    | nil =>
      simp only [assignLoop, hq]
      exact h
    | cons e rest =>
      simp only [assignLoop, hq]
      have hmem := hws w (List.mem_cons_self _ _)
      have h' : WInv ({ s with taskQueue := rest } : PoolState) := h
      have hw' : w ∈ ({ s with taskQueue := rest } : PoolState).workers := hmem.1
      have hidle' : w ∉ gateWorkers ({ s with taskQueue := rest } : PoolState) := hmem.2
      have hstep := winv_dispatchOne w e _ h' hw' hidle'
      apply ih _ hstep (List.Nodup.of_cons hnd)
      intro v hv
      have hvv := hws v (List.mem_cons_of_mem _ hv)
      constructor
      · rw [dispatchOne_workers]
        exact hvv.1
      · intro hvg
        have hats : gateWorkers (dispatchOne w e ({ s with taskQueue := rest } : PoolState)) =
            (mapSet e.task.id
              ⟨w, if e.task.timeout.getD 0 ≠ 0
                  then some ({ s with taskQueue := rest } : PoolState).nextTimer else none⟩
              ({ s with taskQueue := rest } : PoolState).activeTasks).map
              (fun p => p.2.worker) := by
          rw [gateWorkers_def, dispatchOne_activeTasks]
        rw [hats] at hvg
        rcases map_mapSet_subset _ _ _ _ v hvg with h'' | h''
        · have hne : v ≠ w := by
            intro hvw
            rw [hvw] at hv
            exact (List.nodup_cons.mp hnd).1 hv
          exact hne h''
        · exact hvv.2 h''

theorem winv_processQueue (s : PoolState) (h : WInv s) : WInv (processQueue s) := by
  by_cases hq : s.taskQueue.isEmpty
  · simp only [processQueue, hq, if_pos]
    exact h
  · simp only [processQueue, hq, Bool.false_eq_true, if_false]
    refine winv_assignLoop _ _ ?_ ?_ ?_
    · exact h
    · exact availableWorkers_nodup s h.1
    · intro v hv
      obtain ⟨hv1, hv2⟩ := (mem_availableWorkers s v).mp hv
      exact ⟨hv1, (isBusy_eq_false_iff s v).mp hv2⟩

theorem winv_submitTask (t : WorkerTask) (s : PoolState) (h : WInv s) :
    WInv (submitTask t s) := by
  rw [submitTask]
  refine winv_processQueue _ ?_
  exact h

theorem winv_handleWorkerMessage (w : Nat) (r : WorkerTaskResult) (s : PoolState)
    (h : WInv s) : WInv (handleWorkerMessage w r s) := by
  cases hg : mapGet r.taskId s.activeTasks with
  | none =>
    simp only [handleWorkerMessage, hg]
    exact h
  | some info =>
    simp only [handleWorkerMessage, hg]
    cases hc : mapGet (w, r.taskId) (clearTimeoutOpt info.timeout s).callbacks with
    | none =>
      simp only [hc]
      apply winv_processQueue
      apply winv_transfer _ _ h
      · rw [clearTimeoutOpt_workers]
      · rw [clearTimeoutOpt_nextWorker]
      · rw [gateWorkers_def, gateWorkers_def]
        show ((mapDel r.taskId (clearTimeoutOpt info.timeout s).activeTasks).map _).Sublist _
        rw [clearTimeoutOpt_activeTasks]
        exact (mapDel_sublist _ _).map _
    | some cb =>
      simp only [hc]
      apply winv_processQueue
      apply winv_transfer _ _ h
      · rw [settle_workers, clearTimeoutOpt_workers]
      · rw [settle_nextWorker, clearTimeoutOpt_nextWorker]
      · rw [gateWorkers_def, gateWorkers_def]
        show ((mapDel r.taskId (clearTimeoutOpt info.timeout s).activeTasks).map _).Sublist _
        rw [clearTimeoutOpt_activeTasks]
        exact (mapDel_sublist _ _).map _

theorem winv_errLoop (w : Nat) (err : String) (L : List (String × ActiveInfo))
    (s : PoolState) (h : WInv s) : WInv (errLoop w err L s) := by
  induction L generalizing s with
  | nil => exact h
  | cons p rest ih =>
    obtain ⟨tid, info⟩ := p
    by_cases hw : info.worker = w
    · simp only [errLoop, if_pos hw]
      apply ih
      cases hc : mapGet (w, tid) s.callbacks with
      | none =>
        simp only [hc]
        apply winv_transfer _ _ h
        · rw [clearTimeoutOpt_workers]
        · rw [clearTimeoutOpt_nextWorker]
        · rw [gateWorkers_def, gateWorkers_def]
          show ((mapDel tid (clearTimeoutOpt info.timeout s).activeTasks).map _).Sublist _
          rw [clearTimeoutOpt_activeTasks]
          exact (mapDel_sublist _ _).map _
      | some cb =>
        simp only [hc]
        apply winv_transfer _ _ h
        · simp only [clearTimeoutOpt_workers, settle_workers]
        · simp only [clearTimeoutOpt_nextWorker, settle_nextWorker]
        · simp only [gateWorkers_def, clearTimeoutOpt_activeTasks, settle_activeTasks]
          exact (mapDel_sublist _ _).map _
    · simp only [errLoop, if_neg hw]
      exact ih s h

theorem winv_cancelTask (tid : String) (s : PoolState) (h : WInv s) :
    WInv (cancelTask tid s).2 := by
  cases hg : mapGet tid s.activeTasks with
  | none =>
    simp only [cancelTask, hg]
    exact h
  | some info =>
    simp only [cancelTask, hg]
    apply winv_transfer _ _ h
    · rw [clearTimeoutOpt_workers]
    · rw [clearTimeoutOpt_nextWorker]
    · rw [gateWorkers_def, gateWorkers_def]
      show ((mapDel tid (clearTimeoutOpt info.timeout s).activeTasks).map _).Sublist _
      rw [clearTimeoutOpt_activeTasks]
      exact (mapDel_sublist _ _).map _

theorem winv_timerFire (tid : Nat) (s : PoolState) (h : WInv s) :
    WInv (timerFire tid s) := by
  cases hf : s.timers.find? (fun x => x.1 == tid) with
  | none =>
    simp only [timerFire, hf]
    exact h
  | some x =>
    obtain ⟨t₀, t, cb⟩ := x
    simp only [timerFire, hf]
    have hfw : WInv ({ s with timers := s.timers.filter (fun y => y.1 != tid) } : PoolState) := h
    have hc := winv_cancelTask t.id _ hfw
    apply winv_transfer _ _ hc
    · rw [settle_workers]
    · rw [settle_nextWorker]
    · rw [gateWorkers_def, gateWorkers_def, settle_activeTasks]

theorem winv_removeWorker (w : Nat) (s : PoolState) (h : WInv s) :
    WInv (removeWorker w s) := by
  obtain ⟨h1, h2, h3, h4⟩ := h
  refine ⟨h1.erase w, ?_, h3, h4⟩
  intro v hv
  exact h2 v ((s.workers.erase_sublist w).subset hv)

theorem winv_addWorker (s : PoolState) (h : WInv s) : WInv (addWorker s) := by
  obtain ⟨h1, h2, h3, h4⟩ := h
  refine ⟨?_, ?_, h3, ?_⟩
  · rw [addWorker]
    simp only []
    rw [List.nodup_append]
    refine ⟨h1, List.nodup_singleton _, ?_⟩
    intro u hu hu'
    simp at hu'
    rw [hu'] at hu
    exact absurd (h2 _ hu) (lt_irrefl _)
  · intro v hv
    rw [addWorker] at hv
    simp at hv
    rcases hv with hv | hv
    · exact Nat.lt_succ_of_lt (h2 v hv)
    · rw [hv]
      exact Nat.lt_succ_self _
  · intro v hv
    exact Nat.lt_succ_of_lt (h4 v hv)

theorem winv_shutdown (s : PoolState) (h : WInv s) : WInv (shutdown s) := by
  rw [shutdown_eq]
  exact ⟨List.nodup_nil, by intro v hv; simp at hv, List.nodup_nil, by
    intro v hv
    rw [gateWorkers_def] at hv
    simp at hv⟩

theorem winv_applyEvent (e : Event) (s : PoolState) (h : WInv s) :
    WInv (applyEvent e s) := by
  cases e with
  | submit t => exact winv_submitTask t s h
  | message w r => exact winv_handleWorkerMessage w r s h
  | workerError w err => exact winv_errLoop w err s.activeTasks s h
  | exited w => exact winv_removeWorker w s h
  | cancel tid => exact winv_cancelTask tid s h
  | fire tid => exact winv_timerFire tid s h
  | addW => exact winv_addWorker s h
  | shutdownEvent => exact winv_shutdown s h

theorem winv_runEvents (es : List Event) (s : PoolState) (h : WInv s) :
    WInv (runEvents es s) := by
  induction es generalizing s with
  | nil => exact h
  | cons e rest ih => exact ih (applyEvent e s) (winv_applyEvent e s h)

theorem winv_initState (m : Nat) : WInv (initState m) := by
  refine ⟨List.nodup_nil, ?_, List.nodup_nil, ?_⟩
  · intro v hv
    simp [initState] at hv
  · intro v hv
    rw [gateWorkers_def] at hv
    simp [initState] at hv

/-! ## Worker permanence and dispatch postcondition -/

theorem notin_workers_applyEvent (e : Event) (s : PoolState) (w : Nat)
    (hnw : w ∉ s.workers) (hlt : w < s.nextWorker) :
    w ∉ (applyEvent e s).workers ∧ w < (applyEvent e s).nextWorker := by
  cases e with
  | submit t =>
    rw [applyEvent, submitTask_workers, submitTask_nextWorker]
    exact ⟨hnw, hlt⟩
  | message w' r =>
    rw [applyEvent, handleWorkerMessage_workers, handleWorkerMessage_nextWorker]
    exact ⟨hnw, hlt⟩
  | workerError w' err =>
    rw [applyEvent, handleWorkerError, errLoop_workers, errLoop_nextWorker]
    exact ⟨hnw, hlt⟩
  | exited v =>
    rw [applyEvent, removeWorker]
    refine ⟨?_, hlt⟩
    intro hmem
    exact hnw ((s.workers.erase_sublist v).subset hmem)
  | cancel tid =>
    rw [applyEvent, cancelTask_workers, cancelTask_nextWorker]
    exact ⟨hnw, hlt⟩
  | fire tid =>
    rw [applyEvent, timerFire_workers, timerFire_nextWorker]
    exact ⟨hnw, hlt⟩
  | addW =>
    rw [applyEvent, addWorker]
    constructor
    · intro hmem
      simp at hmem
      rcases hmem with hmem | hmem
      · exact hnw hmem
      · rw [hmem] at hlt
        exact lt_irrefl _ hlt
    · exact Nat.lt_succ_of_lt hlt
  | shutdownEvent =>
    rw [applyEvent, shutdown_eq]
    exact ⟨by simp, hlt⟩

theorem notin_workers_runEvents (es : List Event) (s : PoolState) (w : Nat)
    (hnw : w ∉ s.workers) (hlt : w < s.nextWorker) :
    w ∉ (runEvents es s).workers := by
  induction es generalizing s with
  | nil => exact hnw
  | cons e rest ih =>
    obtain ⟨h1, h2⟩ := notin_workers_applyEvent e s w hnw hlt
    exact ih (applyEvent e s) h1 h2

theorem assignLoop_post (ws : List Nat) (s : PoolState)
    (hcover : ∀ w ∈ s.workers, w ∈ ws ∨ isBusy s w = true)
    (hqn : (queueIds s).Nodup)
    (hqg : ∀ tid ∈ queueIds s, tid ∉ gateKeys s) :
    (assignLoop ws s).taskQueue = [] ∨
      ∀ w ∈ (assignLoop ws s).workers, isBusy (assignLoop ws s) w = true := by
  induction ws generalizing s with
  | nil =>
    right
    intro w hw
    rcases hcover w hw with h | h
    · simp at h
    · exact h
  | cons v ws ih =>
    cases hq : s.taskQueue with
    | nil =>
      left
      simp only [assignLoop, hq]
    | cons e rest =>
      simp only [assignLoop, hq]
      have heq : queueIds s = e.task.id :: rest.map (fun x => x.task.id) := by
        rw [queueIds, hq]
        rfl
      have heid : e.task.id ∈ queueIds s := by
        rw [heq]
        exact List.mem_cons_self _ _
      have hgnone : mapGet e.task.id s.activeTasks = none := by
        rw [mapGet_eq_none_iff]
        exact hqg _ heid
      have hsd : (dispatchOne v e ({ s with taskQueue := rest } : PoolState)).activeTasks =
          s.activeTasks ++
            [(e.task.id,
              ⟨v, if e.task.timeout.getD 0 ≠ 0
                  then some ({ s with taskQueue := rest } : PoolState).nextTimer else none⟩)] := by
        rw [dispatchOne_activeTasks]
        exact mapSet_of_mapGet_none _ hgnone
      apply ih
      · intro w hw
        rw [dispatchOne_workers] at hw
        rcases hcover w hw with h | h
        · rcases List.mem_cons.mp h with h | h
          · right
            rw [isBusy, hsd, h]
            apply List.any_eq_true.mpr
            refine ⟨(e.task.id,
              ⟨v, if e.task.timeout.getD 0 ≠ 0
                  then some ({ s with taskQueue := rest } : PoolState).nextTimer
                  else none⟩), ?_, ?_⟩
            · exact List.mem_append.mpr (Or.inr (List.mem_cons_self _ _))
            · simp
          · left
            exact h
        · right
          rw [isBusy, hsd]
          rw [isBusy] at h
          obtain ⟨p, hp, hpv⟩ := List.any_eq_true.mp h
          exact List.any_eq_true.mpr ⟨p, List.mem_append.mpr (Or.inl hp), hpv⟩
      · have hqids : queueIds (dispatchOne v e ({ s with taskQueue := rest } : PoolState)) =
            rest.map (fun x => x.task.id) := by
          rw [queueIds, dispatchOne_taskQueue]
        rw [hqids]
        rw [heq] at hqn
        exact hqn.of_cons
      · intro tid htid
        have hqids : queueIds (dispatchOne v e ({ s with taskQueue := rest } : PoolState)) =
            rest.map (fun x => x.task.id) := by
          rw [queueIds, dispatchOne_taskQueue]
        rw [hqids] at htid
        have hkeys : gateKeys (dispatchOne v e ({ s with taskQueue := rest } : PoolState)) =
            gateKeys s ++ [e.task.id] := by
          rw [gateKeys, hsd]
          rw [List.map_append]
          rfl
        rw [hkeys]
        intro hmem
        rcases List.mem_append.mp hmem with h | h
        · exact hqg tid (by rw [heq]; exact List.mem_cons_of_mem _ htid) h
        · simp at h
          rw [heq] at hqn
          rw [h] at htid
          exact (List.nodup_cons.mp hqn).1 htid

theorem processQueue_post (s : PoolState)
    (hqn : (queueIds s).Nodup)
    (hqg : ∀ tid ∈ queueIds s, tid ∉ gateKeys s) :
    (processQueue s).taskQueue = [] ∨
      ∀ w ∈ (processQueue s).workers, isBusy (processQueue s) w = true := by
  by_cases hq : s.taskQueue.isEmpty
  · left
    simp only [processQueue, hq, if_pos]
    exact List.isEmpty_iff.mp hq
  · simp only [processQueue, hq, Bool.false_eq_true, if_false]
    have hperm : (queueIds ({ s with taskQueue := sortQueue s.taskQueue } : PoolState)).Perm
        (queueIds s) := by
      rw [queueIds, queueIds]
      exact (sortQueue_perm s.taskQueue).map _
    apply assignLoop_post
    · intro w hw
      cases hb : isBusy s w with
      | false =>
        left
        exact (mem_availableWorkers s w).mpr ⟨hw, hb⟩
      | true =>
        right
        exact hb
    · exact hperm.nodup_iff.mpr hqn
    · intro tid htid
      exact hqg tid (hperm.subset htid)

/-! ## Claim C5 -/

/-- C5 counterexample: when a task id is resubmitted while the first
submission with that id is in flight, dispatching the duplicate
overwrites the activeTasks entry of the original, silently freeing its
worker in the bookkeeping.  In the reachable state below, reached right
after dispatch ran (the worker message handler ends in processQueue),
the queue still holds a task while worker 0 is idle, refuting the
claimed no-idle-worker-with-queued-task property. -/
theorem c5_counterexample :
    (handleWorkerMessage 1 ⟨"b", true, some 1, none⟩
      (runEvents
        [Event.addW, Event.addW,
         Event.submit ⟨"x", "work", 0, none, none⟩,
         Event.submit ⟨"b", "work", 0, none, none⟩,
         Event.submit ⟨"x", "work", 0, none, none⟩,
         Event.submit ⟨"y", "work", 0, none, none⟩]
        (initState 4))).taskQueue ≠ [] ∧
    (0 : Nat) ∈ (handleWorkerMessage 1 ⟨"b", true, some 1, none⟩
      (runEvents
        [Event.addW, Event.addW,
         Event.submit ⟨"x", "work", 0, none, none⟩,
         Event.submit ⟨"b", "work", 0, none, none⟩,
         Event.submit ⟨"x", "work", 0, none, none⟩,
         Event.submit ⟨"y", "work", 0, none, none⟩]
        (initState 4))).workers ∧
    isBusy (handleWorkerMessage 1 ⟨"b", true, some 1, none⟩
      (runEvents
        [Event.addW, Event.addW,
         Event.submit ⟨"x", "work", 0, none, none⟩,
         Event.submit ⟨"b", "work", 0, none, none⟩,
         Event.submit ⟨"x", "work", 0, none, none⟩,
         Event.submit ⟨"y", "work", 0, none, none⟩]
        (initState 4))) 0 = false := by
  refine ⟨?_, ?_, ?_⟩
  · decide
  · decide
  · decide

/-- C5 (amended): at every reachable pool state no worker is assigned
more than one in-flight task (the activeTasks workers are pairwise
distinct), and dispatch leaves no task queued while an idle worker
exists provided the queued task ids are pairwise distinct and disjoint
from the in-flight task ids; without that proviso, dispatching a
duplicate id overwrites the in-flight entry of the original and can
leave a queued task with an idle worker. -/
theorem c5_amended (m : Nat) (es : List Event) :
    (gateWorkers (runEvents es (initState m))).Nodup ∧
    ((queueIds (runEvents es (initState m))).Nodup →
      (∀ tid ∈ queueIds (runEvents es (initState m)),
        tid ∉ gateKeys (runEvents es (initState m))) →
      ((processQueue (runEvents es (initState m))).taskQueue = [] ∨
        ∀ w ∈ (processQueue (runEvents es (initState m))).workers,
          isBusy (processQueue (runEvents es (initState m))) w = true)) := by
  have hw := winv_runEvents es (initState m) (winv_initState m)
  exact ⟨hw.2.2.1, fun hqn hqg => processQueue_post _ hqn hqg⟩

/-- C5 witness: the amended theorem at a concrete trace with one busy
worker and one queued task with distinct ids: dispatch empties the
queue or keeps every worker busy (here every worker stays busy). -/
theorem c5_amended_witness :
    (gateWorkers (runEvents
      [Event.addW, Event.submit ⟨"a", "work", 0, none, none⟩,
       Event.submit ⟨"b", "work", 0, none, none⟩] (initState 4))).Nodup ∧
    ((processQueue (runEvents
      [Event.addW, Event.submit ⟨"a", "work", 0, none, none⟩,
       Event.submit ⟨"b", "work", 0, none, none⟩] (initState 4))).taskQueue = [] ∨
      ∀ w ∈ (processQueue (runEvents
        [Event.addW, Event.submit ⟨"a", "work", 0, none, none⟩,
         Event.submit ⟨"b", "work", 0, none, none⟩] (initState 4))).workers,
        isBusy (processQueue (runEvents
          [Event.addW, Event.submit ⟨"a", "work", 0, none, none⟩,
           Event.submit ⟨"b", "work", 0, none, none⟩] (initState 4))) w = true) := by
  have h := c5_amended 4
    [Event.addW, Event.submit ⟨"a", "work", 0, none, none⟩,
     Event.submit ⟨"b", "work", 0, none, none⟩]
  exact ⟨h.1, h.2 (by decide) (by decide)⟩

/-! ## Claim C7 -/

/-- C7 counterexample: when a worker exits, the exit listener only
removes it from the worker list: the task still assigned to it stays in
activeTasks, its pending submission is never rejected (the settlement
log stays empty), so exited-worker tasks are not treated as failed by
the exit handling. -/
theorem c7_counterexample :
    (runEvents [Event.addW, Event.submit ⟨"x", "work", 0, none, none⟩, Event.exited 0]
      (initState 4)).workers = [] ∧
    mapGet "x" (runEvents [Event.addW, Event.submit ⟨"x", "work", 0, none, none⟩,
      Event.exited 0] (initState 4)).activeTasks = some ⟨0, none⟩ ∧
    (runEvents [Event.addW, Event.submit ⟨"x", "work", 0, none, none⟩, Event.exited 0]
      (initState 4)).settled = [] :=
  ⟨rfl, rfl, rfl⟩

/-- C7 (amended): when a worker exits it is removed from the worker
list permanently: the exit handling equals exactly the removal of the
worker (activeTasks, timers, callbacks and the settlement log are
untouched, so tasks assigned to it are not failed and keep their
pending submissions unsettled), and once removed from a reachable
state the worker never reappears under any further events. -/
theorem c7_amended :
    (∀ s w, removeWorker w s = { s with workers := s.workers.erase w }) ∧
    (∀ s w, (removeWorker w s).activeTasks = s.activeTasks ∧
      (removeWorker w s).settled = s.settled ∧
      (removeWorker w s).timers = s.timers ∧
      (removeWorker w s).callbacks = s.callbacks ∧
      (removeWorker w s).taskQueue = s.taskQueue) ∧
    (∀ m es w, w ∈ (runEvents es (initState m)).workers →
      w ∉ (removeWorker w (runEvents es (initState m))).workers ∧
      ∀ es₂, w ∉ (runEvents es₂ (removeWorker w (runEvents es (initState m)))).workers) := by
  refine ⟨fun s w => rfl, fun s w => ⟨rfl, rfl, rfl, rfl, rfl⟩, ?_⟩
  intro m es w hmem
  have hw := winv_runEvents es (initState m) (winv_initState m)
  have hnotin : w ∉ (removeWorker w (runEvents es (initState m))).workers := by
    rw [removeWorker]
    intro hcon
    have h2 : w ∈ (runEvents es (initState m)).workers.erase w := hcon
    rcases (List.Nodup.mem_erase_iff hw.1).mp h2 with ⟨hne, _⟩
    exact hne rfl
  refine ⟨hnotin, ?_⟩
  intro es₂
  apply notin_workers_runEvents es₂ _ w hnotin
  rw [removeWorker]
  exact hw.2.1 w hmem

/-- C7 witness: removing worker 0 from a one-worker pool: it is gone
and stays gone even after another worker is later created. -/
theorem c7_amended_witness :
    (0 : Nat) ∉ (removeWorker 0 (runEvents [Event.addW] (initState 1))).workers ∧
    (0 : Nat) ∉ (runEvents [Event.addW]
      (removeWorker 0 (runEvents [Event.addW] (initState 1)))).workers := by
  have h := c7_amended.2.2 1 [Event.addW] 0 (by decide)
  exact ⟨h.1, h.2 [Event.addW]⟩

/-! ## Claim C2 -/

/-- C2: higher priority dispatches first and equal priority preserves
submission order.  First conjunct: with one worker kept busy by a
primer task, tasks queued with priorities 1, 5, 3 dispatch in order
5, 3, 1 as the worker frees up (the sent log shows the primer followed
by t2, t3, t1).  Second conjunct: the queue sort is stable, stated as
the sort preserving the filtered subsequence of every priority class,
so equal-priority tasks keep their submission order.  Third conjunct:
two equal-priority tasks A then B with one worker dispatch A before B. -/
theorem c2_priority_fifo :
    ((runEvents
      [Event.addW, Event.submit ⟨"t0", "work", 0, none, none⟩,
       Event.submit ⟨"t1", "work", 0, some 1, none⟩,
       Event.submit ⟨"t2", "work", 0, some 5, none⟩,
       Event.submit ⟨"t3", "work", 0, some 3, none⟩,
       Event.message 0 ⟨"t0", true, some 1, none⟩,
       Event.message 0 ⟨"t2", true, some 1, none⟩,
       Event.message 0 ⟨"t3", true, some 1, none⟩] (initState 4)).sent =
      [SentMsg.taskMsg 0 ⟨"t0", "work", 0, none, none⟩,
       SentMsg.taskMsg 0 ⟨"t2", "work", 0, some 5, none⟩,
       SentMsg.taskMsg 0 ⟨"t3", "work", 0, some 3, none⟩,
       SentMsg.taskMsg 0 ⟨"t1", "work", 0, some 1, none⟩]) ∧
    (∀ (l : List QEntry) (p : Int),
      (sortQueue l).filter (fun x => qPri x == p) = l.filter (fun x => qPri x == p)) ∧
    ((runEvents
      [Event.addW, Event.submit ⟨"a0", "work", 0, none, none⟩,
       Event.submit ⟨"A", "work", 0, some 2, none⟩,
       Event.submit ⟨"B", "work", 0, some 2, none⟩,
       Event.message 0 ⟨"a0", true, some 1, none⟩,
       Event.message 0 ⟨"A", true, some 1, none⟩] (initState 4)).sent =
      [SentMsg.taskMsg 0 ⟨"a0", "work", 0, none, none⟩,
       SentMsg.taskMsg 0 ⟨"A", "work", 0, some 2, none⟩,
       SentMsg.taskMsg 0 ⟨"B", "work", 0, some 2, none⟩]) := by
  refine ⟨by decide, sortQueue_filter, by decide⟩

/-! ## Claim C9: counterexample -/

/-- C9 counterexample: submission cb 1 (task id x with a timeout) is
settled twice: once by its timeout firing, and once more when the
worker that was advisorily cancelled posts its late result after the
same id x has been resubmitted and dispatched to another worker, which
makes the stale stash entry reachable again.  The pool therefore can
invoke one resolve/reject pair twice. -/
theorem c9_counterexample :
    settledCount (runEvents
      [Event.addW, Event.addW, Event.addW,
       Event.submit ⟨"y", "work", 0, none, none⟩,
       Event.submit ⟨"x", "work", 0, none, some 100⟩,
       Event.fire 0,
       Event.submit ⟨"z", "work", 0, none, none⟩,
       Event.submit ⟨"x", "work", 0, none, none⟩,
       Event.message 1 ⟨"x", true, some 42, none⟩] (initState 4)) 1 = 2 := by
  decide

/-! ## GInv machinery: basic counting and collection lemmas -/

theorem settledCount_settle (cb : Nat) (o : Outcome) (s : PoolState) (cb' : Nat) :
    settledCount (settle cb o s) cb' =
      settledCount s cb' + (if cb' = cb then 1 else 0) := by
  rw [settledCount, settledCount, settledCbs, settledCbs, settle]
  simp only [List.map_append, List.map_cons, List.map_nil, List.count_append]
  by_cases h : cb' = cb
  · subst h
    simp [List.count_singleton]
  · simp [List.count_cons, h, Ne.symm h]

theorem settledCount_eq_zero_of_not_mem (s : PoolState) (cb : Nat)
    (h : cb ∉ settledCbs s) : settledCount s cb = 0 := by
  rw [settledCount]
  exact List.count_eq_zero.mpr h

theorem not_mem_cbVals_of_mapGet {s : PoolState} {cb : Nat}
    (h : cb ∉ cbVals s) (w : Nat) (tid : String) :
    mapGet (w, tid) s.callbacks ≠ some cb := by
  intro hc
  exact h (mem_vals_of_mapGet_some hc)

theorem timers_proj_eq (s : PoolState) : timerCbs s = s.timers.map (fun x => x.2.2) := rfl

theorem ginv_timers_filter (s : PoolState) (p : Nat × WorkerTask × Nat → Bool)
    (h : GInv s) : GInv { s with timers := s.timers.filter p } := by
  have hsubt : ∀ x, x ∈ s.timers.filter p → x ∈ s.timers := by
    intro x hx
    exact List.mem_of_mem_filter hx
  have hsubtc : ∀ cb, cb ∈ timerCbs ({ s with timers := s.timers.filter p } : PoolState) →
      cb ∈ timerCbs s := by
    intro cb hcb
    obtain ⟨x, hx, hxx⟩ := List.mem_map.mp hcb
    exact List.mem_map.mpr ⟨x, hsubt x hx, hxx⟩
  refine ⟨h.subQ, h.subG, h.subC, h.qidN, h.qidG, h.qcbN, h.gkN, h.ckN, ?_, ?_⟩
  · intro cb hcb
    apply h.cbB
    rcases hcb with hc | hc | hc | hc
    · exact Or.inl hc
    · exact Or.inr (Or.inl hc)
    · exact Or.inr (Or.inr (Or.inl (hsubtc cb hc)))
    · exact Or.inr (Or.inr (Or.inr hc))
  · intro cb
    rcases h.states cb with h1 | h2 | h5 | h3
    · left
      obtain ⟨ha, hb, hc, hd⟩ := h1
      exact ⟨ha, hb, hc, fun hmem => hd (hsubtc cb hmem)⟩
    · right; left
      obtain ⟨ha, hb, w, tid, topt, hc, hd, he, hf, hg, hh⟩ := h2
      refine ⟨ha, hb, w, tid, topt, hc, hd, he, hf, ?_, ?_⟩
      · intro x hx hxcb
        exact hg x (hsubt x hx) hxcb
      · intro x hx y hy hxcb hycb
        exact hh x (hsubt x hx) y (hsubt y hy) hxcb hycb
    · by_cases hmem : cb ∈ timerCbs ({ s with timers := s.timers.filter p } : PoolState)
      · right; right; left
        obtain ⟨ha, hb, _, hd, he⟩ := h5
        refine ⟨ha, hb, ?_, ?_, he⟩
        · obtain ⟨x, hx, hxx⟩ := List.mem_map.mp hmem
          exact ⟨x, hx, hxx⟩
        · intro x hx y hy hxcb hycb
          exact hd x (hsubt x hx) y (hsubt y hy) hxcb hycb
      · right; right; right
        obtain ⟨ha, hb, _, _, he⟩ := h5
        refine ⟨?_, hb, hmem, he⟩
        have h0 : settledCount ({ s with timers := s.timers.filter p } : PoolState) cb = 0 := ha
        omega
    · right; right; right
      obtain ⟨ha, hb, hc, hd⟩ := h3
      exact ⟨ha, hb, fun hmem => hc (hsubtc cb hmem), hd⟩

theorem ginv_owner (s : PoolState) (tid : String) (info : ActiveInfo) (w' : Nat)
    (cbv : Nat) (h : GInv s) (hg : mapGet tid s.activeTasks = some info)
    (hc : mapGet (w', tid) s.callbacks = some cbv) :
    w' = info.worker ∧ settledCount s cbv = 0 ∧ cbv ∉ queueCbs s ∧
    (∀ w2 tid2, mapGet (w2, tid2) s.callbacks = some cbv → w2 = w' ∧ tid2 = tid) ∧
    (∀ x ∈ s.timers, x.2.2 = cbv → info.timeout = some x.1 ∧ x.2.1.id = tid) ∧
    tid ∉ queueIds s := by
  have hgk : tid ∈ gateKeys s := mem_keys_of_mapGet_some hg
  have hqid : tid ∉ queueIds s := fun hmem => h.qidG tid hmem hgk
  rcases h.states cbv with h1 | h2 | h5 | h3
  · exact absurd (mem_vals_of_mapGet_some hc) h1.2.2.1
  · obtain ⟨ha, hb, w₀, tid₀, topt₀, hc1, hc2, hc3, hc4, hc5, hc6⟩ := h2
    obtain ⟨hww, htt⟩ := hc2 w' tid hc
    subst hww
    subst htt
    rw [hg] at hc3
    have hinfo : info = ⟨w', topt₀⟩ := Option.some.inj hc3
    refine ⟨by rw [hinfo], ha, hb, hc2, ?_, hqid⟩
    intro x hx hxcb
    obtain ⟨hx1, hx2⟩ := hc5 x hx hxcb
    exact ⟨by rw [hinfo]; exact hx1, hx2⟩
  · obtain ⟨_, _, _, _, he⟩ := h5
    exact absurd hgk (he w' tid hc).1
  · obtain ⟨_, _, _, hd⟩ := h3
    exact absurd hgk (hd w' tid hc).1

theorem ginv_gate_del (s : PoolState) (tid : String) (info : ActiveInfo)
    (h : GInv s) (hg : mapGet tid s.activeTasks = some info)
    (hot : ∀ cbv, mapGet (info.worker, tid) s.callbacks = some cbv → cbv ∉ timerCbs s) :
    GInv { s with activeTasks := mapDel tid s.activeTasks } := by
  have hgsub : ∀ t₂, t₂ ∈ gateKeys ({ s with activeTasks := mapDel tid s.activeTasks } : PoolState) →
      t₂ ∈ gateKeys s := by
    intro t₂ ht₂
    exact ((mapDel_sublist tid s.activeTasks).map Prod.fst).subset ht₂
  have hgone : tid ∉ gateKeys ({ s with activeTasks := mapDel tid s.activeTasks } : PoolState) := by
    have := mapGet_mapDel_self tid (m := s.activeTasks) h.gkN
    exact (mapGet_eq_none_iff _ _).mp this
  have hne : ∀ t₂, t₂ ≠ tid →
      mapGet t₂ ({ s with activeTasks := mapDel tid s.activeTasks } : PoolState).activeTasks =
        mapGet t₂ s.activeTasks := by
    intro t₂ ht₂
    exact mapGet_mapDel_ne _ ht₂
  refine ⟨h.subQ, fun t₂ ht₂ => h.subG t₂ (hgsub t₂ ht₂), h.subC, h.qidN,
    fun t₂ ht₂ hcon => h.qidG t₂ ht₂ (hgsub t₂ hcon), h.qcbN,
    (((mapDel_sublist tid s.activeTasks).map Prod.fst).nodup h.gkN), h.ckN, h.cbB, ?_⟩
  intro cb
  rcases h.states cb with h1 | h2 | h5 | h3
  · left
    exact h1
  · obtain ⟨ha, hb, w₀, tid₀, topt₀, hc1, hc2, hc3, hc4, hc5, hc6⟩ := h2
    by_cases htid : tid₀ = tid
    · subst htid
      rw [hg] at hc3
      have hinfo : info = ⟨w₀, topt₀⟩ := Option.some.inj hc3
      have hcb_notimer : cb ∉ timerCbs s := by
        apply hot cb
        rw [hinfo]
        exact hc1
      right; right; right
      refine ⟨?_, hb, hcb_notimer, ?_⟩
      · have h0 : settledCount
            ({ s with activeTasks := mapDel tid₀ s.activeTasks } : PoolState) cb = 0 := ha
        omega
      intro w2 tid2 hc'
      obtain ⟨hw2, htid2⟩ := hc2 w2 tid2 hc'
      subst htid2
      exact ⟨hgone, hc4⟩
    · right; left
      refine ⟨ha, hb, w₀, tid₀, topt₀, hc1, hc2, ?_, hc4, hc5, hc6⟩
      rw [hne tid₀ htid]
      exact hc3
  · right; right; left
    obtain ⟨ha, hb, hex, hun, he⟩ := h5
    refine ⟨ha, hb, hex, hun, ?_⟩
    intro w2 tid2 hc'
    obtain ⟨hg2, hq2⟩ := he w2 tid2 hc'
    exact ⟨fun hcon => hg2 (hgsub tid2 hcon), hq2⟩
  · right; right; right
    obtain ⟨ha, hb, hc', hd⟩ := h3
    refine ⟨ha, hb, hc', ?_⟩
    intro w2 tid2 hcc
    obtain ⟨hg2, hq2⟩ := hd w2 tid2 hcc
    exact ⟨fun hcon => hg2 (hgsub tid2 hcon), hq2⟩

theorem ginv_settle_delref (s : PoolState) (w : Nat) (tid : String) (cb : Nat)
    (o : Outcome) (h : GInv s)
    (hc : mapGet (w, tid) s.callbacks = some cb)
    (h0 : settledCount s cb = 0) (hq : cb ∉ queueCbs s) (ht : cb ∉ timerCbs s)
    (hrefs : ∀ w2 tid2, mapGet (w2, tid2) s.callbacks = some cb →
      tid2 ∉ gateKeys s ∧ tid2 ∉ queueIds s) :
    GInv { settle cb o s with callbacks := mapDel (w, tid) s.callbacks } := by
  have hcount : ∀ cb2, settledCount
      ({ settle cb o s with callbacks := mapDel (w, tid) s.callbacks } : PoolState) cb2 =
      settledCount s cb2 + (if cb2 = cb then 1 else 0) := by
    intro cb2
    exact settledCount_settle cb o s cb2
  have hcget : ∀ w2 tid2,
      mapGet (w2, tid2)
        ({ settle cb o s with callbacks := mapDel (w, tid) s.callbacks } : PoolState).callbacks =
          some cb →
      mapGet (w2, tid2) s.callbacks = some cb → True := fun _ _ _ _ => trivial
  have hdel_ne : ∀ (k : Nat × String), k ≠ (w, tid) →
      mapGet k (mapDel (w, tid) s.callbacks) = mapGet k s.callbacks := by
    intro k hk
    exact mapGet_mapDel_ne _ hk
  have hdel_self : mapGet (w, tid) (mapDel (w, tid) s.callbacks) = none :=
    mapGet_mapDel_self _ h.ckN
  have hpres : ∀ (k : Nat × String) (v : Nat),
      mapGet k (mapDel (w, tid) s.callbacks) = some v → mapGet k s.callbacks = some v := by
    intro k v hkv
    by_cases hk : k = (w, tid)
    · rw [hk, hdel_self] at hkv
      exact Option.noConfusion hkv
    · rw [hdel_ne k hk] at hkv
      exact hkv
  have hvsub : ∀ v, v ∈ cbVals ({ settle cb o s with
      callbacks := mapDel (w, tid) s.callbacks } : PoolState) → v ∈ cbVals s := by
    intro v hv
    exact (((mapDel_sublist (w, tid) s.callbacks).map Prod.snd).subset hv)
  refine ⟨h.subQ, h.subG, ?_, h.qidN, h.qidG, h.qcbN, h.gkN,
    ((mapDel_sublist (w, tid) s.callbacks).map Prod.fst).nodup h.ckN, ?_, ?_⟩
  · intro k hk
    exact h.subC k (((mapDel_sublist (w, tid) s.callbacks).map Prod.fst).subset hk)
  · intro cb2 hcb2
    apply h.cbB
    rcases hcb2 with hc2 | hc2 | hc2 | hc2
    · exact Or.inl hc2
    · exact Or.inr (Or.inl (hvsub cb2 hc2))
    · exact Or.inr (Or.inr (Or.inl hc2))
    · rw [show settledCbs ({ settle cb o s with
          callbacks := mapDel (w, tid) s.callbacks } : PoolState) =
          settledCbs s ++ [cb] from by
            rw [settledCbs, settledCbs, settle]
            simp] at hc2
      rcases List.mem_append.mp hc2 with hh | hh
      · exact Or.inr (Or.inr (Or.inr hh))
      · simp at hh
        rw [hh]
        exact Or.inr (Or.inl (mem_vals_of_mapGet_some hc))
  · intro cb2
    by_cases hcb2 : cb2 = cb
    · subst hcb2
      right; right; right
      refine ⟨?_, hq, ht, ?_⟩
      · rw [hcount]
        simp [h0]
      · intro w2 tid2 hc'
        exact hrefs w2 tid2 (hpres (w2, tid2) cb2 hc')
    · rcases h.states cb2 with h1 | h2 | h5 | h3
      · left
        obtain ⟨ha, hb, hcv, htc⟩ := h1
        refine ⟨by rw [hcount]; simp [ha, hcb2], hb, ?_, htc⟩
        intro hv
        exact hcv (hvsub cb2 hv)
      · right; left
        obtain ⟨ha, hb, w₀, tid₀, topt₀, hc1, hc2', hc3, hc4, hc5, hc6⟩ := h2
        have hkne : (w₀, tid₀) ≠ (w, tid) := by
          intro hk
          rw [hk] at hc1
          rw [hc1] at hc
          exact hcb2 (Option.some.inj hc.symm).symm
        refine ⟨by rw [hcount]; simp [ha, hcb2], hb, w₀, tid₀, topt₀, ?_, ?_,
          hc3, hc4, hc5, hc6⟩
        · rw [show ({ settle cb o s with callbacks := mapDel (w, tid) s.callbacks } :
            PoolState).callbacks = mapDel (w, tid) s.callbacks from rfl]
          rw [hdel_ne _ hkne]
          exact hc1
        · intro w2 tid2 hcc
          exact hc2' w2 tid2 (hpres (w2, tid2) cb2 hcc)
      · right; right; left
        obtain ⟨ha, hb, hex, hun, he⟩ := h5
        refine ⟨by rw [hcount]; simp [ha, hcb2], hb, hex, hun, ?_⟩
        intro w2 tid2 hcc
        exact he w2 tid2 (hpres (w2, tid2) cb2 hcc)
      · right; right; right
        obtain ⟨ha, hb, hcn, hd⟩ := h3
        refine ⟨by rw [hcount]; simp [hcb2]; exact ha, hb, hcn, ?_⟩
        intro w2 tid2 hcc
        exact hd w2 tid2 (hpres (w2, tid2) cb2 hcc)

theorem ginv_settle_only (s : PoolState) (cb : Nat) (o : Outcome) (h : GInv s)
    (hvb : cb < s.nextCb)
    (h0 : settledCount s cb = 0) (hq : cb ∉ queueCbs s) (ht : cb ∉ timerCbs s)
    (hrefs : ∀ w2 tid2, mapGet (w2, tid2) s.callbacks = some cb →
      tid2 ∉ gateKeys s ∧ tid2 ∉ queueIds s) :
    GInv (settle cb o s) := by
  have hcount : ∀ cb2, settledCount (settle cb o s) cb2 =
      settledCount s cb2 + (if cb2 = cb then 1 else 0) := fun cb2 =>
    settledCount_settle cb o s cb2
  refine ⟨h.subQ, h.subG, h.subC, h.qidN, h.qidG, h.qcbN, h.gkN, h.ckN, ?_, ?_⟩
  · intro cb2 hcb2
    rcases hcb2 with hc2 | hc2 | hc2 | hc2
    · exact h.cbB cb2 (Or.inl hc2)
    · exact h.cbB cb2 (Or.inr (Or.inl hc2))
    · exact h.cbB cb2 (Or.inr (Or.inr (Or.inl hc2)))
    · rw [show settledCbs (settle cb o s) = settledCbs s ++ [cb] from by
        rw [settledCbs, settledCbs, settle]
        simp] at hc2
      rcases List.mem_append.mp hc2 with hh | hh
      · exact h.cbB cb2 (Or.inr (Or.inr (Or.inr hh)))
      · simp at hh
        rw [hh]
        exact hvb
  · intro cb2
    by_cases hcb2 : cb2 = cb
    · subst hcb2
      right; right; right
      refine ⟨by rw [hcount]; simp [h0], hq, ht, hrefs⟩
    · rcases h.states cb2 with h1 | h2 | h5 | h3
      · left
        obtain ⟨ha, hb, hcv, htc⟩ := h1
        exact ⟨by rw [hcount]; simp [ha, hcb2], hb, hcv, htc⟩
      · right; left
        obtain ⟨ha, hb, w₀, tid₀, topt₀, hc1, hc2', hc3, hc4, hc5, hc6⟩ := h2
        exact ⟨by rw [hcount]; simp [ha, hcb2], hb, w₀, tid₀, topt₀, hc1, hc2', hc3,
          hc4, hc5, hc6⟩
      · right; right; left
        obtain ⟨ha, hb, hex, hun, he⟩ := h5
        exact ⟨by rw [hcount]; simp [ha, hcb2], hb, hex, hun, he⟩
      · right; right; right
        obtain ⟨ha, hb, hcn, hd⟩ := h3
        exact ⟨by rw [hcount]; simp [hcb2]; exact ha, hb, hcn, hd⟩

theorem mapGet_append_left {α β : Type} [DecidableEq α] {k : α} {v : β}
    {m₁ : List (α × β)} (m₂ : List (α × β)) (h : mapGet k m₁ = some v) :
    mapGet k (m₁ ++ m₂) = some v := by
  induction m₁ with
  | nil => simp [mapGet] at h
  | cons p t ih =>
    obtain ⟨k₀, v₀⟩ := p
    by_cases hk : k₀ = k
    · simp only [mapGet, if_pos hk] at h
      simp only [List.cons_append, mapGet, if_pos hk]
      exact h
    · simp only [mapGet, if_neg hk] at h
      simp only [List.cons_append, mapGet, if_neg hk]
      exact ih h

theorem mapGet_append_none {α β : Type} [DecidableEq α] {k : α}
    {m₁ : List (α × β)} (m₂ : List (α × β)) (h : mapGet k m₁ = none) :
    mapGet k (m₁ ++ m₂) = mapGet k m₂ := by
  induction m₁ with
  | nil => rfl
  | cons p t ih =>
    obtain ⟨k₀, v₀⟩ := p
    by_cases hk : k₀ = k
    · simp only [mapGet, if_pos hk] at h
      exact Option.noConfusion h
    · simp only [mapGet, if_neg hk] at h
      simp only [List.cons_append, mapGet, if_neg hk]
      exact ih h

theorem mapGet_append_cases {α β : Type} [DecidableEq α] {k : α} {v : β}
    {m₁ m₂ : List (α × β)} (h : mapGet k (m₁ ++ m₂) = some v) :
    mapGet k m₁ = some v ∨ (mapGet k m₁ = none ∧ mapGet k m₂ = some v) := by
  cases hm : mapGet k m₁ with
  | none =>
    right
    rw [mapGet_append_none m₂ hm] at h
    exact ⟨rfl, h⟩
  | some v₀ =>
    left
    rw [mapGet_append_left m₂ hm] at h
    exact h

theorem mapGet_singleton_self {α β : Type} [DecidableEq α] (k : α) (v : β) :
    mapGet k [(k, v)] = some v := by
  simp [mapGet]

theorem mapGet_singleton_cases {α β : Type} [DecidableEq α] {k k₀ : α} {v v₀ : β}
    (h : mapGet k [(k₀, v₀)] = some v) : k = k₀ ∧ v = v₀ := by
  by_cases hk : k₀ = k
  · subst hk
    simp [mapGet] at h
    exact ⟨rfl, h.symm⟩
  · simp [mapGet, hk] at h

theorem ginv_no_ref_id_queued (s : PoolState) (h : GInv s) (tid : String)
    (htid : tid ∈ queueIds s) : ∀ p ∈ s.callbacks, p.1.2 ≠ tid := by
  intro p hp hcon
  obtain ⟨⟨w₀, tid₀⟩, cbv⟩ := p
  have htid₀ : tid₀ = tid := hcon
  subst htid₀
  have hget : mapGet (w₀, tid₀) s.callbacks = some cbv :=
    mapGet_of_mem_nodup h.ckN hp
  rcases h.states cbv with h1 | h2 | h5 | h3
  · exact h1.2.2.1 (mem_vals_of_mapGet_some hget)
  · obtain ⟨_, _, w₁, tid₁, topt₁, hc1, hc2, hc3, hc4, _, _⟩ := h2
    obtain ⟨hw, ht⟩ := hc2 w₀ tid₀ hget
    subst ht
    exact hc4 htid
  · obtain ⟨_, _, _, _, he⟩ := h5
    exact (he w₀ tid₀ hget).2 htid
  · obtain ⟨_, _, _, hd⟩ := h3
    exact (hd w₀ tid₀ hget).2 htid

theorem ginv_sortState (s : PoolState) (q' : List QEntry) (h : GInv s)
    (hperm : q'.Perm s.taskQueue) : GInv { s with taskQueue := q' } := by
  have hqip : (queueIds ({ s with taskQueue := q' } : PoolState)).Perm (queueIds s) :=
    hperm.map _
  have hqcp : (queueCbs ({ s with taskQueue := q' } : PoolState)).Perm (queueCbs s) :=
    hperm.map _
  refine ⟨?_, h.subG, h.subC, hqip.nodup_iff.mpr h.qidN, ?_, hqcp.nodup_iff.mpr h.qcbN,
    h.gkN, h.ckN, ?_, ?_⟩
  · intro tid htid
    exact h.subQ tid (hqip.subset htid)
  · intro tid htid
    exact h.qidG tid (hqip.subset htid)
  · intro cb hcb
    apply h.cbB
    rcases hcb with hc | hc | hc | hc
    · exact Or.inl (hqcp.subset hc)
    · exact Or.inr (Or.inl hc)
    · exact Or.inr (Or.inr (Or.inl hc))
    · exact Or.inr (Or.inr (Or.inr hc))
  · intro cb
    rcases h.states cb with h1 | h2 | h5 | h3
    · left
      obtain ⟨ha, hb, hc, hd⟩ := h1
      exact ⟨ha, hqcp.mem_iff.mpr hb, hc, hd⟩
    · right; left
      obtain ⟨ha, hb, w₀, tid₀, topt₀, hc1, hc2, hc3, hc4, hc5, hc6⟩ := h2
      exact ⟨ha, fun hm => hb (hqcp.subset hm), w₀, tid₀, topt₀, hc1, hc2, hc3,
        fun hm => hc4 (hqip.subset hm), hc5, hc6⟩
    · right; right; left
      obtain ⟨ha, hb, hex, hun, he⟩ := h5
      refine ⟨ha, fun hm => hb (hqcp.subset hm), hex, hun, ?_⟩
      intro w2 tid2 hcc
      obtain ⟨hg2, hq2⟩ := he w2 tid2 hcc
      exact ⟨hg2, fun hm => hq2 (hqip.subset hm)⟩
    · right; right; right
      obtain ⟨ha, hb, hcn, hd⟩ := h3
      refine ⟨ha, fun hm => hb (hqcp.subset hm), hcn, ?_⟩
      intro w2 tid2 hcc
      obtain ⟨hg2, hq2⟩ := hd w2 tid2 hcc
      exact ⟨hg2, fun hm => hq2 (hqip.subset hm)⟩

/-- Enqueueing a fresh submission (the pre-dispatch part of submitTask)
preserves the global invariant, stated over any state P whose fields
match the enqueued form. -/
theorem ginv_push (t : WorkerTask) (s P : PoolState) (h : GInv s)
    (hfresh : t.id ∉ s.subIds)
    (hPq : P.taskQueue = s.taskQueue ++ [⟨t, s.nextCb⟩])
    (hPa : P.activeTasks = s.activeTasks)
    (hPc : P.callbacks = s.callbacks)
    (hPt : P.timers = s.timers)
    (hPs : P.settled = s.settled)
    (hPn : P.nextCb = s.nextCb + 1)
    (hPi : P.subIds = s.subIds ++ [t.id]) :
    GInv P := by
  have hqi : queueIds P = queueIds s ++ [t.id] := by
    rw [queueIds, queueIds, hPq]
    simp
  have hqc : queueCbs P = queueCbs s ++ [s.nextCb] := by
    rw [queueCbs, queueCbs, hPq]
    simp
  have hgk : gateKeys P = gateKeys s := by rw [gateKeys, gateKeys, hPa]
  have hck : cbKeys P = cbKeys s := by rw [cbKeys, cbKeys, hPc]
  have hcv : cbVals P = cbVals s := by rw [cbVals, cbVals, hPc]
  have htc : timerCbs P = timerCbs s := by rw [timerCbs, timerCbs, hPt]
  have hsc : settledCbs P = settledCbs s := by rw [settledCbs, settledCbs, hPs]
  have hcount : ∀ cb, settledCount P cb = settledCount s cb := by
    intro cb
    rw [settledCount, settledCount, hsc]
  have hsub : ∀ x, x ∈ s.subIds → x ∈ P.subIds := by
    intro x hx
    rw [hPi]
    exact List.mem_append.mpr (Or.inl hx)
  have hcbfresh : s.nextCb ∉ queueCbs s ∧ s.nextCb ∉ cbVals s ∧
      s.nextCb ∉ timerCbs s ∧ s.nextCb ∉ settledCbs s := by
    refine ⟨?_, ?_, ?_, ?_⟩ <;>
      · intro hmem
        have := h.cbB s.nextCb (by tauto)
        exact absurd this (lt_irrefl _)
  refine ⟨?_, ?_, ?_, ?_, ?_, ?_, ?_, ?_, ?_, ?_⟩
  · intro tid htid
    rw [hqi] at htid
    rcases List.mem_append.mp htid with hm | hm
    · exact hsub tid (h.subQ tid hm)
    · simp at hm
      rw [hPi, hm]
      simp
  · intro tid htid
    rw [hgk] at htid
    exact hsub tid (h.subG tid htid)
  · intro k hk
    rw [hck] at hk
    exact hsub k.2 (h.subC k hk)
  · rw [hqi]
    rw [List.nodup_append]
    refine ⟨h.qidN, List.nodup_singleton _, ?_⟩
    intro u hu hu'
    simp at hu'
    rw [hu'] at hu
    exact hfresh (h.subQ t.id hu)
  · intro tid htid
    rw [hqi] at htid
    rw [hgk]
    rcases List.mem_append.mp htid with hm | hm
    · exact h.qidG tid hm
    · simp at hm
      rw [hm]
      intro hcon
      exact hfresh (h.subG t.id hcon)
  · rw [hqc]
    rw [List.nodup_append]
    refine ⟨h.qcbN, List.nodup_singleton _, ?_⟩
    intro u hu hu'
    simp at hu'
    rw [hu'] at hu
    exact hcbfresh.1 hu
  · rw [hgk]
    exact h.gkN
  · rw [hck]
    exact h.ckN
  · intro cb hcb
    rw [hqc, hcv, htc, hsc] at hcb
    rw [hPn]
    rcases hcb with hc | hc | hc | hc
    · rcases List.mem_append.mp hc with hm | hm
      · exact Nat.lt_succ_of_lt (h.cbB cb (Or.inl hm))
      · simp at hm
        rw [hm]
        exact Nat.lt_succ_self _
    · exact Nat.lt_succ_of_lt (h.cbB cb (Or.inr (Or.inl hc)))
    · exact Nat.lt_succ_of_lt (h.cbB cb (Or.inr (Or.inr (Or.inl hc))))
    · exact Nat.lt_succ_of_lt (h.cbB cb (Or.inr (Or.inr (Or.inr hc))))
  · intro cb
    by_cases hnew : cb = s.nextCb
    · subst hnew
      left
      refine ⟨?_, ?_, ?_, ?_⟩
      · rw [hcount]
        exact settledCount_eq_zero_of_not_mem s _ hcbfresh.2.2.2
      · rw [hqc]
        exact List.mem_append.mpr (Or.inr (by simp))
      · rw [hcv]
        exact hcbfresh.2.1
      · rw [htc]
        exact hcbfresh.2.2.1
    · rcases h.states cb with h1 | h2 | h5 | h3
      · left
        obtain ⟨ha, hb, hc, hd⟩ := h1
        refine ⟨?_, ?_, ?_, ?_⟩
        · rw [hcount]
          exact ha
        · rw [hqc]
          exact List.mem_append.mpr (Or.inl hb)
        · rw [hcv]
          exact hc
        · rw [htc]
          exact hd
      · right; left
        obtain ⟨ha, hb, w₀, tid₀, topt₀, hc1, hc2, hc3, hc4, hc5, hc6⟩ := h2
        have htid₀ : tid₀ ∈ s.subIds :=
          h.subC (w₀, tid₀) (List.mem_map.mpr ⟨_, mapGet_mem hc1, rfl⟩)
        refine ⟨?_, ?_, w₀, tid₀, topt₀, ?_, ?_, ?_, ?_, ?_, ?_⟩
        · rw [hcount]
          exact ha
        · rw [hqc]
          intro hcon
          rcases List.mem_append.mp hcon with hm | hm
          · exact hb hm
          · simp at hm
            exact hnew hm
        · rw [hPc]
          exact hc1
        · intro w2 tid2 hcc
          rw [hPc] at hcc
          exact hc2 w2 tid2 hcc
        · rw [hPa]
          exact hc3
        · rw [hqi]
          intro hcon
          rcases List.mem_append.mp hcon with hm | hm
          · exact hc4 hm
          · simp at hm
            rw [hm] at htid₀
            exact hfresh htid₀
        · intro x hx hxx
          rw [hPt] at hx
          exact hc5 x hx hxx
        · intro x hx y hy hxx hyy
          rw [hPt] at hx hy
          exact hc6 x hx y hy hxx hyy
      · right; right; left
        obtain ⟨ha, hb, hex, hun, he⟩ := h5
        refine ⟨?_, ?_, ?_, ?_, ?_⟩
        · rw [hcount]
          exact ha
        · rw [hqc]
          intro hcon
          rcases List.mem_append.mp hcon with hm | hm
          · exact hb hm
          · simp at hm
            exact hnew hm
        · rw [hPt]
          exact hex
        · intro x hx y hy hxx hyy
          rw [hPt] at hx hy
          exact hun x hx y hy hxx hyy
        · intro w2 tid2 hcc
          rw [hPc] at hcc
          obtain ⟨hg2, hq2⟩ := he w2 tid2 hcc
          have htid₂ : tid2 ∈ s.subIds :=
            h.subC (w2, tid2) (List.mem_map.mpr ⟨_, mapGet_mem hcc, rfl⟩)
          refine ⟨?_, ?_⟩
          · rw [hgk]
            exact hg2
          · rw [hqi]
            intro hcon
            rcases List.mem_append.mp hcon with hm | hm
            · exact hq2 hm
            · simp at hm
              rw [hm] at htid₂
              exact hfresh htid₂
      · right; right; right
        obtain ⟨ha, hb, hcn, hd⟩ := h3
        refine ⟨?_, ?_, ?_, ?_⟩
        · rw [hcount]
          exact ha
        · rw [hqc]
          intro hcon
          rcases List.mem_append.mp hcon with hm | hm
          · exact hb hm
          · simp at hm
            exact hnew hm
        · rw [htc]
          exact hcn
        · intro w2 tid2 hcc
          rw [hPc] at hcc
          obtain ⟨hg2, hq2⟩ := hd w2 tid2 hcc
          have htid₂ : tid2 ∈ s.subIds :=
            h.subC (w2, tid2) (List.mem_map.mpr ⟨_, mapGet_mem hcc, rfl⟩)
          refine ⟨?_, ?_⟩
          · rw [hgk]
            exact hg2
          · rw [hqi]
            intro hcon
            rcases List.mem_append.mp hcon with hm | hm
            · exact hq2 hm
            · simp at hm
              rw [hm] at htid₂
              exact hfresh htid₂

/-- Dispatching the head of the queue to a worker preserves the global
invariant, stated over any state P whose fields match the dispatched
form (topt and tl cover both branches of the setTimeout-at-dispatch
conditional). -/
theorem ginv_dispatch_gen (w : Nat) (e : QEntry) (rest : List QEntry)
    (topt : Option Nat) (tl : List (Nat × WorkerTask × Nat)) (s P : PoolState)
    (h : GInv s) (hq : s.taskQueue = e :: rest)
    (htl : (topt = none ∧ tl = []) ∨ ∃ n, topt = some n ∧ tl = [(n, e.task, e.cb)])
    (hPq : P.taskQueue = rest)
    (hPa : P.activeTasks = mapSet e.task.id ⟨w, topt⟩ s.activeTasks)
    (hPc : P.callbacks = mapSet (w, e.task.id) e.cb s.callbacks)
    (hPt : P.timers = s.timers ++ tl)
    (hPs : P.settled = s.settled)
    (hPn : P.nextCb = s.nextCb)
    (hPi : P.subIds = s.subIds) :
    GInv P := by
  have he1 : e.cb ∈ queueCbs s := by
    rw [queueCbs, hq]
    simp
  have heid : e.task.id ∈ queueIds s := by
    rw [queueIds, hq]
    simp
  have hgkE : e.task.id ∉ gateKeys s := h.qidG _ heid
  have hgnone : mapGet e.task.id s.activeTasks = none :=
    (mapGet_eq_none_iff _ _).mpr hgkE
  have hnoref : ∀ p ∈ s.callbacks, p.1.2 ≠ e.task.id :=
    ginv_no_ref_id_queued s h e.task.id heid
  have hcknE : (w, e.task.id) ∉ cbKeys s := by
    intro hmem
    obtain ⟨p, hp, hpp⟩ := List.mem_map.mp hmem
    apply hnoref p hp
    rw [hpp]
  have hcnone : mapGet (w, e.task.id) s.callbacks = none :=
    (mapGet_eq_none_iff _ _).mpr hcknE
  have hPa2 : P.activeTasks = s.activeTasks ++ [(e.task.id, ⟨w, topt⟩)] := by
    rw [hPa, mapSet_of_mapGet_none _ hgnone]
  have hPc2 : P.callbacks = s.callbacks ++ [((w, e.task.id), e.cb)] := by
    rw [hPc, mapSet_of_mapGet_none _ hcnone]
  obtain ⟨hcnt0, hncv, hntc⟩ : settledCount s e.cb = 0 ∧ e.cb ∉ cbVals s ∧
      e.cb ∉ timerCbs s := by
    rcases h.states e.cb with h1 | h2 | h5 | h3
    · exact ⟨h1.1, h1.2.2.1, h1.2.2.2⟩
    · exact absurd he1 h2.2.1
    · exact absurd he1 h5.2.1
    · exact absurd he1 h3.2.1
  have hqiS : queueIds s = e.task.id :: queueIds P := by
    rw [queueIds, queueIds, hq, hPq]
    simp
  have hqcS : queueCbs s = e.cb :: queueCbs P := by
    rw [queueCbs, queueCbs, hq, hPq]
    simp
  have hqin := h.qidN
  rw [hqiS] at hqin
  obtain ⟨hqid_head, hqid_tail⟩ := List.nodup_cons.mp hqin
  have hqcn := h.qcbN
  rw [hqcS] at hqcn
  obtain ⟨hqcb_head, hqcb_tail⟩ := List.nodup_cons.mp hqcn
  have hqiP_sub : ∀ x, x ∈ queueIds P → x ∈ queueIds s := by
    intro x hx
    rw [hqiS]
    exact List.mem_cons_of_mem _ hx
  have hqcP_sub : ∀ x, x ∈ queueCbs P → x ∈ queueCbs s := by
    intro x hx
    rw [hqcS]
    exact List.mem_cons_of_mem _ hx
  have hgkP : gateKeys P = gateKeys s ++ [e.task.id] := by
    rw [gateKeys, hPa2]
    simp [gateKeys]
  have hckP : cbKeys P = cbKeys s ++ [(w, e.task.id)] := by
    rw [cbKeys, hPc2]
    simp [cbKeys]
  have hcvP : cbVals P = cbVals s ++ [e.cb] := by
    rw [cbVals, hPc2]
    simp [cbVals]
  have hscP : settledCbs P = settledCbs s := by
    rw [settledCbs, settledCbs, hPs]
  have hcnteq : ∀ c, settledCount P c = settledCount s c := by
    intro c
    rw [settledCount, settledCount, hscP]
  have htcP : ∀ c, c ∈ timerCbs P → c ∈ timerCbs s ∨ c = e.cb := by
    intro c hc
    rw [timerCbs, hPt, List.map_append] at hc
    rcases List.mem_append.mp hc with hm | hm
    · exact Or.inl hm
    · rcases htl with ⟨_, htl0⟩ | ⟨n, _, htl0⟩
      · rw [htl0] at hm
        simp at hm
      · rw [htl0] at hm
        simp at hm
        exact Or.inr hm
  have htlP : ∀ x ∈ P.timers, x ∈ s.timers ∨
      ∃ n, topt = some n ∧ x = (n, e.task, e.cb) := by
    intro x hx
    rw [hPt] at hx
    rcases List.mem_append.mp hx with hm | hm
    · exact Or.inl hm
    · rcases htl with ⟨_, htl0⟩ | ⟨n, hn, htl0⟩
      · rw [htl0] at hm
        simp at hm
      · rw [htl0] at hm
        simp at hm
        exact Or.inr ⟨n, hn, hm⟩
  have hold_ne : ∀ x ∈ s.timers, x.2.2 ≠ e.cb := by
    intro x hx hcon
    exact hntc (List.mem_map.mpr ⟨x, hx, hcon⟩)
  refine ⟨?_, ?_, ?_, hqid_tail, ?_, hqcb_tail, ?_, ?_, ?_, ?_⟩
  · intro tid htid
    rw [hPi]
    exact h.subQ tid (hqiP_sub tid htid)
  · intro tid htid
    rw [hPi]
    rw [hgkP] at htid
    rcases List.mem_append.mp htid with hm | hm
    · exact h.subG tid hm
    · simp at hm
      rw [hm]
      exact h.subQ _ heid
  · intro k hk
    rw [hPi]
    rw [hckP] at hk
    rcases List.mem_append.mp hk with hm | hm
    · exact h.subC k hm
    · simp at hm
      rw [hm]
      exact h.subQ _ heid
  · intro tid htid
    rw [hgkP]
    intro hcon
    rcases List.mem_append.mp hcon with hm | hm
    · exact h.qidG tid (hqiP_sub tid htid) hm
    · simp at hm
      rw [hm] at htid
      exact hqid_head htid
  · rw [hgkP, List.nodup_append]
    refine ⟨h.gkN, List.nodup_singleton _, ?_⟩
    intro u hu hu'
    simp at hu'
    rw [hu'] at hu
    exact hgkE hu
  · rw [hckP, List.nodup_append]
    refine ⟨h.ckN, List.nodup_singleton _, ?_⟩
    intro u hu hu'
    simp at hu'
    rw [hu'] at hu
    exact hcknE hu
  · intro c hc
    rw [hPn]
    rcases hc with hc | hc | hc | hc
    · exact h.cbB c (Or.inl (hqcP_sub c hc))
    · rw [hcvP] at hc
      rcases List.mem_append.mp hc with hm | hm
      · exact h.cbB c (Or.inr (Or.inl hm))
      · simp at hm
        rw [hm]
        exact h.cbB _ (Or.inl he1)
    · rcases htcP c hc with hm | hm
      · exact h.cbB c (Or.inr (Or.inr (Or.inl hm)))
      · rw [hm]
        exact h.cbB _ (Or.inl he1)
    · rw [hscP] at hc
      exact h.cbB c (Or.inr (Or.inr (Or.inr hc)))
  · intro cb2
    by_cases hcb2 : cb2 = e.cb
    · subst hcb2
      right; left
      refine ⟨?_, hqcb_head, w, e.task.id, topt, ?_, ?_, ?_, hqid_head, ?_, ?_⟩
      · rw [hcnteq]
        exact hcnt0
      · rw [hPc]
        exact mapGet_mapSet_self _ _ _
      · intro w2 tid2 hcc
        rw [hPc2] at hcc
        rcases mapGet_append_cases hcc with hm | ⟨_, hm⟩
        · exact absurd (mem_vals_of_mapGet_some hm) hncv
        · obtain ⟨hk, _⟩ := mapGet_singleton_cases hm
          exact ⟨congrArg Prod.fst hk, congrArg Prod.snd hk⟩
      · rw [hPa]
        exact mapGet_mapSet_self _ _ _
      · intro x hx hxx
        rcases htlP x hx with hm | ⟨n, hn, hm⟩
        · exact absurd hxx (hold_ne x hm)
        · rw [hm]
          exact ⟨by rw [hn], rfl⟩
      · intro x hx y hy hxx hyy
        rcases htlP x hx with hmx | ⟨n, hn, hmx⟩
        · exact absurd hxx (hold_ne x hmx)
        · rcases htlP y hy with hmy | ⟨n₂, hn₂, hmy⟩
          · exact absurd hyy (hold_ne y hmy)
          · rw [hn] at hn₂
            rw [hmx, hmy, Option.some.inj hn₂]
    · rcases h.states cb2 with h1 | h2 | h5 | h3
      · left
        obtain ⟨ha, hb, hcv, htc2⟩ := h1
        refine ⟨?_, ?_, ?_, ?_⟩
        · rw [hcnteq]
          exact ha
        · rw [hqcS] at hb
          rcases List.mem_cons.mp hb with hm | hm
          · exact absurd hm hcb2
          · exact hm
        · rw [hcvP]
          intro hcon
          rcases List.mem_append.mp hcon with hm | hm
          · exact hcv hm
          · simp at hm
            exact hcb2 hm
        · intro hcon
          rcases htcP cb2 hcon with hm | hm
          · exact htc2 hm
          · exact hcb2 hm
      · right; left
        obtain ⟨ha, hb, w₀, tid₀, topt₀, hc1, hc2, hc3, hc4, hc5, hc6⟩ := h2
        have htid₀ne : tid₀ ≠ e.task.id := by
          intro hcon
          rw [hcon] at hc3
          exact hgkE (mem_keys_of_mapGet_some hc3)
        refine ⟨?_, ?_, w₀, tid₀, topt₀, ?_, ?_, ?_, ?_, ?_, ?_⟩
        · rw [hcnteq]
          exact ha
        · intro hcon
          exact hb (hqcP_sub cb2 hcon)
        · rw [hPc2]
          exact mapGet_append_left _ hc1
        · intro w2 tid2 hcc
          rw [hPc2] at hcc
          rcases mapGet_append_cases hcc with hm | ⟨_, hm⟩
          · exact hc2 w2 tid2 hm
          · obtain ⟨_, hv⟩ := mapGet_singleton_cases hm
            exact absurd hv hcb2
        · rw [hPa]
          rw [mapGet_mapSet_ne _ _ htid₀ne]
          exact hc3
        · intro hcon
          exact hc4 (hqiP_sub tid₀ hcon)
        · intro x hx hxx
          rcases htlP x hx with hm | ⟨n, hn, hm⟩
          · exact hc5 x hm hxx
          · rw [hm] at hxx
            exact absurd hxx.symm hcb2
        · intro x hx y hy hxx hyy
          rcases htlP x hx with hmx | ⟨n, hn, hmx⟩
          · rcases htlP y hy with hmy | ⟨n₂, hn₂, hmy⟩
            · exact hc6 x hmx y hmy hxx hyy
            · rw [hmy] at hyy
              exact absurd hyy.symm hcb2
          · rw [hmx] at hxx
            exact absurd hxx.symm hcb2
      · right; right; left
        obtain ⟨ha, hb, hex, hun, he⟩ := h5
        refine ⟨?_, ?_, ?_, ?_, ?_⟩
        · rw [hcnteq]
          exact ha
        · intro hcon
          exact hb (hqcP_sub cb2 hcon)
        · obtain ⟨x, hx, hxx⟩ := hex
          refine ⟨x, ?_, hxx⟩
          rw [hPt]
          exact List.mem_append.mpr (Or.inl hx)
        · intro x hx y hy hxx hyy
          rcases htlP x hx with hmx | ⟨n, hn, hmx⟩
          · rcases htlP y hy with hmy | ⟨n₂, hn₂, hmy⟩
            · exact hun x hmx y hmy hxx hyy
            · rw [hmy] at hyy
              exact absurd hyy.symm hcb2
          · rw [hmx] at hxx
            exact absurd hxx.symm hcb2
        · intro w2 tid2 hcc
          rw [hPc2] at hcc
          rcases mapGet_append_cases hcc with hm | ⟨_, hm⟩
          · obtain ⟨hg2, hq2⟩ := he w2 tid2 hm
            have htid2ne : tid2 ≠ e.task.id := by
              intro hcon
              rw [hcon] at hq2
              exact hq2 heid
            refine ⟨?_, ?_⟩
            · rw [hgkP]
              intro hcon
              rcases List.mem_append.mp hcon with hm2 | hm2
              · exact hg2 hm2
              · simp at hm2
                exact htid2ne hm2
            · intro hcon
              exact hq2 (hqiP_sub tid2 hcon)
          · obtain ⟨_, hv⟩ := mapGet_singleton_cases hm
            exact absurd hv hcb2
      · right; right; right
        obtain ⟨ha, hb, hcn, hd⟩ := h3
        refine ⟨?_, ?_, ?_, ?_⟩
        · rw [hcnteq]
          exact ha
        · intro hcon
          exact hb (hqcP_sub cb2 hcon)
        · intro hcon
          rcases htcP cb2 hcon with hm | hm
          · exact hcn hm
          · exact hcb2 hm
        · intro w2 tid2 hcc
          rw [hPc2] at hcc
          rcases mapGet_append_cases hcc with hm | ⟨_, hm⟩
          · obtain ⟨hg2, hq2⟩ := hd w2 tid2 hm
            have htid2ne : tid2 ≠ e.task.id := by
              intro hcon
              rw [hcon] at hq2
              exact hq2 heid
            refine ⟨?_, ?_⟩
            · rw [hgkP]
              intro hcon
              rcases List.mem_append.mp hcon with hm2 | hm2
              · exact hg2 hm2
              · simp at hm2
                exact htid2ne hm2
            · intro hcon
              exact hq2 (hqiP_sub tid2 hcon)
          · obtain ⟨_, hv⟩ := mapGet_singleton_cases hm
            exact absurd hv hcb2

/-- dispatchOne on the popped head of the queue preserves the global
invariant. -/
theorem ginv_dispatchOne (w : Nat) (e : QEntry) (rest : List QEntry) (s : PoolState)
    (h : GInv s) (hq : s.taskQueue = e :: rest) :
    GInv (dispatchOne w e { s with taskQueue := rest }) := by
  by_cases hto : e.task.timeout.getD 0 = 0
  · refine ginv_dispatch_gen w e rest none [] s _ h hq (Or.inl ⟨rfl, rfl⟩)
      ?_ ?_ ?_ ?_ ?_ ?_ ?_ <;> simp [dispatchOne, hto]
  · refine ginv_dispatch_gen w e rest (some s.nextTimer) [(s.nextTimer, e.task, e.cb)] s _
      h hq (Or.inr ⟨s.nextTimer, rfl, rfl⟩) ?_ ?_ ?_ ?_ ?_ ?_ ?_ <;>
      simp [dispatchOne, hto]

/-- The dispatch loop preserves the global invariant. -/
theorem ginv_assignLoop (ws : List Nat) (s : PoolState) (h : GInv s) :
    GInv (assignLoop ws s) := by
  induction ws generalizing s with
  | nil => exact h
  | cons w ws ih =>
    cases hq : s.taskQueue with
    | nil =>
      simp only [assignLoop, hq]
      exact h
    | cons e rest =>
      simp only [assignLoop, hq]
      exact ih _ (ginv_dispatchOne w e rest s h hq)

/-- processQueue preserves the global invariant. -/
theorem ginv_processQueue (s : PoolState) (h : GInv s) : GInv (processQueue s) := by
  rw [processQueue]
  by_cases he : s.taskQueue.isEmpty
  · rw [if_pos he]
    exact h
  · rw [if_neg he]
    exact ginv_assignLoop _ _ (ginv_sortState s (sortQueue s.taskQueue) h (sortQueue_perm _))

/-- submitTask with a never-before-submitted id preserves the global
invariant. -/
theorem ginv_submitTask (t : WorkerTask) (s : PoolState) (h : GInv s)
    (hfresh : t.id ∉ s.subIds) : GInv (submitTask t s) := by
  rw [submitTask]
  exact ginv_processQueue _ (ginv_push t s _ h hfresh rfl rfl rfl rfl rfl rfl rfl)

/-- removeWorker preserves the global invariant (it only touches the
worker list, which the invariant does not mention). -/
theorem ginv_removeWorker (w : Nat) (s : PoolState) (h : GInv s) :
    GInv (removeWorker w s) :=
  ⟨h.subQ, h.subG, h.subC, h.qidN, h.qidG, h.qcbN, h.gkN, h.ckN, h.cbB, h.states⟩

/-- addWorker preserves the global invariant. -/
theorem ginv_addWorker (s : PoolState) (h : GInv s) : GInv (addWorker s) :=
  ⟨h.subQ, h.subG, h.subC, h.qidN, h.qidG, h.qcbN, h.gkN, h.ckN, h.cbB, h.states⟩

theorem cancelTask_activeTasks_sublist (tid : String) (s : PoolState) :
    (cancelTask tid s).2.activeTasks.Sublist s.activeTasks := by
  cases hg : mapGet tid s.activeTasks with
  | none =>
    simp only [cancelTask, hg]
    exact List.Sublist.refl _
  | some info =>
    simp only [cancelTask, hg, clearTimeoutOpt_activeTasks]
    exact mapDel_sublist _ _

/-- cancelTask preserves the global invariant: the advisory path only
clears the timer and the activeTasks entry of the cancelled task, whose
unique stash reference is thereby orphaned. -/
theorem ginv_cancelTask (tid : String) (s : PoolState) (h : GInv s) :
    GInv (cancelTask tid s).2 := by
  cases hg : mapGet tid s.activeTasks with
  | none =>
    simp only [cancelTask, hg]
    exact h
  | some info =>
    simp only [cancelTask, hg]
    have h₁ : GInv (clearTimeoutOpt info.timeout s) := by
      cases hto : info.timeout with
      | none => exact h
      | some tmr => exact ginv_timers_filter s _ h
    have hg₁ : mapGet tid (clearTimeoutOpt info.timeout s).activeTasks = some info := by
      rw [clearTimeoutOpt_activeTasks]
      exact hg
    have hot : ∀ cbv,
        mapGet (info.worker, tid) (clearTimeoutOpt info.timeout s).callbacks = some cbv →
        cbv ∉ timerCbs (clearTimeoutOpt info.timeout s) := by
      intro cbv hcv hmem
      rw [clearTimeoutOpt_callbacks] at hcv
      obtain ⟨-, -, -, -, hlink, -⟩ := ginv_owner s tid info info.worker cbv h hg hcv
      obtain ⟨x, hx, hxx⟩ := List.mem_map.mp hmem
      have hxs : x ∈ s.timers := (clearTimeoutOpt_timers_sublist info.timeout s).subset hx
      obtain ⟨hsome, -⟩ := hlink x hxs hxx
      cases hto : info.timeout with
      | none =>
        rw [hto] at hsome
        exact Option.noConfusion hsome
      | some tmr =>
        rw [hto] at hsome
        have hx1 : x.1 = tmr := (Option.some.inj hsome).symm
        rw [hto] at hx
        have hflt := List.of_mem_filter hx
        rw [hx1] at hflt
        simp at hflt
    have h₂ := ginv_gate_del (clearTimeoutOpt info.timeout s) tid info h₁ hg₁ hot
    exact ⟨h₂.subQ, h₂.subG, h₂.subC, h₂.qidN, h₂.qidG, h₂.qcbN, h₂.gkN, h₂.ckN,
      h₂.cbB, h₂.states⟩

/-- A firing timeout preserves the global invariant: the fired timer is
the unique timer of its submission, the advisory cancel clears the gate
entry, and the timeout rejection is that submission's first settlement. -/
theorem ginv_timerFire (tn : Nat) (s : PoolState) (h : GInv s) : GInv (timerFire tn s) := by
  cases hf : s.timers.find? (fun x => x.1 == tn) with
  | none =>
    simp only [timerFire, hf]
    exact h
  | some x =>
    obtain ⟨t₀, t, cb⟩ := x
    simp only [timerFire, hf]
    have hxmem : (t₀, t, cb) ∈ s.timers := List.mem_of_find?_eq_some hf
    have hcbt : cb ∈ timerCbs s := List.mem_map.mpr ⟨(t₀, t, cb), hxmem, rfl⟩
    have ht₀ : t₀ = tn := by simpa using List.find?_some hf
    have h₀ : GInv ({ s with timers := s.timers.filter (fun x => x.1 != tn) } : PoolState) :=
      ginv_timers_filter s _ h
    have h₁ : GInv (cancelTask t.id
        ({ s with timers := s.timers.filter (fun x => x.1 != tn) } : PoolState)).2 :=
      ginv_cancelTask t.id _ h₀
    have hsceq : settledCount (cancelTask t.id
        ({ s with timers := s.timers.filter (fun x => x.1 != tn) } : PoolState)).2 cb =
        settledCount s cb := by
      rw [settledCount, settledCount, settledCbs, settledCbs, cancelTask_settled]
    have hqceq : queueCbs (cancelTask t.id
        ({ s with timers := s.timers.filter (fun x => x.1 != tn) } : PoolState)).2 =
        queueCbs s := by
      rw [queueCbs, queueCbs, cancelTask_taskQueue]
    have hqieq : queueIds (cancelTask t.id
        ({ s with timers := s.timers.filter (fun x => x.1 != tn) } : PoolState)).2 =
        queueIds s := by
      rw [queueIds, queueIds, cancelTask_taskQueue]
    have hcbeq : (cancelTask t.id
        ({ s with timers := s.timers.filter (fun x => x.1 != tn) } : PoolState)).2.callbacks =
        s.callbacks := by
      rw [cancelTask_callbacks]
    have hncb : cb < (cancelTask t.id
        ({ s with timers := s.timers.filter (fun x => x.1 != tn) } : PoolState)).2.nextCb := by
      rw [cancelTask_nextCb]
      exact h.cbB cb (Or.inr (Or.inr (Or.inl hcbt)))
    rcases h.states cb with h1 | h2 | h5 | h3
    · exact absurd hcbt h1.2.2.2
    · obtain ⟨ha, hb, w₀, tid₀, topt₀, hc1, hc2, hc3, hc4, hc5, hc6⟩ := h2
      obtain ⟨-, htid⟩ := hc5 (t₀, t, cb) hxmem rfl
      have hnt : cb ∉ timerCbs (cancelTask t.id
          ({ s with timers := s.timers.filter (fun x => x.1 != tn) } : PoolState)).2 := by
        intro hmem
        obtain ⟨y, hy, hyy⟩ := List.mem_map.mp hmem
        have hy₀ : y ∈ s.timers.filter (fun x => x.1 != tn) :=
          (cancelTask_timers_sublist t.id _).subset hy
        have hys : y ∈ s.timers := List.mem_of_mem_filter hy₀
        have hflt := List.of_mem_filter hy₀
        have hyeq := hc6 y hys (t₀, t, cb) hxmem hyy rfl
        rw [hyeq, ht₀] at hflt
        simp at hflt
      refine ginv_settle_only _ cb _ h₁ hncb ?_ ?_ hnt ?_
      · rw [hsceq]
        exact ha
      · rw [hqceq]
        exact hb
      · intro w2 tid2 hcc
        rw [hcbeq] at hcc
        obtain ⟨hw2, htid2⟩ := hc2 w2 tid2 hcc
        have hgnone : mapGet t.id (cancelTask t.id
            ({ s with timers := s.timers.filter (fun x => x.1 != tn) } : PoolState)).2.activeTasks =
              none :=
          cancelTask_activeTasks_none t.id _ h₀.gkN
        have ht2 : tid2 = t.id := by rw [htid2, ← htid]
        refine ⟨?_, ?_⟩
        · rw [ht2]
          exact (mapGet_eq_none_iff _ _).mp hgnone
        · rw [hqieq, ht2, htid]
          exact hc4
    · obtain ⟨ha, hb, hex, hun, he⟩ := h5
      have hnt : cb ∉ timerCbs (cancelTask t.id
          ({ s with timers := s.timers.filter (fun x => x.1 != tn) } : PoolState)).2 := by
        intro hmem
        obtain ⟨y, hy, hyy⟩ := List.mem_map.mp hmem
        have hy₀ : y ∈ s.timers.filter (fun x => x.1 != tn) :=
          (cancelTask_timers_sublist t.id _).subset hy
        have hys : y ∈ s.timers := List.mem_of_mem_filter hy₀
        have hflt := List.of_mem_filter hy₀
        have hyeq := hun y hys (t₀, t, cb) hxmem hyy rfl
        rw [hyeq, ht₀] at hflt
        simp at hflt
      refine ginv_settle_only _ cb _ h₁ hncb ?_ ?_ hnt ?_
      · rw [hsceq]
        exact ha
      · rw [hqceq]
        exact hb
      · intro w2 tid2 hcc
        rw [hcbeq] at hcc
        obtain ⟨hg2, hq2⟩ := he w2 tid2 hcc
        refine ⟨?_, ?_⟩
        · intro hcon
          apply hg2
          exact ((cancelTask_activeTasks_sublist t.id
            ({ s with timers := s.timers.filter (fun x => x.1 != tn) } : PoolState)).map
              Prod.fst).subset hcon
        · rw [hqieq]
          exact hq2
    · exact absurd hcbt h3.2.2.1

/-- handleWorkerMessage preserves the global invariant: a recognised
result clears the timer, deletes the gate entry and settles the unique
stashed callback exactly once; an unknown result changes nothing. -/
theorem ginv_handleWorkerMessage (w : Nat) (r : WorkerTaskResult) (s : PoolState)
    (h : GInv s) : GInv (handleWorkerMessage w r s) := by
  cases hg : mapGet r.taskId s.activeTasks with
  | none =>
    simp only [handleWorkerMessage, hg]
    exact h
  | some info =>
    simp only [handleWorkerMessage, hg]
    have h₁ : GInv (clearTimeoutOpt info.timeout s) := by
      cases hto : info.timeout with
      | none => exact h
      | some tmr => exact ginv_timers_filter s _ h
    have hg₁ : mapGet r.taskId (clearTimeoutOpt info.timeout s).activeTasks = some info := by
      rw [clearTimeoutOpt_activeTasks]
      exact hg
    have hot : ∀ cbv,
        mapGet (info.worker, r.taskId) (clearTimeoutOpt info.timeout s).callbacks = some cbv →
        cbv ∉ timerCbs (clearTimeoutOpt info.timeout s) := by
      intro cbv hcv hmem
      rw [clearTimeoutOpt_callbacks] at hcv
      obtain ⟨-, -, -, -, hlink, -⟩ := ginv_owner s r.taskId info info.worker cbv h hg hcv
      obtain ⟨x, hx, hxx⟩ := List.mem_map.mp hmem
      have hxs : x ∈ s.timers := (clearTimeoutOpt_timers_sublist info.timeout s).subset hx
      obtain ⟨hsome, -⟩ := hlink x hxs hxx
      cases hto : info.timeout with
      | none =>
        rw [hto] at hsome
        exact Option.noConfusion hsome
      | some tmr =>
        rw [hto] at hsome
        have hx1 : x.1 = tmr := (Option.some.inj hsome).symm
        rw [hto] at hx
        have hflt := List.of_mem_filter hx
        rw [hx1] at hflt
        simp at hflt
    have h₂ := ginv_gate_del (clearTimeoutOpt info.timeout s) r.taskId info h₁ hg₁ hot
    cases hc : mapGet (w, r.taskId) (clearTimeoutOpt info.timeout s).callbacks with
    | none =>
      simp only [hc]
      exact ginv_processQueue _ h₂
    | some cb =>
      simp only [hc]
      have hcs : mapGet (w, r.taskId) s.callbacks = some cb := by
        have hx : mapGet (w, r.taskId) (clearTimeoutOpt info.timeout s).callbacks = some cb := hc
        rw [clearTimeoutOpt_callbacks] at hx
        exact hx
      obtain ⟨hw, hcnt0, hqs, hrefU, hlink, hqid⟩ := ginv_owner s r.taskId info w cb h hg hcs
      have h0 : settledCount (clearTimeoutOpt info.timeout s) cb = 0 := by
        rw [settledCount, settledCbs, clearTimeoutOpt_settled]
        exact hcnt0
      have hq2 : cb ∉ queueCbs (clearTimeoutOpt info.timeout s) := by
        rw [queueCbs, clearTimeoutOpt_taskQueue]
        exact hqs
      have ht2 : cb ∉ timerCbs (clearTimeoutOpt info.timeout s) := by
        apply hot
        rw [← hw]
        exact hc
      have hrefs : ∀ w2 tid2,
          mapGet (w2, tid2) (clearTimeoutOpt info.timeout s).callbacks = some cb →
          tid2 ∉ (mapDel r.taskId (clearTimeoutOpt info.timeout s).activeTasks).map Prod.fst ∧
          tid2 ∉ queueIds (clearTimeoutOpt info.timeout s) := by
        intro w2 tid2 hcc
        have hcc1 := hcc
        rw [clearTimeoutOpt_callbacks] at hcc1
        obtain ⟨hw2, htid2⟩ := hrefU w2 tid2 hcc1
        subst htid2
        constructor
        · have hnone : mapGet r.taskId
              (mapDel r.taskId (clearTimeoutOpt info.timeout s).activeTasks) = none :=
            mapGet_mapDel_self _ h₁.gkN
          exact (mapGet_eq_none_iff _ _).mp hnone
        · rw [queueIds, clearTimeoutOpt_taskQueue]
          exact hqid
      exact ginv_processQueue _
        (ginv_settle_delref _ w r.taskId cb (settleOutcome r) h₂ hc h0 hq2 ht2 hrefs)

/-- The handleWorkerError iteration preserves the global invariant,
for any snapshot whose entries are current and have distinct keys. -/
theorem ginv_errLoop (w : Nat) (err : String) (L : List (String × ActiveInfo))
    (s : PoolState) (h : GInv s)
    (hL : ∀ p ∈ L, mapGet p.1 s.activeTasks = some p.2)
    (hnd : (L.map Prod.fst).Nodup) : GInv (errLoop w err L s) := by
  induction L generalizing s with
  | nil => exact h
  | cons p rest ih =>
    obtain ⟨tid, info⟩ := p
    have hg : mapGet tid s.activeTasks = some info := hL (tid, info) (List.mem_cons_self _ _)
    have hndr : (rest.map Prod.fst).Nodup := (List.nodup_cons.mp hnd).2
    have hhead : tid ∉ rest.map Prod.fst := (List.nodup_cons.mp hnd).1
    by_cases hw : info.worker = w
    · simp only [errLoop, if_pos hw]
      cases hc : mapGet (w, tid) s.callbacks with
      | none =>
        simp only [hc]
        have h₁ : GInv (clearTimeoutOpt info.timeout s) := by
          cases hto : info.timeout with
          | none => exact h
          | some tmr => exact ginv_timers_filter s _ h
        have hg₁ : mapGet tid (clearTimeoutOpt info.timeout s).activeTasks = some info := by
          rw [clearTimeoutOpt_activeTasks]
          exact hg
        have hot : ∀ cbv,
            mapGet (info.worker, tid) (clearTimeoutOpt info.timeout s).callbacks = some cbv →
            cbv ∉ timerCbs (clearTimeoutOpt info.timeout s) := by
          intro cbv hcv
          rw [clearTimeoutOpt_callbacks, hw, hc] at hcv
          exact Option.noConfusion hcv
        have h₂ := ginv_gate_del (clearTimeoutOpt info.timeout s) tid info h₁ hg₁ hot
        apply ih
        · exact h₂
        · intro p hp
          have hne : p.1 ≠ tid := by
            intro hcon
            exact hhead (hcon ▸ List.mem_map.mpr ⟨p, hp, rfl⟩)
          show mapGet p.1 (mapDel tid (clearTimeoutOpt info.timeout s).activeTasks) = some p.2
          rw [mapGet_mapDel_ne _ hne, clearTimeoutOpt_activeTasks]
          exact hL p (List.mem_cons_of_mem _ hp)
        · exact hndr
      | some cb =>
        simp only [hc]
        obtain ⟨hw', hcnt0, hqs, hrefU, hlink, hqid⟩ := ginv_owner s tid info w cb h hg hc
        have hrefs : ∀ w2 tid2, mapGet (w2, tid2) s.callbacks = some cb →
            tid2 ∉ (mapDel tid s.activeTasks).map Prod.fst ∧ tid2 ∉ queueIds s := by
          intro w2 tid2 hcc
          obtain ⟨hw2, htid2⟩ := hrefU w2 tid2 hcc
          subst htid2
          exact ⟨(mapGet_eq_none_iff _ _).mp (mapGet_mapDel_self _ h.gkN), hqid⟩
        have hLrest : ∀ p ∈ rest, mapGet p.1 (mapDel tid s.activeTasks) = some p.2 := by
          intro p hp
          have hne : p.1 ≠ tid := by
            intro hcon
            exact hhead (hcon ▸ List.mem_map.mpr ⟨p, hp, rfl⟩)
          rw [mapGet_mapDel_ne _ hne]
          exact hL p (List.mem_cons_of_mem _ hp)
        cases hto : info.timeout with
        | none =>
          have hnt : cb ∉ timerCbs s := by
            intro hmem
            obtain ⟨x, hx, hxx⟩ := List.mem_map.mp hmem
            obtain ⟨hsome, -⟩ := hlink x hx hxx
            rw [hto] at hsome
            exact Option.noConfusion hsome
          have hot : ∀ cbv, mapGet (info.worker, tid) s.callbacks = some cbv →
              cbv ∉ timerCbs s := by
            intro cbv hcv
            rw [hw, hc] at hcv
            rw [← Option.some.inj hcv]
            exact hnt
          have h₂ := ginv_gate_del s tid info h hg hot
          have h₃ := ginv_settle_delref
            ({ s with activeTasks := mapDel tid s.activeTasks } : PoolState)
            w tid cb (Outcome.rejected err) h₂ hc hcnt0 hqs hnt hrefs
          apply ih
          · exact h₃
          · intro p hp
            show mapGet p.1 (mapDel tid s.activeTasks) = some p.2
            exact hLrest p hp
          · exact hndr
        | some tmr =>
          have hnt : cb ∉ timerCbs
              ({ s with timers := s.timers.filter (fun y => y.1 != tmr) } : PoolState) := by
            intro hmem
            obtain ⟨x, hx, hxx⟩ := List.mem_map.mp hmem
            have hxs : x ∈ s.timers := List.mem_of_mem_filter hx
            obtain ⟨hsome, -⟩ := hlink x hxs hxx
            rw [hto] at hsome
            have hx1 : x.1 = tmr := (Option.some.inj hsome).symm
            have hflt := List.of_mem_filter hx
            rw [hx1] at hflt
            simp at hflt
          have h₁ : GInv
              ({ s with timers := s.timers.filter (fun y => y.1 != tmr) } : PoolState) :=
            ginv_timers_filter s _ h
          have hot : ∀ cbv, mapGet (info.worker, tid)
              ({ s with timers := s.timers.filter (fun y => y.1 != tmr) } :
                PoolState).callbacks = some cbv →
              cbv ∉ timerCbs
                ({ s with timers := s.timers.filter (fun y => y.1 != tmr) } : PoolState) := by
            intro cbv hcv
            have hcv2 : mapGet (w, tid) s.callbacks = some cbv := by
              rw [← hw]
              exact hcv
            rw [hc] at hcv2
            rw [← Option.some.inj hcv2]
            exact hnt
          have hg₁ : mapGet tid
              ({ s with timers := s.timers.filter (fun y => y.1 != tmr) } :
                PoolState).activeTasks = some info := hg
          have h₂ := ginv_gate_del
            ({ s with timers := s.timers.filter (fun y => y.1 != tmr) } : PoolState)
            tid info h₁ hg₁ hot
          have h₃ := ginv_settle_delref ({ s with timers := s.timers.filter (fun y => y.1 != tmr), activeTasks := mapDel tid s.activeTasks } : PoolState) w tid cb (Outcome.rejected err) h₂ hc hcnt0 hqs hnt hrefs
          apply ih
          · exact h₃
          · intro p hp
            show mapGet p.1 (mapDel tid s.activeTasks) = some p.2
            exact hLrest p hp
          · exact hndr
    · simp only [errLoop, if_neg hw]
      exact ih s h (fun p hp => hL p (List.mem_cons_of_mem _ hp)) hndr

/-- handleWorkerError preserves the global invariant. -/
theorem ginv_handleWorkerError (w : Nat) (err : String) (s : PoolState) (h : GInv s) :
    GInv (handleWorkerError w err s) := by
  rw [handleWorkerError]
  refine ginv_errLoop w err s.activeTasks s h ?_ h.gkN
  intro p hp
  obtain ⟨tid, info⟩ := p
  exact mapGet_of_mem_nodup h.gkN hp

/-- shutdown preserves the global invariant: every queued submission is
settled exactly once (queue callback ids are distinct), the queue and
the gate are emptied, and armed timers survive with their submissions
in the timer-only stage. -/
theorem ginv_shutdown_gen (s P : PoolState) (h : GInv s)
    (hPq : P.taskQueue = [])
    (hPa : P.activeTasks = [])
    (hPc : P.callbacks = s.callbacks)
    (hPt : P.timers = s.timers)
    (hPs : P.settled = s.settled ++
      s.taskQueue.map (fun e => (e.cb, Outcome.rejected "Worker pool is shutting down")))
    (hPn : P.nextCb = s.nextCb)
    (hPi : P.subIds = s.subIds) : GInv P := by
  have hqi : queueIds P = [] := by
    rw [queueIds, hPq]
    rfl
  have hqc : queueCbs P = [] := by
    rw [queueCbs, hPq]
    rfl
  have hgk : gateKeys P = [] := by
    rw [gateKeys, hPa]
    rfl
  have hck : cbKeys P = cbKeys s := by rw [cbKeys, cbKeys, hPc]
  have hcv : cbVals P = cbVals s := by rw [cbVals, cbVals, hPc]
  have htc : timerCbs P = timerCbs s := by rw [timerCbs, timerCbs, hPt]
  have hcnt : ∀ cb, settledCount P cb = settledCount s cb + (queueCbs s).count cb := by
    intro cb
    rw [settledCount, settledCbs, hPs, List.map_append, List.map_map, List.count_append]
    rfl
  refine ⟨?_, ?_, ?_, ?_, ?_, ?_, ?_, ?_, ?_, ?_⟩
  · intro tid htid
    rw [hqi] at htid
    exact absurd htid (List.not_mem_nil _)
  · intro tid htid
    rw [hgk] at htid
    exact absurd htid (List.not_mem_nil _)
  · intro k hk
    rw [hck] at hk
    rw [hPi]
    exact h.subC k hk
  · rw [hqi]
    exact List.nodup_nil
  · intro tid htid
    rw [hqi] at htid
    exact absurd htid (List.not_mem_nil _)
  · rw [hqc]
    exact List.nodup_nil
  · rw [hgk]
    exact List.nodup_nil
  · rw [hck]
    exact h.ckN
  · intro cb hcb
    rw [hPn]
    rcases hcb with hc | hc | hc | hc
    · rw [hqc] at hc
      exact absurd hc (List.not_mem_nil _)
    · rw [hcv] at hc
      exact h.cbB cb (Or.inr (Or.inl hc))
    · rw [htc] at hc
      exact h.cbB cb (Or.inr (Or.inr (Or.inl hc)))
    · have hc2 : cb ∈ settledCbs P := hc
      rw [settledCbs, hPs, List.map_append] at hc2
      rcases List.mem_append.mp hc2 with hm | hm
      · exact h.cbB cb (Or.inr (Or.inr (Or.inr hm)))
      · rw [List.map_map] at hm
        have hm2 : cb ∈ queueCbs s := hm
        exact h.cbB cb (Or.inl hm2)
  · intro cb
    have hqle : (queueCbs s).count cb ≤ 1 := List.nodup_iff_count_le_one.mp h.qcbN cb
    rcases h.states cb with h1 | h2 | h5 | h3
    · right; right; right
      obtain ⟨ha, hb, hcvm, htcm⟩ := h1
      refine ⟨?_, ?_, ?_, ?_⟩
      · rw [hcnt, ha]
        omega
      · rw [hqc]
        exact List.not_mem_nil _
      · rw [htc]
        exact htcm
      · intro w2 tid2 hcc
        rw [hPc] at hcc
        exact absurd (mem_vals_of_mapGet_some hcc) hcvm
    · obtain ⟨ha, hb, w₀, tid₀, topt₀, hc1, hc2, hc3, hc4, hc5, hc6⟩ := h2
      have hq0 : (queueCbs s).count cb = 0 := List.count_eq_zero.mpr hb
      by_cases hex : ∃ x ∈ s.timers, x.2.2 = cb
      · right; right; left
        refine ⟨?_, ?_, ?_, ?_, ?_⟩
        · rw [hcnt, ha, hq0]
        · rw [hqc]
          exact List.not_mem_nil _
        · obtain ⟨x, hx, hxx⟩ := hex
          refine ⟨x, ?_, hxx⟩
          rw [hPt]
          exact hx
        · intro x hx y hy hxx hyy
          rw [hPt] at hx hy
          exact hc6 x hx y hy hxx hyy
        · intro w2 tid2 hcc
          refine ⟨?_, ?_⟩
          · rw [hgk]
            exact List.not_mem_nil _
          · rw [hqi]
            exact List.not_mem_nil _
      · right; right; right
        refine ⟨?_, ?_, ?_, ?_⟩
        · rw [hcnt, ha, hq0]
          omega
        · rw [hqc]
          exact List.not_mem_nil _
        · rw [htc]
          intro hmem
          obtain ⟨x, hx, hxx⟩ := List.mem_map.mp hmem
          exact hex ⟨x, hx, hxx⟩
        · intro w2 tid2 hcc
          refine ⟨?_, ?_⟩
          · rw [hgk]
            exact List.not_mem_nil _
          · rw [hqi]
            exact List.not_mem_nil _
    · right; right; left
      obtain ⟨ha, hb, hex, hun, he⟩ := h5
      have hq0 : (queueCbs s).count cb = 0 := List.count_eq_zero.mpr hb
      refine ⟨?_, ?_, ?_, ?_, ?_⟩
      · rw [hcnt, ha, hq0]
      · rw [hqc]
        exact List.not_mem_nil _
      · obtain ⟨x, hx, hxx⟩ := hex
        refine ⟨x, ?_, hxx⟩
        rw [hPt]
        exact hx
      · intro x hx y hy hxx hyy
        rw [hPt] at hx hy
        exact hun x hx y hy hxx hyy
      · intro w2 tid2 hcc
        refine ⟨?_, ?_⟩
        · rw [hgk]
          exact List.not_mem_nil _
        · rw [hqi]
          exact List.not_mem_nil _
    · right; right; right
      obtain ⟨ha, hb, hcn, hd⟩ := h3
      have hq0 : (queueCbs s).count cb = 0 := List.count_eq_zero.mpr hb
      refine ⟨?_, ?_, ?_, ?_⟩
      · rw [hcnt, hq0]
        omega
      · rw [hqc]
        exact List.not_mem_nil _
      · rw [htc]
        exact hcn
      · intro w2 tid2 hcc
        refine ⟨?_, ?_⟩
        · rw [hgk]
          exact List.not_mem_nil _
        · rw [hqi]
          exact List.not_mem_nil _

/-- shutdown preserves the global invariant. -/
theorem ginv_shutdown (s : PoolState) (h : GInv s) : GInv (shutdown s) :=
  ginv_shutdown_gen s (shutdown s) h (by rw [shutdown_eq]) (by rw [shutdown_eq])
    (by rw [shutdown_eq]) (by rw [shutdown_eq]) (by rw [shutdown_eq])
    (by rw [shutdown_eq]) (by rw [shutdown_eq])

/-- The freshly constructed pool satisfies the global invariant. -/
theorem ginv_initState (m : Nat) : GInv (initState m) := by
  refine ⟨?_, ?_, ?_, ?_, ?_, ?_, ?_, ?_, ?_, ?_⟩
  · intro tid htid
    exact absurd htid (List.not_mem_nil _)
  · intro tid htid
    exact absurd htid (List.not_mem_nil _)
  · intro k hk
    exact absurd hk (List.not_mem_nil _)
  · exact List.nodup_nil
  · intro tid htid
    exact absurd htid (List.not_mem_nil _)
  · exact List.nodup_nil
  · exact List.nodup_nil
  · exact List.nodup_nil
  · intro cb hcb
    rcases hcb with hc | hc | hc | hc
    · exact absurd hc (List.not_mem_nil _)
    · exact absurd hc (List.not_mem_nil _)
    · exact absurd hc (List.not_mem_nil _)
    · exact absurd hc (List.not_mem_nil _)
  · intro cb
    right; right; right
    refine ⟨Nat.zero_le _, List.not_mem_nil _, List.not_mem_nil _, ?_⟩
    intro w2 tid2 hcc
    exact Option.noConfusion hcc

/-- One event preserves the global invariant under the distinct-ids
discipline. -/
theorem ginv_applyEvent (e : Event) (s : PoolState) (h : GInv s) (hok : StepOK e s) :
    GInv (applyEvent e s) := by
  cases e with
  | submit t => exact ginv_submitTask t s h hok
  | message w r => exact ginv_handleWorkerMessage w r s h
  | workerError w err => exact ginv_handleWorkerError w err s h
  | exited w => exact ginv_removeWorker w s h
  | cancel tid => exact ginv_cancelTask tid s h
  | fire tn => exact ginv_timerFire tn s h
  | addW => exact ginv_addWorker s h
  | shutdownEvent => exact ginv_shutdown s h

/-- Running events from a state preserves the global invariant as long
as the already-recorded and still-to-come submission ids are jointly
distinct. -/
theorem ginv_runEvents (es : List Event) : ∀ (s : PoolState), GInv s →
    (s.subIds ++ submittedIds es).Nodup → GInv (runEvents es s) := by
  induction es with
  | nil =>
    intro s h _
    exact h
  | cons e rest ih =>
    intro s h hnd
    cases e with
    | submit t =>
      have hnd0 : (s.subIds ++ t.id :: submittedIds rest).Nodup := hnd
      have hfresh : t.id ∉ s.subIds := by
        intro hcon
        obtain ⟨-, -, hdis⟩ := List.nodup_append.mp hnd0
        exact hdis hcon (List.mem_cons_self _ _)
      have hnd1 : ((submitTask t s).subIds ++ submittedIds rest).Nodup := by
        rw [submitTask_subIds, List.append_assoc]
        exact hnd0
      exact ih (submitTask t s) (ginv_submitTask t s h hfresh) hnd1
    | message w r =>
      have hnd1 : ((handleWorkerMessage w r s).subIds ++ submittedIds rest).Nodup := by
        rw [handleWorkerMessage_subIds]
        exact hnd
      exact ih _ (ginv_handleWorkerMessage w r s h) hnd1
    | workerError w err =>
      have hnd1 : ((handleWorkerError w err s).subIds ++ submittedIds rest).Nodup := by
        rw [handleWorkerError, errLoop_subIds]
        exact hnd
      exact ih _ (ginv_handleWorkerError w err s h) hnd1
    | exited w =>
      exact ih _ (ginv_removeWorker w s h) hnd
    | cancel tid =>
      have hnd1 : (((cancelTask tid s).2).subIds ++ submittedIds rest).Nodup := by
        rw [cancelTask_subIds]
        exact hnd
      exact ih _ (ginv_cancelTask tid s h) hnd1
    | fire tn =>
      have hnd1 : ((timerFire tn s).subIds ++ submittedIds rest).Nodup := by
        rw [timerFire_subIds]
        exact hnd
      exact ih _ (ginv_timerFire tn s h) hnd1
    | addW =>
      exact ih _ (ginv_addWorker s h) hnd
    | shutdownEvent =>
      have hnd1 : ((shutdown s).subIds ++ submittedIds rest).Nodup := by
        rw [shutdown_eq]
        exact hnd
      exact ih _ (ginv_shutdown s h) hnd1

/-- From the fresh pool, any run whose submitted ids are pairwise
distinct satisfies the global invariant at the end. -/
theorem ginv_reachable (m : Nat) (es : List Event)
    (hnd : (submittedIds es).Nodup) : GInv (runEvents es (initState m)) := by
  apply ginv_runEvents es (initState m) (ginv_initState m)
  exact hnd

/-- Every settlement present after the handleWorkerError iteration was
either already present or is a rejection with the error, recorded only
because some snapshot entry is assigned to the failed worker. -/
theorem errLoop_settled_src (w : Nat) (err : String) (L : List (String × ActiveInfo)) :
    ∀ (s : PoolState), ∀ q ∈ (errLoop w err L s).settled,
      q ∈ s.settled ∨ (q.2 = Outcome.rejected err ∧ ∃ p ∈ L, p.2.worker = w) := by
  induction L with
  | nil =>
    intro s q hq
    exact Or.inl hq
  | cons p rest ih =>
    intro s q hq
    obtain ⟨tid, info⟩ := p
    by_cases hw : info.worker = w
    · simp only [errLoop, if_pos hw] at hq
      revert hq
      cases hc : mapGet (w, tid) s.callbacks with
      | none =>
        intro hq
        rcases ih _ q hq with hm | ⟨he, p', hp', hw'⟩
        · have hm2 : q ∈ (clearTimeoutOpt info.timeout s).settled := hm
          rw [clearTimeoutOpt_settled] at hm2
          exact Or.inl hm2
        · exact Or.inr ⟨he, p', List.mem_cons_of_mem _ hp', hw'⟩
      | some cb =>
        intro hq
        rcases ih _ q hq with hm | ⟨he, p', hp', hw'⟩
        · have hm2 : q ∈ (clearTimeoutOpt info.timeout ({ settle cb (Outcome.rejected err) s with callbacks := mapDel (w, tid) (settle cb (Outcome.rejected err) s).callbacks } : PoolState)).settled := hm
          rw [clearTimeoutOpt_settled] at hm2
          have hm3 : q ∈ s.settled ++ [(cb, Outcome.rejected err)] := hm2
          rcases List.mem_append.mp hm3 with hm4 | hm4
          · exact Or.inl hm4
          · simp at hm4
            refine Or.inr ⟨?_, (tid, info), List.mem_cons_self _ _, hw⟩
            rw [hm4]
        · exact Or.inr ⟨he, p', List.mem_cons_of_mem _ hp', hw'⟩
    · simp only [errLoop, if_neg hw] at hq
      rcases ih s q hq with hm | ⟨he, p', hp', hw'⟩
      · exact Or.inl hm
      · exact Or.inr ⟨he, p', List.mem_cons_of_mem _ hp', hw'⟩

/-- A result whose taskId is unknown to activeTasks is discarded:
handleWorkerMessage returns the state unchanged. -/
theorem handleWorkerMessage_discard (w : Nat) (r : WorkerTaskResult) (s : PoolState)
    (h : mapGet r.taskId s.activeTasks = none) : handleWorkerMessage w r s = s := by
  simp only [handleWorkerMessage, h]

/-- Under the global invariant every pending submission has settled at
most once. -/
theorem ginv_settledCount_le_one (s : PoolState) (h : GInv s) (cb : Nat) :
    settledCount s cb ≤ 1 := by
  rcases h.states cb with h1 | h2 | h5 | h3
  · rw [h1.1]
    omega
  · rw [h2.1]
    omega
  · rw [h5.1]
    omega
  · exact h3.1

/-- C9 (amended): provided no task id is ever submitted twice, every
pending submission's callbacks are invoked at most once along any event
run from a fresh pool; a worker result whose taskId is absent from
activeTasks is discarded without settling anything or changing any pool
state; and worker-error handling records new settlements only as
rejections tied to activeTasks entries assigned to the failed worker.
Without the distinct-ids proviso the at-most-once part fails (see the
counterexample). -/
theorem c9_amended :
    (∀ (m : Nat) (es : List Event), (submittedIds es).Nodup →
      ∀ cb, settledCount (runEvents es (initState m)) cb ≤ 1) ∧
    (∀ (w : Nat) (r : WorkerTaskResult) (s : PoolState),
      mapGet r.taskId s.activeTasks = none → handleWorkerMessage w r s = s) ∧
    (∀ (w : Nat) (err : String) (s : PoolState),
      ∀ q ∈ (handleWorkerError w err s).settled,
        q ∈ s.settled ∨ (q.2 = Outcome.rejected err ∧ ∃ p ∈ s.activeTasks, p.2.worker = w)) := by
  refine ⟨?_, ?_, ?_⟩
  · intro m es hnd cb
    exact ginv_settledCount_le_one _ (ginv_reachable m es hnd) cb
  · intro w r s h
    exact handleWorkerMessage_discard w r s h
  · intro w err s q hq
    rw [handleWorkerError] at hq
    exact errLoop_settled_src w err s.activeTasks s q hq

/-- Witness for C9 (amended): a concrete distinct-ids run (a timed-out
task and a completed task), a concrete discarded unknown result, and a
concrete worker-error rejection sourced from an activeTasks entry. -/
theorem c9_amended_witness :
    (submittedIds [Event.addW, Event.submit ⟨"a", "work", 0, none, some 50⟩,
      Event.submit ⟨"b", "work", 0, some 2, none⟩, Event.fire 0,
      Event.message 0 ⟨"a", true, some 7, none⟩]).Nodup ∧
    (∀ cb, settledCount (runEvents [Event.addW, Event.submit ⟨"a", "work", 0, none, some 50⟩,
      Event.submit ⟨"b", "work", 0, some 2, none⟩, Event.fire 0,
      Event.message 0 ⟨"a", true, some 7, none⟩] (initState 3)) cb ≤ 1) ∧
    mapGet "zz" (initState 3).activeTasks = none ∧
    handleWorkerMessage 0 ⟨"zz", true, some 1, none⟩ (initState 3) = initState 3 ∧
    (0, Outcome.rejected "boom") ∈ (handleWorkerError 0 "boom"
      (runEvents [Event.addW, Event.submit ⟨"c", "work", 0, none, none⟩]
        (initState 2))).settled ∧
    ((0, Outcome.rejected "boom") ∈ (runEvents [Event.addW,
        Event.submit ⟨"c", "work", 0, none, none⟩] (initState 2)).settled ∨
      ((0, Outcome.rejected "boom").2 = Outcome.rejected "boom" ∧
        ∃ p ∈ (runEvents [Event.addW, Event.submit ⟨"c", "work", 0, none, none⟩]
          (initState 2)).activeTasks, p.2.worker = 0)) :=
  ⟨by decide,
   c9_amended.1 3 [Event.addW, Event.submit ⟨"a", "work", 0, none, some 50⟩,
     Event.submit ⟨"b", "work", 0, some 2, none⟩, Event.fire 0,
     Event.message 0 ⟨"a", true, some 7, none⟩] (by decide),
   rfl,
   c9_amended.2.1 0 ⟨"zz", true, some 1, none⟩ (initState 3) rfl,
   by decide,
   c9_amended.2.2 0 "boom"
     (runEvents [Event.addW, Event.submit ⟨"c", "work", 0, none, none⟩] (initState 2))
     (0, Outcome.rejected "boom") (by decide)⟩
